import Mathlib

/-!
# wag: the rule parser of `internal/routetypes/parser.go`

A shallow embedding of the rule parser and proofs about it.

Conventions of the embedding.

* Go strings are lists of characters (`List Char`), that is, valid UTF-8; a
  string literal of the source appears as `"...".toList`.
* A Go `error` value is `Option Error`: `none` is `nil`, `some msg` is an
  error whose text is `msg`.  A function returning `(T, error)` returns a pair.
* Go slices of `Policy` are modelled with their backing arrays, because
  `ParseRules` stores the same slice header in several places and appends
  through them: a `Slice` is a pointer into a `Heap` of arrays.
* The functions of the Go standard library that the parser calls on strings
  (`strings.Fields`, `strings.Split`, `strings.ToLower`, `strconv.Atoi`) are
  written out; the functions of package `net` are parameters (`NetEnv`), and so
  are the constants `SINGLE`, `RANGE`, `PUBLIC` (`PolicyTypes`).
* A call that can panic returns an `Outcome`.
-/

namespace Wag

/-! ## Go library: strings and numbers -/

/-- Go's error text. -/
abbrev Error := List Char

/-- The conversion `uint16(x)` of a Go `int`: the low 16 bits. -/
def uint16 (x : Int) : Nat := (x % 65536).toNat

/-- Go's `unicode.IsSpace`: the white space characters `strings.Fields` splits on. -/
def isSpace (c : Char) : Bool :=
  c.toNat = 0x09 || c.toNat = 0x0A || c.toNat = 0x0B || c.toNat = 0x0C || c.toNat = 0x0D ||
  c.toNat = 0x20 || c.toNat = 0x85 || c.toNat = 0xA0 || c.toNat = 0x1680 ||
  (0x2000 ≤ c.toNat && c.toNat ≤ 0x200A) || c.toNat = 0x2028 || c.toNat = 0x2029 ||
  c.toNat = 0x202F || c.toNat = 0x205F || c.toNat = 0x3000

/-- Loop of `strings.Fields`: `cur` is the field being read (empty between fields). -/
def fieldsAux : List Char → List Char → List (List Char)
  | [], cur => if cur = [] then [] else [cur]
  | c :: cs, cur =>
    if isSpace c then
      (if cur = [] then fieldsAux cs [] else cur :: fieldsAux cs [])
    else fieldsAux cs (cur ++ [c])

/-- Go's `strings.Fields`: the maximal runs of non-space characters, in order. -/
def Fields (s : List Char) : List (List Char) := fieldsAux s []

/-- Loop of `strings.Split` for a one-character separator. -/
def splitAux (sep : Char) : List Char → List Char → List (List Char)
  | [], cur => [cur]
  | c :: cs, cur => if c = sep then cur :: splitAux sep cs [] else splitAux sep cs (cur ++ [c])

/-- Go's `strings.Split(s, sep)` for the one-character separators the parser
uses (`"/"` and `"-"`): all substrings between separators, empty ones included. -/
def Split (s : List Char) (sep : Char) : List (List Char) := splitAux sep s []

/-- The lower-case mappings of Go's `unicode.ToLower` above ASCII, which Go keeps
in `unicode.CaseRanges`: the simple lower-case mappings of the Unicode character
database (here of version 14.0.0).  An entry
`(lo, hi, stride, to)` says that a character `c` of `lo..hi` at a multiple of
`stride` from `lo` has the lower case `to + (c - lo)`; a character of no entry
is its own lower case. -/
def lowerCaseRanges : List (Nat × Nat × Nat × Nat) :=
  [
   (0xC0, 0xD6, 1, 0xE0), (0xD8, 0xDE, 1, 0xF8), (0x100, 0x12E, 2, 0x101),
   (0x130, 0x130, 1, 0x69), (0x132, 0x136, 2, 0x133), (0x139, 0x147, 2, 0x13A),
   (0x14A, 0x176, 2, 0x14B), (0x178, 0x178, 1, 0xFF), (0x179, 0x17D, 2, 0x17A),
   (0x181, 0x181, 1, 0x253), (0x182, 0x184, 2, 0x183), (0x186, 0x186, 1, 0x254),
   (0x187, 0x187, 1, 0x188), (0x189, 0x18A, 1, 0x256), (0x18B, 0x18B, 1, 0x18C),
   (0x18E, 0x18E, 1, 0x1DD), (0x18F, 0x18F, 1, 0x259), (0x190, 0x190, 1, 0x25B),
   (0x191, 0x191, 1, 0x192), (0x193, 0x193, 1, 0x260), (0x194, 0x194, 1, 0x263),
   (0x196, 0x196, 1, 0x269), (0x197, 0x197, 1, 0x268), (0x198, 0x198, 1, 0x199),
   (0x19C, 0x19C, 1, 0x26F), (0x19D, 0x19D, 1, 0x272), (0x19F, 0x19F, 1, 0x275),
   (0x1A0, 0x1A4, 2, 0x1A1), (0x1A6, 0x1A6, 1, 0x280), (0x1A7, 0x1A7, 1, 0x1A8),
   (0x1A9, 0x1A9, 1, 0x283), (0x1AC, 0x1AC, 1, 0x1AD), (0x1AE, 0x1AE, 1, 0x288),
   (0x1AF, 0x1AF, 1, 0x1B0), (0x1B1, 0x1B2, 1, 0x28A), (0x1B3, 0x1B5, 2, 0x1B4),
   (0x1B7, 0x1B7, 1, 0x292), (0x1B8, 0x1B8, 1, 0x1B9), (0x1BC, 0x1BC, 1, 0x1BD),
   (0x1C4, 0x1C4, 1, 0x1C6), (0x1C5, 0x1C5, 1, 0x1C6), (0x1C7, 0x1C7, 1, 0x1C9),
   (0x1C8, 0x1C8, 1, 0x1C9), (0x1CA, 0x1CA, 1, 0x1CC), (0x1CB, 0x1DB, 2, 0x1CC),
   (0x1DE, 0x1EE, 2, 0x1DF), (0x1F1, 0x1F1, 1, 0x1F3), (0x1F2, 0x1F4, 2, 0x1F3),
   (0x1F6, 0x1F6, 1, 0x195), (0x1F7, 0x1F7, 1, 0x1BF), (0x1F8, 0x21E, 2, 0x1F9),
   (0x220, 0x220, 1, 0x19E), (0x222, 0x232, 2, 0x223), (0x23A, 0x23A, 1, 0x2C65),
   (0x23B, 0x23B, 1, 0x23C), (0x23D, 0x23D, 1, 0x19A), (0x23E, 0x23E, 1, 0x2C66),
   (0x241, 0x241, 1, 0x242), (0x243, 0x243, 1, 0x180), (0x244, 0x244, 1, 0x289),
   (0x245, 0x245, 1, 0x28C), (0x246, 0x24E, 2, 0x247), (0x370, 0x372, 2, 0x371),
   (0x376, 0x376, 1, 0x377), (0x37F, 0x37F, 1, 0x3F3), (0x386, 0x386, 1, 0x3AC),
   (0x388, 0x38A, 1, 0x3AD), (0x38C, 0x38C, 1, 0x3CC), (0x38E, 0x38F, 1, 0x3CD),
   (0x391, 0x3A1, 1, 0x3B1), (0x3A3, 0x3AB, 1, 0x3C3), (0x3CF, 0x3CF, 1, 0x3D7),
   (0x3D8, 0x3EE, 2, 0x3D9), (0x3F4, 0x3F4, 1, 0x3B8), (0x3F7, 0x3F7, 1, 0x3F8),
   (0x3F9, 0x3F9, 1, 0x3F2), (0x3FA, 0x3FA, 1, 0x3FB), (0x3FD, 0x3FF, 1, 0x37B),
   (0x400, 0x40F, 1, 0x450), (0x410, 0x42F, 1, 0x430), (0x460, 0x480, 2, 0x461),
   (0x48A, 0x4BE, 2, 0x48B), (0x4C0, 0x4C0, 1, 0x4CF), (0x4C1, 0x4CD, 2, 0x4C2),
   (0x4D0, 0x52E, 2, 0x4D1), (0x531, 0x556, 1, 0x561), (0x10A0, 0x10C5, 1, 0x2D00),
   (0x10C7, 0x10C7, 1, 0x2D27), (0x10CD, 0x10CD, 1, 0x2D2D), (0x13A0, 0x13EF, 1, 0xAB70),
   (0x13F0, 0x13F5, 1, 0x13F8), (0x1C90, 0x1CBA, 1, 0x10D0), (0x1CBD, 0x1CBF, 1, 0x10FD),
   (0x1E00, 0x1E94, 2, 0x1E01), (0x1E9E, 0x1E9E, 1, 0xDF), (0x1EA0, 0x1EFE, 2, 0x1EA1),
   (0x1F08, 0x1F0F, 1, 0x1F00), (0x1F18, 0x1F1D, 1, 0x1F10), (0x1F28, 0x1F2F, 1, 0x1F20),
   (0x1F38, 0x1F3F, 1, 0x1F30), (0x1F48, 0x1F4D, 1, 0x1F40), (0x1F59, 0x1F5F, 2, 0x1F51),
   (0x1F68, 0x1F6F, 1, 0x1F60), (0x1F88, 0x1F8F, 1, 0x1F80), (0x1F98, 0x1F9F, 1, 0x1F90),
   (0x1FA8, 0x1FAF, 1, 0x1FA0), (0x1FB8, 0x1FB9, 1, 0x1FB0), (0x1FBA, 0x1FBB, 1, 0x1F70),
   (0x1FBC, 0x1FBC, 1, 0x1FB3), (0x1FC8, 0x1FCB, 1, 0x1F72), (0x1FCC, 0x1FCC, 1, 0x1FC3),
   (0x1FD8, 0x1FD9, 1, 0x1FD0), (0x1FDA, 0x1FDB, 1, 0x1F76), (0x1FE8, 0x1FE9, 1, 0x1FE0),
   (0x1FEA, 0x1FEB, 1, 0x1F7A), (0x1FEC, 0x1FEC, 1, 0x1FE5), (0x1FF8, 0x1FF9, 1, 0x1F78),
   (0x1FFA, 0x1FFB, 1, 0x1F7C), (0x1FFC, 0x1FFC, 1, 0x1FF3), (0x2126, 0x2126, 1, 0x3C9),
   (0x212A, 0x212A, 1, 0x6B), (0x212B, 0x212B, 1, 0xE5), (0x2132, 0x2132, 1, 0x214E),
   (0x2160, 0x216F, 1, 0x2170), (0x2183, 0x2183, 1, 0x2184), (0x24B6, 0x24CF, 1, 0x24D0),
   (0x2C00, 0x2C2F, 1, 0x2C30), (0x2C60, 0x2C60, 1, 0x2C61), (0x2C62, 0x2C62, 1, 0x26B),
   (0x2C63, 0x2C63, 1, 0x1D7D), (0x2C64, 0x2C64, 1, 0x27D), (0x2C67, 0x2C6B, 2, 0x2C68),
   (0x2C6D, 0x2C6D, 1, 0x251), (0x2C6E, 0x2C6E, 1, 0x271), (0x2C6F, 0x2C6F, 1, 0x250),
   (0x2C70, 0x2C70, 1, 0x252), (0x2C72, 0x2C72, 1, 0x2C73), (0x2C75, 0x2C75, 1, 0x2C76),
   (0x2C7E, 0x2C7F, 1, 0x23F), (0x2C80, 0x2CE2, 2, 0x2C81), (0x2CEB, 0x2CED, 2, 0x2CEC),
   (0x2CF2, 0x2CF2, 1, 0x2CF3), (0xA640, 0xA66C, 2, 0xA641), (0xA680, 0xA69A, 2, 0xA681),
   (0xA722, 0xA72E, 2, 0xA723), (0xA732, 0xA76E, 2, 0xA733), (0xA779, 0xA77B, 2, 0xA77A),
   (0xA77D, 0xA77D, 1, 0x1D79), (0xA77E, 0xA786, 2, 0xA77F), (0xA78B, 0xA78B, 1, 0xA78C),
   (0xA78D, 0xA78D, 1, 0x265), (0xA790, 0xA792, 2, 0xA791), (0xA796, 0xA7A8, 2, 0xA797),
   (0xA7AA, 0xA7AA, 1, 0x266), (0xA7AB, 0xA7AB, 1, 0x25C), (0xA7AC, 0xA7AC, 1, 0x261),
   (0xA7AD, 0xA7AD, 1, 0x26C), (0xA7AE, 0xA7AE, 1, 0x26A), (0xA7B0, 0xA7B0, 1, 0x29E),
   (0xA7B1, 0xA7B1, 1, 0x287), (0xA7B2, 0xA7B2, 1, 0x29D), (0xA7B3, 0xA7B3, 1, 0xAB53),
   (0xA7B4, 0xA7C2, 2, 0xA7B5), (0xA7C4, 0xA7C4, 1, 0xA794), (0xA7C5, 0xA7C5, 1, 0x282),
   (0xA7C6, 0xA7C6, 1, 0x1D8E), (0xA7C7, 0xA7C9, 2, 0xA7C8), (0xA7D0, 0xA7D0, 1, 0xA7D1),
   (0xA7D6, 0xA7D8, 2, 0xA7D7), (0xA7F5, 0xA7F5, 1, 0xA7F6), (0xFF21, 0xFF3A, 1, 0xFF41),
   (0x10400, 0x10427, 1, 0x10428), (0x104B0, 0x104D3, 1, 0x104D8), (0x10570, 0x1057A, 1, 0x10597),
   (0x1057C, 0x1058A, 1, 0x105A3), (0x1058C, 0x10592, 1, 0x105B3), (0x10594, 0x10595, 1, 0x105BB),
   (0x10C80, 0x10CB2, 1, 0x10CC0), (0x118A0, 0x118BF, 1, 0x118C0), (0x16E40, 0x16E5F, 1, 0x16E60),
   (0x1E900, 0x1E921, 1, 0x1E922)
  ]

/-- The lower case of a code point above ASCII, by `lowerCaseRanges`. -/
def unicodeLower (c : Nat) : Nat :=
  match lowerCaseRanges.find? (fun e => decide (e.1 ≤ c ∧ c ≤ e.2.1 ∧ (c - e.1) % e.2.2.1 = 0)) with
  | some e => e.2.2.2 + (c - e.1)
  | none => c

/-- Go's `unicode.ToLower` on one character: `A..Z` go to `a..z`, every other
ASCII character stays, and a character above ASCII goes to its lower case of
the Unicode tables. -/
def toLowerRune (c : Char) : Char :=
  if 65 ≤ c.toNat ∧ c.toNat ≤ 90 then Char.ofNat (c.toNat + 32)
  else if c.toNat < 128 then c
  else Char.ofNat (unicodeLower c.toNat)

/-- Go's `strings.ToLower`. -/
def ToLower (s : List Char) : List Char := s.map toLowerRune

/-- A decimal digit. -/
def isDigit (c : Char) : Bool := 48 ≤ c.toNat && c.toNat ≤ 57

/-- The value of a string of decimal digits. -/
def digitsValue (ds : List Char) : Nat := ds.foldl (fun acc c => 10 * acc + (c.toNat - 48)) 0

/-- An unsigned decimal numeral below `bound`. -/
def parseDigits (ds : List Char) (bound : Nat) : Option Nat :=
  if ds ≠ [] ∧ ds.all isDigit = true ∧ digitsValue ds < bound then some (digitsValue ds) else none

/-- Go's `strconv.Atoi` for a 64-bit `int`: an optional sign, then one or more
decimal digits, the value in `[-2^63, 2^63)`; `none` is an error. -/
def Atoi (s : List Char) : Option Int :=
  match s with
  | [] => none
  | c :: ds =>
    if c = '-' then
      match parseDigits ds (2 ^ 63 + 1) with
      | some v => some (-(Int.ofNat v))
      | none => none
    else if c = '+' then
      match parseDigits ds (2 ^ 63) with
      | some v => some (Int.ofNat v)
      | none => none
    else
      match parseDigits (c :: ds) (2 ^ 63) with
      | some v => some (Int.ofNat v)
      | none => none

/-! ## Policies -/

/-- The type `Policy`: four `uint16` fields. -/
structure Policy where
  PolicyType : Nat
  Proto : Nat
  LowerPort : Nat
  UpperPort : Nat
deriving DecidableEq, Repr

/-- The zero value `Policy{}`. -/
def Policy.zero : Policy := ⟨0, 0, 0, 0⟩

def MAX_POLICIES : Nat := 128
def ICMP : Nat := 1
def TCP : Nat := 6
def UDP : Nat := 17

/-- Modelled from the spec: the constant `ANY` is declared outside `parser.go`;
the spec gives `ANY=0`. -/
def ANY : Nat := 0

/-- The policy type constants `SINGLE`, `RANGE` and `PUBLIC`.  They are declared
outside `parser.go` and the spec gives no values, so they are parameters.  They
are constants of a 16-bit type. -/
structure PolicyTypes where
  SINGLE : Nat
  RANGE : Nat
  PUBLIC : Nat
deriving DecidableEq, Repr

def parsePortRange (T : PolicyTypes) (lowerPort upperPort proto : List Char) :
    Policy × Option Error :=
  match Atoi lowerPort with
  | none =>
    (Policy.zero, some ("could not convert lower port defintion to number: ".toList ++ lowerPort))
  | some lowerPortNum =>
    match Atoi upperPort with
    | none =>
      (Policy.zero, some ("could not convert upper port defintion to number: ".toList ++ upperPort))
    | some upperPortNum =>
      if lowerPortNum > upperPortNum then
        (Policy.zero, some ("lower port cannot be higher than upper power: lower: ".toList
          ++ lowerPort ++ " upper: ".toList ++ upperPort))
      else if proto = "any".toList then
        (⟨T.RANGE, ANY, uint16 lowerPortNum, uint16 upperPortNum⟩, none)
      else if proto = "tcp".toList ∨ proto = "udp".toList then
        let service := if proto = "udp".toList then UDP else TCP
        (⟨T.RANGE, uint16 service, uint16 lowerPortNum, uint16 upperPortNum⟩, none)
      else
        (Policy.zero, some ("unknown service: ".toList ++ proto))

def parseSinglePort (T : PolicyTypes) (port proto : List Char) : Policy × Option Error :=
  match Atoi port with
  | none => (Policy.zero, some ("could not convert port defintion to number: ".toList ++ port))
  | some portNumber =>
    if proto = "any".toList then
      (⟨T.SINGLE, ANY, uint16 portNumber, 0⟩, none)
    else if proto = "tcp".toList ∨ proto = "udp".toList then
      let service := if proto = "udp".toList then UDP else TCP
      (⟨T.SINGLE, uint16 service, uint16 portNumber, 0⟩, none)
    else
      (Policy.zero, some ("unknown service: ".toList ++ port ++ "/".toList ++ proto))

/-- The function `parseService`.  `strings.Split` never returns an empty slice,
so `parts[0]` exists, and `parts[1]` and `portRange[1]` are read only when the
length is not 1: no index is out of range. -/
def parseService (T : PolicyTypes) (service : List Char) : Policy × Option Error :=
  match Split service '/' with
  | [] => (Policy.zero, some ("malformed port/service declaration: ".toList ++ service))
  | [p0] =>
    if p0 = "icmp".toList then (⟨T.SINGLE, ICMP, 0, 0⟩, none)
    else (Policy.zero, some ("malformed port/service declaration: ".toList ++ service))
  | p0 :: p1 :: _ =>
    let proto := ToLower p1
    match Split p0 '-' with
    | [] => parseSinglePort T p0 proto
    | [_] => parseSinglePort T p0 proto
    | lo :: hi :: _ => parsePortRange T lo hi proto

/-! ## Go library: package `net` -/

/-- The type `net.IPNet`: an address and a mask, as byte lists (`[]` is `nil`). -/
structure IPNet where
  IP : List Nat
  Mask : List Nat
deriving DecidableEq, Repr

/-- The functions of package `net` the parser calls.  `ParseIP` returns the
bytes of the address (`none` is `nil`), `ParseCIDR` its second result, the
network (`none` is an error), `LookupIP` the resolver's answer (`none` is an
error). -/
structure NetEnv where
  ParseIP : List Char → Option (List Nat)
  ParseCIDR : List Char → Option IPNet
  LookupIP : List Char → Option (List (List Nat))

/-- Go's `IP.To4`: the 4-byte form of an IPv4 address, `[]` (`nil`) otherwise. -/
def To4 (ip : List Nat) : List Nat :=
  if ip.length = 4 then ip
  else if ip.length = 16 ∧ ip.take 10 = List.replicate 10 0 ∧ ip.getD 10 0 = 0xff
      ∧ ip.getD 11 0 = 0xff then ip.drop 12
  else []

/-- Go's `net.IPv4Mask`. -/
def IPv4Mask (a b c d : Nat) : List Nat := [a, b, c, d]

/-- Inner loop of Go's `simpleMaskLength`: count the leading one bits of the
byte `v`, shifting it left; returns the count and what is left of `v`. -/
def countOnes : Nat → Nat → Nat → Nat × Nat
  | 0, v, n => (n, v)
  | fuel + 1, v, n => if v &&& 0x80 ≠ 0 then countOnes fuel ((v <<< 1) % 256) (n + 1) else (n, v)

/-- Go's `simpleMaskLength`: the number of leading ones of a mask of the form
`1..10..0`, `none` (Go: `-1`) for any other mask. -/
def simpleMaskLength : List Nat → Nat → Option Nat
  | [], n => some n
  | v :: rest, n =>
    if v = 0xff then simpleMaskLength rest (n + 8)
    else
      let r := countOnes 8 v n
      if r.2 ≠ 0 then none
      else if rest.all (fun b => b = 0) then some r.1 else none

/-- First result of Go's `IPMask.Size`. -/
def maskSize (m : List Nat) : Nat :=
  match simpleMaskLength m 0 with
  | some ones => ones
  | none => 0

/-! ## Keys -/

/-- The type `Key`: `Prefixlen uint32` and `IP [4]byte`. -/
structure Key where
  Prefixlen : Nat
  IP : List Nat
deriving DecidableEq, Repr

/-- Modelled from the spec: the method `Key.String` is declared outside
`parser.go`; the spec gives the canonical text `"a.b.c.d/n"`. -/
def Key.String (k : Key) : List Char :=
  Nat.toDigits 10 (k.IP.getD 0 0) ++ '.' :: Nat.toDigits 10 (k.IP.getD 1 0) ++ '.' ::
    Nat.toDigits 10 (k.IP.getD 2 0) ++ '.' :: Nat.toDigits 10 (k.IP.getD 3 0) ++ '/' ::
    Nat.toDigits 10 k.Prefixlen

/-- What a Go call does: it returns a value and an error, or it panics. -/
inductive Outcome (α : Type) where
  | ret (val : α) (err : Option Error)
  | fault (msg : Error)
deriving DecidableEq, Repr

def parseAddress (env : NetEnv) (address : List Char) : List IPNet × Option Error :=
  match env.ParseIP address with
  | none =>
    match env.ParseCIDR address with
    | none =>
      match env.LookupIP address with
      | none => ([], some ("unable to resolve address from: ".toList ++ address))
      | some addresses =>
        if addresses.length = 0 then ([], some ("no addresses for ".toList ++ address))
        else
          let resultAddresses := addresses.filterMap (fun addr =>
            if To4 addr ≠ [] then some (IPNet.mk (To4 addr) (IPv4Mask 255 255 255 255)) else none)
          if resultAddresses = [] then
            ([], some ("no addresses for domain ".toList ++ address ++
              " were added, potentially because they were all ipv6 which is unsupported".toList))
          else (resultAddresses, none)
    | some cidr => ([cidr], none)
  | some ip => ([IPNet.mk (To4 ip) (IPv4Mask 255 255 255 255)], none)

/-- Loop of `parseKeys`.  Indexing `ip.IP.To4()[0]` panics when `To4` is `nil`. -/
def parseKeysLoop : List IPNet → List Key → Outcome (List Key)
  | [], keys => .ret keys none
  | ip :: rest, keys =>
    let maskLength := maskSize ip.Mask
    let ip4 := To4 ip.IP
    if ip4.length < 4 then
      .fault ("runtime error: index out of range [0] with length ".toList ++
        Nat.toDigits 10 ip4.length)
    else
      parseKeysLoop rest (keys ++ [Key.mk (maskLength % 2 ^ 32)
        [ip4.getD 0 0, ip4.getD 1 0, ip4.getD 2 0, ip4.getD 3 0]])

def parseKeys (env : NetEnv) (address : List Char) : Outcome (List Key) :=
  match parseAddress env address with
  | (_, some err) => .ret [] (some err)
  | (resultingAddresses, none) => parseKeysLoop resultingAddresses []

/-! ## Slices of policies -/

/-- The backing arrays of the `[]Policy` slices, by address. -/
abbrev Heap := List (List Policy)

/-- A slice header: backing array, length and capacity. -/
structure Slice where
  ptr : Nat
  len : Nat
  cap : Nat
deriving DecidableEq, Repr

/-- The empty slice `[]Policy{}` (also the nil slice): no elements, no capacity. -/
def Slice.empty : Slice := ⟨0, 0, 0⟩

/-- The elements of a slice. -/
def Heap.view (h : Heap) (s : Slice) : List Policy := (h.getD s.ptr []).take s.len

/-- The size classes of the Go allocator, in bytes. -/
def sizeClasses : List Nat :=
  [8, 16, 24, 32, 48, 64, 80, 96, 112, 128, 144, 160, 176, 192, 208, 224, 240, 256, 288, 320,
   352, 384, 416, 448, 480, 512, 576, 640, 704, 768, 896, 1024, 1152, 1280, 1408, 1536, 1792,
   2048, 2304, 2688, 3072, 3200, 3456, 4096, 4864, 5120, 5376, 6144, 6528, 6784, 6912, 8192,
   9472, 9728, 10240, 10880, 12288, 13568, 14336, 16384, 18432, 19072, 20480, 21760, 24576,
   27264, 28672, 32768]

/-- Go runtime `roundupsize` for pointer-free memory: the size class that holds
`size` bytes, whole pages above the largest class. -/
def roundupsize (size : Nat) : Nat :=
  match sizeClasses.find? (fun c => decide (size ≤ c)) with
  | some c => c
  | none => (size + 8191) / 8192 * 8192

/-- The loop of Go runtime `nextslicecap` for capacities from 256. -/
def nextslicecapLoop : Nat → Nat → Nat → Nat
  | 0, newcap, _ => newcap
  | fuel + 1, newcap, newLen =>
    let newcap1 := newcap + (newcap + 3 * 256) / 4
    if newcap1 ≥ newLen then newcap1 else nextslicecapLoop fuel newcap1 newLen

/-- Go runtime `nextslicecap`: the capacity wanted when a slice of capacity
`oldCap` must grow to hold `newLen` elements. -/
def nextslicecap (newLen oldCap : Nat) : Nat :=
  if newLen > oldCap + oldCap then newLen
  else if oldCap < 256 then oldCap + oldCap
  else nextslicecapLoop newLen oldCap newLen

/-- Go runtime `growslice` for the 8-byte `Policy`: the capacity of the new array. -/
def growslice (oldCap newLen : Nat) : Nat := roundupsize (nextslicecap newLen oldCap * 8) / 8

/-- Go's `make([]Policy, 0, n)`: a new zeroed array. -/
def makeSlice (h : Heap) (n : Nat) : Heap × Slice :=
  (h ++ [List.replicate n Policy.zero], ⟨h.length, 0, n⟩)

/-- Go's `append(s, xs...)`: when the capacity suffices the elements are written
into the backing array of `s` behind its length, otherwise a new array is
allocated and the old elements are copied. -/
def appendSlice (h : Heap) (s : Slice) (xs : List Policy) : Heap × Slice :=
  if s.len + xs.length ≤ s.cap then
    let arr := h.getD s.ptr []
    (h.set s.ptr (arr.take s.len ++ xs ++ arr.drop (s.len + xs.length)),
      ⟨s.ptr, s.len + xs.length, s.cap⟩)
  else
    let newcap := growslice s.cap (s.len + xs.length)
    (h ++ [h.view s ++ xs ++ List.replicate (newcap - (s.len + xs.length)) Policy.zero],
      ⟨h.length, s.len + xs.length, newcap⟩)

/-! ## Rules -/

/-- The type `Rule`.  `Keys` is never written after it is built, so it is a list. -/
structure Rule where
  Keys : List Key
  NumPolicies : Nat
  Values : Slice
deriving DecidableEq, Repr

/-- The zero value `Rule{}`. -/
def Rule.zero : Rule := ⟨[], 0, Slice.empty⟩

/-- The loop of `parseRule` over `ruleParts[1:]`. -/
def parseRuleLoop (T : PolicyTypes) (restrictionType : Nat) :
    List (List Char) → Heap → Rule → (Rule × Heap) × Option Error
  | [], h, rules => ((rules, h), none)
  | field :: rest, h, rules =>
    match parseService T field with
    | (_, some err) => ((rules, h), some err)
    | (policy, none) =>
      let policy1 : Policy :=
        { policy with PolicyType := uint16 restrictionType ||| policy.PolicyType }
      let r := appendSlice h rules.Values [policy1]
      parseRuleLoop T restrictionType rest r.1 { rules with Values := r.2 }

def parseRule (env : NetEnv) (T : PolicyTypes) (h : Heap) (restrictionType : Nat)
    (rule : List Char) : Outcome (Rule × Heap) :=
  match Fields rule with
  | [] => .ret (Rule.zero, h) (some "could not split correct number of rules".toList)
  | address :: services =>
    match parseKeys env address with
    | .fault msg => .fault msg
    | .ret _ (some err) =>
      .ret (Rule.zero, h) (some ("could not parse keys from address ".toList ++ address ++
        " err: ".toList ++ err))
    | .ret keys none =>
      let rules : Rule := { Keys := keys, NumPolicies := 0, Values := Slice.empty }
      if services = [] then
        let r := appendSlice h rules.Values [⟨uint16 restrictionType ||| T.SINGLE, ANY, ANY, 0⟩]
        .ret ({ rules with Values := r.2 }, r.1) none
      else
        match parseRuleLoop T restrictionType services h rules with
        | (val, err) => .ret val err

/-- The local state of `ParseRules`: the heap, `result` and `cache`. -/
structure ParseState where
  heap : Heap
  result : List Rule
  cache : List (List Char × Nat)
deriving DecidableEq, Repr

/-- Lookup in the Go map `cache`. -/
def cacheLookup (cache : List (List Char × Nat)) (k : List Char) : Option Nat :=
  (cache.find? (fun e => decide (e.1 = k))).map (fun e => e.2)

/-- The loop `for i := range r.Keys` of `ParseRules`. -/
def mergeKeys (r : Rule) : List Key → ParseState → ParseState
  | [], st => st
  | k :: ks, st =>
    match cacheLookup st.cache k.String with
    | some index =>
      let target := st.result.getD index Rule.zero
      let a := appendSlice st.heap target.Values (st.heap.view r.Values)
      mergeKeys r ks
        { heap := a.1, result := st.result.set index { target with Values := a.2 },
          cache := st.cache }
    | none =>
      mergeKeys r ks
        { heap := st.heap, result := st.result ++ [r],
          cache := (k.String, st.result.length) :: st.cache }

/-- One of the two loops `for _, rule := range ...` of `ParseRules`. -/
def parseList (env : NetEnv) (T : PolicyTypes) (restrictionType : Nat) :
    List (List Char) → ParseState → Outcome ParseState
  | [], st => .ret st none
  | rule :: rest, st =>
    match parseRule env T st.heap restrictionType rule with
    | .fault msg => .fault msg
    | .ret _ (some err) => .ret st (some err)
    | .ret (r, h) none =>
      parseList env T restrictionType rest (mergeKeys r r.Keys { st with heap := h })

/-- The last loop of `ParseRules`: the check against `MAX_POLICIES` and the
padding of every `Values` to `MAX_POLICIES` entries; `none` is the error. -/
def padRules : List Rule → Heap → Option (List Rule × Heap)
  | [], h => some ([], h)
  | r :: rs, h =>
    if r.Values.len > MAX_POLICIES then none
    else
      let m := makeSlice h MAX_POLICIES
      let a := appendSlice m.1 m.2 (m.1.view r.Values)
      match padRules rs a.1 with
      | none => none
      | some (rs1, h1) =>
        some ({ r with NumPolicies := r.Values.len, Values := ⟨a.2.ptr, a.2.cap, a.2.cap⟩ } :: rs1,
          h1)

/-- The two parsing loops of `ParseRules`, up to the last loop: the state in
which they end, with the error that stopped them. -/
def mergeRules (env : NetEnv) (T : PolicyTypes) (mfa «public» : List (List Char)) :
    Outcome ParseState :=
  match parseList env T 0 mfa ⟨[], [], []⟩ with
  | .fault msg => .fault msg
  | .ret st (some err) => .ret st (some err)
  | .ret st none => parseList env T T.PUBLIC «public» st

/-- The function `ParseRules`; the result comes with the heap its slices point into. -/
def ParseRules (env : NetEnv) (T : PolicyTypes) (mfa «public» : List (List Char)) :
    Outcome (List Rule × Heap) :=
  match mergeRules env T mfa «public» with
  | .fault msg => .fault msg
  | .ret st (some err) => .ret ([], st.heap) (some err)
  | .ret st none =>
    match padRules st.result st.heap with
    | none =>
      .ret ([], st.heap) (some "number of policies defined was greather than max".toList)
    | some (result, h) => .ret (result, h) none

def ValidateRules (env : NetEnv) (T : PolicyTypes) (mfa «public» : List (List Char)) :
    Outcome Unit :=
  match ParseRules env T mfa «public» with
  | .fault msg => .fault msg
  | .ret _ err => .ret () err

/-- The function `AclsToRoutes`; `routes` is the accumulated result. -/
def aclsToRoutesLoop (env : NetEnv) (rules : List (List Char)) :
    List (List Char) → List (List Char) → Outcome (List (List Char))
  | [], routes => .ret routes none
  | rule :: rest, routes =>
    match Fields rule with
    | [] => .ret [] (some "could not split correct number of rules".toList)
    | address :: _ =>
      match parseKeys env address with
      | .fault msg => .fault msg
      | .ret _ (some err) =>
        .ret rules (some ("could not parse address ".toList ++ address ++ " err: ".toList ++ err))
      | .ret keys none => aclsToRoutesLoop env rules rest (routes ++ keys.map Key.String)

def AclsToRoutes (env : NetEnv) (rules : List (List Char)) : Outcome (List (List Char)) :=
  aclsToRoutesLoop env rules rules []

/-! ## A concrete `net` for examples -/

/-- One field of a dotted-decimal IPv4 address: 1 to 3 digits, no leading zero,
at most 255. -/
def parseOctet (f : List Char) : Option Nat :=
  if f ≠ [] ∧ f.all isDigit = true ∧ f.length ≤ 3 ∧ (1 < f.length → f.head? ≠ some '0')
      ∧ digitsValue f ≤ 255 then some (digitsValue f) else none

/-- A dotted-decimal IPv4 address, as `net.ParseIP` reads it. -/
def parseIPv4 (s : List Char) : Option (List Nat) :=
  match (Split s '.').map parseOctet with
  | [some a, some b, some c, some d] => some [a, b, c, d]
  | _ => none

/-- The 16-byte form in which `net.ParseIP` returns an IPv4 address. -/
def v4in16 (ip : List Nat) : List Nat := List.replicate 10 0 ++ [0xff, 0xff] ++ ip

/-- Go's `net.CIDRMask(ones, 32)`. -/
def CIDRMask32 (ones : Nat) : List Nat :=
  (List.range 4).map (fun i =>
    if 8 * (i + 1) ≤ ones then 0xff
    else if ones ≤ 8 * i then 0
    else 256 - 2 ^ (8 - (ones - 8 * i)))

/-- An IPv4 network `a.b.c.d/n` as `net.ParseCIDR` reads it: the address is
masked. -/
def parseCIDRv4 (s : List Char) : Option IPNet :=
  match Split s '/' with
  | addr :: m :: rest =>
    let mask := List.intercalate ['/'] (m :: rest)
    match parseIPv4 addr, parseDigits mask 33 with
    | some ip, some n => some ⟨List.zipWith (fun a b => a &&& b) ip (CIDRMask32 n), CIDRMask32 n⟩
    | _, _ => none
  | _ => none

/-- A `net` that knows IPv4 literals, IPv4 networks and the names of a host
table (it reads no IPv6 literal). -/
def exampleNet (hosts : List (List Char × List (List Nat))) : NetEnv where
  ParseIP := fun s => (parseIPv4 s).map v4in16
  ParseCIDR := parseCIDRv4
  LookupIP := fun s => (hosts.find? (fun e => decide (e.1 = s))).map (fun e => e.2)

/-! ## Vocabulary of the statements -/

/-- The upper-case form of a lower-case ASCII letter. -/
def asciiUpper (c : Char) : Char :=
  if 97 ≤ c.toNat ∧ c.toNat ≤ 122 then Char.ofNat (c.toNat - 32) else c

/-- Whether `s` is the word `w` in some letter case: letter by letter, the
letter of `w` or its upper-case form. -/
def letterCaseOf : List Char → List Char → Bool
  | [], [] => true
  | c :: w, x :: s => (x = c || x = asciiUpper c) && letterCaseOf w s
  | _, _ => false

/-- An unsigned decimal numeral: one or more decimal digits. -/
def isNumeral (ds : List Char) : Prop := ds ≠ [] ∧ ds.all isDigit = true

instance (ds : List Char) : Decidable (isNumeral ds) := by
  unfold isNumeral; infer_instance

/-- A port as `strconv.Atoi` accepts it in a service: a decimal numeral, with an
optional `+` before it, whose value `v` fits a Go `int`. -/
def isPortOf (x : List Char) (v : Nat) : Prop :=
  ∃ ds, isNumeral ds ∧ (x = ds ∨ x = '+' :: ds) ∧ digitsValue ds = v ∧ v < 2 ^ 63

/-- A protocol word: `tcp`, `udp` or `any` in some letter case. -/
def isProto (p : List Char) : Prop :=
  letterCaseOf "tcp".toList p = true ∨ letterCaseOf "udp".toList p = true ∨
    letterCaseOf "any".toList p = true

/-- Values of the policy type constants for the examples: three distinct bits. -/
def exampleTypes : PolicyTypes := ⟨4, 2, 1⟩

/-- The policies of the first `NumPolicies` entries of a rule's `Values`. -/
def Rule.policies (h : Heap) (r : Rule) : List Policy := (h.view r.Values).take r.NumPolicies

/-- The canonical key strings of a list of rules, in order. -/
def keyStrings (rs : List Rule) : List (List Char) :=
  (rs.map (fun r => r.Keys.map Key.String)).flatten

/-- The base type ORed into the type of a policy, as `parseRule` does. -/
def orType (t : Nat) (q : Policy) : Policy :=
  { q with PolicyType := uint16 t ||| q.PolicyType }

/-- The policies `parseRule` builds for the service fields of a line: the
any/any policy when there is none, else one policy per field. -/
def linePolicies (T : PolicyTypes) (t : Nat) (services : List (List Char)) : List Policy :=
  if services = [] then [⟨uint16 t ||| T.SINGLE, ANY, ANY, 0⟩]
  else services.map (fun s => orType t (parseService T s).1)

/-- A slice whose elements all satisfy `Q`, inside the bounds of its array. -/
def SliceOK (Q : Policy → Prop) (h : Heap) (s : Slice) : Prop :=
  s.len ≤ s.cap ∧ s.cap ≤ (h.getD s.ptr []).length ∧
    ∀ j, j < s.len → ∀ p, (h.getD s.ptr [])[j]? = some p → Q p

/-- A policy of a line before the base type is ORed in: the any/any policy of a
line without service fields, or what `parseService` returns for one of its
service fields. -/
def lineBase (T : PolicyTypes) (line : List Char) (q : Policy) : Prop :=
  ∃ address services, Fields line = address :: services ∧
    ((services = [] ∧ q = ⟨T.SINGLE, ANY, ANY, 0⟩) ∨ (∃ s ∈ services, parseService T s = (q, none)))

/-- A policy that `parseRule(t, line)` builds. -/
def lineYields (T : PolicyTypes) (t : Nat) (line : List Char) (p : Policy) : Prop :=
  ∃ q, lineBase T line q ∧ p = orType t q

/-- Every rule of `result` has a good, non-empty `Values`. -/
def StateOK (Q : Policy → Prop) (st : ParseState) : Prop :=
  ∀ r ∈ st.result, SliceOK Q st.heap r.Values ∧ 1 ≤ r.Values.len

/-- The heap `h1` keeps every array of `h` as it is. -/
def HeapExt (h h1 : Heap) : Prop :=
  h.length ≤ h1.length ∧ ∀ j, j < h.length → h1.getD j [] = h.getD j []

/-- What the last loop of `ParseRules` makes of the rule `r` (in the heap `h`):
the rule `o` (in the heap `h1`). -/
def Padded (h h1 : Heap) (r o : Rule) : Prop :=
  o.Keys = r.Keys ∧ o.NumPolicies = r.Values.len ∧ 1 ≤ o.NumPolicies ∧
    o.NumPolicies ≤ MAX_POLICIES ∧ o.Values.len = MAX_POLICIES ∧
    (h1.view o.Values).length = MAX_POLICIES ∧
    (h1.view o.Values).take o.NumPolicies = h.view r.Values ∧
    (h1.view o.Values).drop o.NumPolicies =
      List.replicate (MAX_POLICIES - o.NumPolicies) Policy.zero

/-- Whether the call returned, and without error. -/
def Outcome.isOk {α : Type} : Outcome α → Bool
  | .ret _ none => true
  | _ => false

/-- The line parses on its own: `parseRule(t, line)` returns without error. -/
def parsesAlone (env : NetEnv) (T : PolicyTypes) (t : Nat) (line : List Char) : Prop :=
  (parseRule env T [] t line).isOk = true

instance (env : NetEnv) (T : PolicyTypes) (t : Nat) (line : List Char) :
    Decidable (parsesAlone env T t line) := by
  unfold parsesAlone; infer_instance

/-- Where a successful outcome is known: its value (`d` otherwise). -/
def Outcome.value {α : Type} (d : α) : Outcome α → α
  | .ret v _ => v
  | .fault _ => d

/-- A host table for the examples: `example.com` has two A records. -/
def exampleHosts : List (List Char × List (List Nat)) :=
  [("example.com".toList, [[1, 1, 1, 1], [2, 2, 2, 2]])]

/-- The output of `ParseRules` on one name with two A records. -/
def twoRecords : List Rule × Heap :=
  Outcome.value ([], []) (ParseRules (exampleNet exampleHosts) exampleTypes
    ["example.com".toList] [])

/-- The output of `ParseRules` on a name with two A records followed by a line
for each of its two addresses. -/
def sharedValues : List Rule × Heap :=
  Outcome.value ([], []) (ParseRules (exampleNet exampleHosts) exampleTypes
    ["example.com 1/tcp 2/tcp 3/tcp".toList, "1.1.1.1 4/tcp".toList, "2.2.2.2 5/tcp".toList] [])

/-- The output of `ParseRules` on lines with one key each. -/
def mixedLists : List Rule × Heap :=
  Outcome.value ([], []) (ParseRules (exampleNet exampleHosts) exampleTypes
    ["1.1.1.1 80/tcp".toList, "10.0.0.0/8 icmp".toList] ["1.1.1.1 53/udp 1000-2000/any".toList])

/-- The key `parseKeys` makes of one address of a resolver's answer. -/
def hostKey (addr : List Nat) : Key := ⟨32, To4 addr⟩

/-- A `net` for the IPv6 examples: `net.ParseIP` reads `"::1"` as the 16 bytes of
the loopback address, `net.ParseCIDR` reads `"2001:db8::/32"` as that network
with its 16-byte mask, and everything else is read as by `exampleNet`. -/
def ipv6Net : NetEnv where
  ParseIP := fun s =>
    if s = "::1".toList then some (List.replicate 15 0 ++ [1])
    else (exampleNet []).ParseIP s
  ParseCIDR := fun s =>
    if s = "2001:db8::/32".toList then
      some ⟨[0x20, 0x01, 0x0d, 0xb8] ++ List.replicate 12 0,
        [255, 255, 255, 255] ++ List.replicate 12 0⟩
    else (exampleNet []).ParseCIDR s
  LookupIP := fun _ => none

/-- A service field `ports/proto` that is at fault: its protocol is not `tcp`,
`udp` or `any` in any letter case, or its port (the lower or the upper port of a
range) is not a number, or the lower port of its range is greater than the
upper port. -/
def badService (f : List Char) : Bool :=
  match Split f '/' with
  | p0 :: p1 :: _ =>
    (!(letterCaseOf "tcp".toList p1 || letterCaseOf "udp".toList p1 ||
        letterCaseOf "any".toList p1)) ||
    (match Split p0 '-' with
      | lo :: hi :: _ =>
        (match Atoi lo, Atoi hi with
          | some a, some b => decide (a > b)
          | _, _ => true)
      | _ => (Atoi p0).isNone)
  | _ => false

/-- A rule line that is at fault: it is empty or white space only, or one of its
service fields is at fault. -/
def badLine (line : List Char) : Prop :=
  Fields line = [] ∨ ∃ f ∈ (Fields line).tail, badService f = true

instance (line : List Char) : Decidable (badLine line) := by
  unfold badLine; infer_instance

/-- The error a call returned (`none` also when it panicked). -/
def Outcome.error {α : Type} : Outcome α → Option Error
  | .ret _ e => e
  | .fault _ => none

/-! ## The admin users of `internal/manager/data/ui.go`

The table `AdminUsers` is explicit state.  Its schema is not among the sources:
the rows have the columns the statements of `ui.go` name, `attempts` starts at 0,
and no uniqueness of `username` is assumed (an `UPDATE` changes every row of the
user, `QueryRow` reads the first).  Failures of the database itself are left
out.  Argon2id and base64 are parameters (`Crypto`); byte strings are lists of
numbers. -/

/-- A row of the table `AdminUsers`. -/
structure AdminRow where
  username : List Char
  passwd_hash : List Char
  attempts : Int
  date_added : List Char
  last_login : Option (List Char)
  ip : Option (List Char)
  change : Bool
deriving DecidableEq, Repr

/-- The table `AdminUsers`, oldest row first. -/
abbrev AdminUsers := List AdminRow

/-- The library functions of `ui.go`: `argon2.IDKey(password, salt, 1, 10*1024, 4, 32)`
and the `base64.RawStdEncoding` functions (`DecodeString` returns bytes and an
error). -/
structure Crypto where
  IDKey : List Char → List Nat → List Nat
  EncodeToString : List Nat → List Char
  DecodeString : List Char → List Nat × Option Error

def minPasswordLength : Nat := 14

/-- Go's `len` of a string: the number of bytes of its UTF-8 form. -/
def byteLen (s : List Char) : Nat := (s.map Char.utf8Size).sum

/-- The function `generateSalt`: a buffer of 16 bytes filled by `rand.Read`,
whose result (the bytes it wrote, and its error) is `rnd`. -/
def generateSalt (rnd : List Nat × Option Error) : List Nat × Option Error :=
  match rnd.2 with
  | some err => ([], some err)
  | none => ((rnd.1 ++ List.replicate 16 0).take 16, none)

/-- The text of the error for a short password (`%d` is `minPasswordLength`). -/
def passwordTooShort : Error :=
  "password is too short for administrative console (must be greater than ".toList ++
    Nat.toDigits 10 minPasswordLength ++ " characters)".toList

/-- The function `CreateAdminUser`; `rnd` is what `rand.Read` gives and `now` the
formatted time. -/
def CreateAdminUser (C : Crypto) (rnd : List Nat × Option Error) (now : List Char)
    (db : AdminUsers) (username password : List Char) (changeOnFirstUse : Bool) :
    AdminUsers × Option Error :=
  if byteLen password < minPasswordLength then (db, some passwordTooShort)
  else
    match generateSalt rnd with
    | (_, some err) => (db, some err)
    | (salt, none) =>
      let hash := C.IDKey password salt
      (db ++ [⟨username, C.EncodeToString (hash ++ salt), 0, now, none, none, changeOnFirstUse⟩],
        none)

/-- The function `CompareAdminKeys`.  It returns the table with the result: the
table is written before the password is looked at.  Slicing
`rawHashSalt[len(rawHashSalt)-16:]` panics on fewer than 16 bytes. -/
def CompareAdminKeys (C : Crypto) (db : AdminUsers) (username password : List Char) :
    AdminUsers × Outcome Unit :=
  let db1 := db.map (fun r =>
    if r.attempts ≤ 5 ∧ r.username = username then { r with attempts := r.attempts + 1 } else r)
  match db1.find? (fun r => decide (r.username = username)) with
  | none => (db1, .ret () (some "sql: no rows in result set".toList))
  | some row =>
    match C.DecodeString row.passwd_hash with
    | (_, some err) => (db1, .ret () (some err))
    | (rawHashSalt, none) =>
      if rawHashSalt.length < 16 then
        (db1, .fault ("runtime error: slice bounds out of range [-".toList ++
          Nat.toDigits 10 (16 - rawHashSalt.length) ++ ":]".toList))
      else
        let thisHash := C.IDKey password (rawHashSalt.drop (rawHashSalt.length - 16))
        if thisHash ≠ rawHashSalt.take (rawHashSalt.length - 16) then
          (db1, .ret () (some "passwords did not match".toList))
        else if row.attempts > 5 then
          (db1, .ret () (some "account locked".toList))
        else
          (db1.map (fun r => if r.username = username then { r with attempts := 0 } else r),
            .ret () none)

/-- The function `SetAdminUserLock`. -/
def SetAdminUserLock (db : AdminUsers) (username : List Char) : AdminUsers × Option Error :=
  (db.map (fun r => if r.username = username then { r with attempts := 6 } else r), none)

/-- The function `SetAdminUserUnlock`. -/
def SetAdminUserUnlock (db : AdminUsers) (username : List Char) : AdminUsers × Option Error :=
  (db.map (fun r => if r.username = username then { r with attempts := 0 } else r), none)

/-- The function `DeleteAdminUser`. -/
def DeleteAdminUser (db : AdminUsers) (username : List Char) : AdminUsers × Option Error :=
  (db.filter (fun r => decide (r.username ≠ username)), none)

/-- The function `SetAdminPassword`. -/
def SetAdminPassword (C : Crypto) (rnd : List Nat × Option Error) (db : AdminUsers)
    (username password : List Char) : AdminUsers × Option Error :=
  if byteLen password < minPasswordLength then (db, some passwordTooShort)
  else
    match generateSalt rnd with
    | (_, some err) => (db, some err)
    | (salt, none) =>
      let hash := C.IDKey password salt
      (db.map (fun r =>
        if r.username = username then
          { r with passwd_hash := C.EncodeToString (hash ++ salt), change := false }
        else r), none)

/-- The function `SetLastLoginInformation`; `now` is the formatted time. -/
def SetLastLoginInformation (now : List Char) (db : AdminUsers) (username ip : List Char) :
    AdminUsers × Option Error :=
  (db.map (fun r =>
    if r.username = username then { r with last_login := some now, ip := some ip } else r), none)

/-- The table after a series of `CompareAdminKeys` calls (user name, password). -/
def compareAll (C : Crypto) (db : AdminUsers) (calls : List (List Char × List Char)) :
    AdminUsers :=
  calls.foldl (fun d c => (CompareAdminKeys C d c.1 c.2).1) db

/-- The stored hash of the row has its 16 bytes of salt when it decodes, as in
every row that `CreateAdminUser` or `SetAdminPassword` wrote. -/
def hashReadable (C : Crypto) (r : AdminRow) : Prop :=
  (C.DecodeString r.passwd_hash).2 = none → 16 ≤ (C.DecodeString r.passwd_hash).1.length

/-- The password verifies against the stored hash of the row: the hash decodes
to at least 16 bytes, the last 16 the salt, and Argon2id of the password with
that salt gives the bytes before them. -/
def verifies (C : Crypto) (r : AdminRow) (password : List Char) : Prop :=
  (C.DecodeString r.passwd_hash).2 = none ∧ 16 ≤ (C.DecodeString r.passwd_hash).1.length ∧
    C.IDKey password ((C.DecodeString r.passwd_hash).1.drop
        ((C.DecodeString r.passwd_hash).1.length - 16)) =
      (C.DecodeString r.passwd_hash).1.take ((C.DecodeString r.passwd_hash).1.length - 16)

/-- The first row of a user, which `QueryRow` reads. -/
def adminRow (db : AdminUsers) (username : List Char) : Option AdminRow :=
  db.find? (fun r => decide (r.username = username))

/-- Every row of `u` is past the attempt limit and has a stored hash that
`CompareAdminKeys` can slice; the state `SetAdminUserLock` leaves behind. -/
def LockedFor (C : Crypto) (u : List Char) (db : AdminUsers) : Prop :=
  (∃ r ∈ db, r.username = u) ∧ ∀ r ∈ db, r.username = u → 5 < r.attempts ∧ hashReadable C r

/-- A toy `Crypto` for the examples: the "hash" is the password's characters
followed by the salt, base64 is the identity on texts of characters below 256. -/
def exampleCrypto : Crypto where
  IDKey := fun password salt => password.map Char.toNat ++ salt
  EncodeToString := fun b => b.map Char.ofNat
  DecodeString := fun s => (s.map Char.toNat, none)

instance (C : Crypto) (r : AdminRow) : Decidable (hashReadable C r) := by
  unfold hashReadable; infer_instance

instance (C : Crypto) (r : AdminRow) (password : List Char) : Decidable (verifies C r password) := by
  unfold verifies; infer_instance

/-- The table after `CreateAdminUser("admin", "correct horse battery", false)`
on an empty table, with the bytes 0..15 as salt. -/
def exampleAdmins : AdminUsers :=
  (CreateAdminUser exampleCrypto (List.range 16, none) "2024-01-01 00:00:00".toList []
    "admin".toList "correct horse battery".toList false).1

/-- The row of `exampleAdmins`. -/
def exampleAdminRow : AdminRow :=
  ⟨"admin".toList,
    exampleCrypto.EncodeToString
      (exampleCrypto.IDKey "correct horse battery".toList (List.range 16) ++ List.range 16),
    0, "2024-01-01 00:00:00".toList, none, none, false⟩

/-! ## The device table, the policy tables and the decision program

The firewall program and the session controller (`Deauthenticate`, `IsAuthed`,
`SetAuthorized` and the rest) are not among the sources: `ebpf_test.go` only
calls them.  They are modelled from sections 3, 4.3, 4.4 and 4.5 of the spec.
Addresses are lists of four bytes, times are nanoseconds since boot, and `now`
is an argument of every operation that reads the clock. -/

/-- Modelled from the spec: the verdict of the decision program, which is not
among the sources. -/
inductive Verdict where
  | DROP
  | PASS
deriving DecidableEq, Repr

/-- Modelled from the spec: the sentinel `u64::MAX` of the timers. -/
def u64Max : Nat := 2 ^ 64 - 1

/-- Modelled from the spec: the device record, whose declaration is not among
the sources: `{ user_hash, last_packet_time, session_expiry }`. -/
structure DeviceRecord where
  user_hash : List Nat
  last_packet_time : Nat
  session_expiry : Nat
deriving DecidableEq, Repr

/-- Modelled from the spec: a per-user policy trie, whose declaration is not
among the sources: each key has a count and an array of policies. -/
abbrev Trie := List (Key × Nat × List Policy)

/-- Modelled from the spec: the shared tables, whose declarations are not among
the sources: the device table keyed on the IPv4 address, the two outer maps
keyed on the user hash, and the global inactivity timeout. -/
structure Tables where
  devices : List (List Nat × DeviceRecord)
  publicTable : List (List Nat × Trie)
  mfaTable : List (List Nat × Trie)
  inactivity : Nat
deriving DecidableEq, Repr

/-- Modelled from the spec: reading a record of the device table, which is not
among the sources. -/
def getDevice (devs : List (List Nat × DeviceRecord)) (ip : List Nat) : Option DeviceRecord :=
  (devs.find? (fun e => decide (e.1 = ip))).map (fun e => e.2)

/-- Modelled from the spec: writing the record of a device that is in the
table ("write record"), which is not among the sources. -/
def writeDevice (devs : List (List Nat × DeviceRecord)) (ip : List Nat) (r : DeviceRecord) :
    List (List Nat × DeviceRecord) :=
  devs.map (fun e => if e.1 = ip then (e.1, r) else e)

/-- Modelled from the spec: the inner trie of a user in an outer map, which is
not among the sources. -/
def userTrie (outer : List (List Nat × Trie)) (user_hash : List Nat) : Option Trie :=
  (outer.find? (fun e => decide (e.1 = user_hash))).map (fun e => e.2)

/-- Modelled from the spec: an address in network order as a 32-bit number. -/
def ipValue (ip : List Nat) : Nat := ip.foldl (fun a b => a * 256 + b % 256) 0

/-- Modelled from the spec: a key of the trie matches an address on the leading
`Prefixlen` bits; the trie is not among the sources. -/
def keyCovers (k : Key) (ip : List Nat) : Bool :=
  decide (k.Prefixlen ≤ 32) &&
    (ipValue k.IP >>> (32 - k.Prefixlen) == ipValue ip >>> (32 - k.Prefixlen))

/-- Modelled from the spec: the longest-prefix-match lookup of a trie, which is
not among the sources. -/
def lpmLookup (t : Trie) (ip : List Nat) : Option (Nat × List Policy) :=
  (t.foldl (fun (best : Option (Key × Nat × List Policy)) e =>
    if keyCovers e.1 ip then
      match best with
      | some b => if b.1.Prefixlen < e.1.Prefixlen then some e else best
      | none => some e
    else best) none).map (fun e => e.2)

/-- Modelled from the spec: the match of one policy against `(proto, port)` in
step 5 of the decision program, which is not among the sources. -/
def policyMatches (T : PolicyTypes) (p : Policy) (proto port : Nat) : Bool :=
  (p.Proto == ANY || p.Proto == proto) &&
    (if p.PolicyType &&& T.SINGLE ≠ 0 then p.LowerPort == 0 || p.LowerPort == port
     else if p.PolicyType &&& T.RANGE ≠ 0 then
       decide (p.LowerPort ≤ port) && decide (port ≤ p.UpperPort)
     else false)

/-- Modelled from the spec: the lookup of an address in a user's trie of one
outer map, accepting when one of the first `count` policies matches; the
program is not among the sources. -/
def tableAccepts (T : PolicyTypes) (outer : List (List Nat × Trie)) (user_hash ip : List Nat)
    (proto port : Nat) : Bool :=
  match userTrie outer user_hash with
  | none => false
  | some t =>
    match lpmLookup t ip with
    | none => false
    | some (n, arr) => (arr.take n).any (fun p => policyMatches T p proto port)

/-- Modelled from the spec: the predicate of `is_authed` on a record, which is
not among the sources; the difference of the two times is a `u64`. -/
def isAuthorized (inactivity now : Nat) (r : DeviceRecord) : Bool :=
  decide (r.last_packet_time ≠ 0) && decide (r.session_expiry ≠ 0) &&
    decide (now ≤ r.session_expiry) &&
    (inactivity == u64Max ||
      decide ((now + 2 ^ 64 - r.last_packet_time) % 2 ^ 64 ≤ inactivity))

/-- Modelled from the spec: what the decision program reads from the packet
bytes: the IP version, whether the header is whole and well formed, the two
addresses, the protocol and the destination port of the L4 header. -/
structure Packet where
  version : Nat
  headerOk : Bool
  src : List Nat
  dst : List Nat
  proto : Nat
  dport : Nat
deriving DecidableEq, Repr

/-- Modelled from the spec: the attach point of the decision program. -/
inductive Direction where
  | egress
  | ingress
deriving DecidableEq, Repr

/-- Modelled from the spec: the destination port the program matches on, 0 when
the packet is neither TCP nor UDP. -/
def Packet.port (pkt : Packet) : Nat :=
  if pkt.proto = TCP ∨ pkt.proto = UDP then pkt.dport else 0

/-- Modelled from the spec: the decision program of section 4.5, which is not
among the sources (`ebpf_test.go` runs it as `XdpWagFirewall`).  It returns the
verdict and the tables, in which only `last_packet_time` may have changed. -/
def XdpWagFirewall (T : PolicyTypes) (dir : Direction) (now : Nat) (st : Tables)
    (pkt : Packet) : Verdict × Tables :=
  if pkt.version ≠ 4 ∨ pkt.headerOk = false then (.DROP, st)
  else
    let deviceIP := match dir with
      | .egress => pkt.src
      | .ingress => pkt.dst
    let policyIP := match dir with
      | .egress => pkt.dst
      | .ingress => pkt.src
    match getDevice st.devices deviceIP with
    | none => (.DROP, st)
    | some r =>
      if tableAccepts T st.publicTable r.user_hash policyIP pkt.proto pkt.port then (.PASS, st)
      else if isAuthorized st.inactivity now r = false then (.DROP, st)
      else if tableAccepts T st.mfaTable r.user_hash policyIP pkt.proto pkt.port then
        (.PASS, { st with
          devices := writeDevice st.devices deviceIP { r with last_packet_time := now } })
      else (.DROP, st)

/-- Modelled from the spec: `remove_user`, which is not among the sources. -/
def remove_user (st : Tables) (user_hash : List Nat) : Tables :=
  { st with
    publicTable := st.publicTable.filter (fun e => decide (e.1 ≠ user_hash))
    mfaTable := st.mfaTable.filter (fun e => decide (e.1 ≠ user_hash)) }

/-- Modelled from the spec: the inner trie built from compiled rules: the
policies with the `PUBLIC` bit (or those without it), the count, and the array
with the unused slots zeroed. -/
def trieOf (T : PolicyTypes) (pub : Bool) (rules : List (Key × List Policy)) : Trie :=
  rules.filterMap (fun e =>
    let ps := e.2.filter (fun p => (p.PolicyType &&& T.PUBLIC != 0) == pub)
    if ps = [] then none
    else some (e.1, min ps.length MAX_POLICIES,
      (ps ++ List.replicate MAX_POLICIES Policy.zero).take MAX_POLICIES))

/-- Modelled from the spec: `set_user_policies`, which is not among the sources:
both inner tries of the user are replaced, and the `PUBLIC` bit of a policy
decides its trie whichever list it came in. -/
def set_user_policies (T : PolicyTypes) (st : Tables) (user_hash : List Nat)
    (public_rules mfa_rules : List (Key × List Policy)) : Tables :=
  { st with
    publicTable := (user_hash, trieOf T true (public_rules ++ mfa_rules)) ::
      st.publicTable.filter (fun e => decide (e.1 ≠ user_hash))
    mfaTable := (user_hash, trieOf T false (public_rules ++ mfa_rules)) ::
      st.mfaTable.filter (fun e => decide (e.1 ≠ user_hash)) }

/-- Modelled from the spec: `add_device`, which is not among the sources; `sha1`
is the hash of the username. -/
def add_device (sha1 : List Char → List Nat) (st : Tables) (ip : List Nat) (user : List Char) :
    Option Tables :=
  match getDevice st.devices ip with
  | some _ => none
  | none => some { st with devices := st.devices ++ [(ip, ⟨sha1 user, 0, 0⟩)] }

/-- Modelled from the spec: `remove_device`, which is not among the sources. -/
def remove_device (st : Tables) (ip : List Nat) : Option Tables :=
  match getDevice st.devices ip with
  | none => none
  | some r =>
    let devs := st.devices.filter (fun e => decide (e.1 ≠ ip))
    if devs.any (fun e => decide (e.2.user_hash = r.user_hash)) then some { st with devices := devs }
    else some (remove_user { st with devices := devs } r.user_hash)

/-- Modelled from the spec: `set_authorized`, which is not among the sources;
`lifetime` is the configured maximum session lifetime, `none` when disabled. -/
def SetAuthorized (sha1 : List Char → List Nat) (lifetime : Option Nat) (now : Nat)
    (st : Tables) (ip : List Nat) (user : List Char) : Option Tables :=
  match getDevice st.devices ip with
  | none => none
  | some r =>
    if r.user_hash ≠ sha1 user then none
    else
      let expiry := match lifetime with
        | some ns => (now + ns) % 2 ^ 64
        | none => u64Max
      some { st with devices := writeDevice st.devices ip ⟨r.user_hash, now, expiry⟩ }

/-- Modelled from the spec: `deauthenticate`, which is not among the sources:
both timers of the record are set to 0 and the record is written; without a
record there is nothing to write and the call fails. -/
def Deauthenticate (st : Tables) (ip : List Nat) : Option Tables :=
  match getDevice st.devices ip with
  | none => none
  | some r => some { st with devices := writeDevice st.devices ip ⟨r.user_hash, 0, 0⟩ }

/-- Modelled from the spec: `is_authed`, which is not among the sources. -/
def IsAuthed (now : Nat) (st : Tables) (ip : List Nat) : Bool :=
  match getDevice st.devices ip with
  | none => false
  | some r => isAuthorized st.inactivity now r

/-- Modelled from the spec: `sweep`, which is not among the sources: the timers
of every record that is no longer authorized are zeroed. -/
def sweep (now : Nat) (st : Tables) : Tables :=
  { st with devices := st.devices.map (fun e =>
      if (e.2.last_packet_time ≠ 0 ∨ e.2.session_expiry ≠ 0) ∧
          isAuthorized st.inactivity now e.2 = false then
        (e.1, ⟨e.2.user_hash, 0, 0⟩)
      else e) }

/-- Modelled from the spec: `set_inactivity`, which is not among the sources. -/
def set_inactivity (st : Tables) (ns : Nat) : Tables := { st with inactivity := ns % 2 ^ 64 }

/-- Modelled from the spec: one event on the tables: an operation of the
controller or a packet through the decision program. -/
inductive Event where
  | add_device (ip : List Nat) (user : List Char)
  | remove_device (ip : List Nat)
  | SetAuthorized (ip : List Nat) (user : List Char)
  | Deauthenticate (ip : List Nat)
  | sweep
  | set_inactivity (ns : Nat)
  | set_user_policies (user : List Char) (public_rules mfa_rules : List (Key × List Policy))
  | remove_user (user : List Char)
  | packet (dir : Direction) (pkt : Packet)
deriving DecidableEq, Repr

/-- Modelled from the spec: the configuration the controller runs with: the
policy type constants, the hash of a username and the maximum session
lifetime. -/
structure Controller where
  T : PolicyTypes
  sha1 : List Char → List Nat
  lifetime : Option Nat

/-- Modelled from the spec: the tables after one event at the time `now`; an
operation that fails leaves them as they were. -/
def applyEvent (c : Controller) (now : Nat) (st : Tables) : Event → Tables
  | .add_device ip user => (add_device c.sha1 st ip user).getD st
  | .remove_device ip => (remove_device st ip).getD st
  | .SetAuthorized ip user => (SetAuthorized c.sha1 c.lifetime now st ip user).getD st
  | .Deauthenticate ip => (Deauthenticate st ip).getD st
  | .sweep => sweep now st
  | .set_inactivity ns => set_inactivity st ns
  | .set_user_policies user pr mr => set_user_policies c.T st (c.sha1 user) pr mr
  | .remove_user user => remove_user st (c.sha1 user)
  | .packet dir pkt => (XdpWagFirewall c.T dir now st pkt).2

/-- Modelled from the spec: the tables after a sequence of timed events. -/
def runEvents (c : Controller) (st : Tables) (evs : List (Nat × Event)) : Tables :=
  evs.foldl (fun s e => applyEvent c e.1 s e.2) st

/-- Every record of the device `D` has both timers at zero. -/
def Deauthed (D : List Nat) (devs : List (List Nat × DeviceRecord)) : Prop :=
  ∀ e ∈ devs, e.1 = D → e.2.last_packet_time = 0 ∧ e.2.session_expiry = 0

/-- A stand-in for SHA-1 in the examples: the bytes of the name, cut or padded to 20. -/
def exampleHash (user : List Char) : List Nat :=
  ((user.map Char.toNat) ++ List.replicate 20 0).take 20

/-- The controller of the examples: no maximum session lifetime. -/
def exampleController : Controller := ⟨exampleTypes, exampleHash, none⟩

/-- Scenario 1 of the spec: `allow = ["1.1.1.1/32", "11.11.11.11"]`,
`mfa = ["8.8.8.8"]`, the device 192.168.1.2 of the user `tester`, authorized
at the time 10. -/
def scenarioTables : Tables :=
  runEvents exampleController ⟨[], [], [], u64Max⟩
    [(1, .set_user_policies "tester".toList
        [(⟨32, [1, 1, 1, 1]⟩, [⟨5, 0, 0, 0⟩]), (⟨32, [11, 11, 11, 11]⟩, [⟨5, 0, 0, 0⟩])]
        [(⟨32, [8, 8, 8, 8]⟩, [⟨4, 0, 0, 0⟩])]),
     (2, .add_device [192, 168, 1, 2] "tester".toList),
     (10, .SetAuthorized [192, 168, 1, 2] "tester".toList)]

/-- The tables of scenario 1 after `Deauthenticate` of the device 192.168.1.2. -/
def scenarioDeauthed : Tables :=
  (Deauthenticate scenarioTables [192, 168, 1, 2]).getD scenarioTables

/-- Events after the deauthentication: a packet of the device to the mfa route,
a sweep, a new inactivity timeout, and a second device that is authorized. -/
def scenarioEvents : List (Nat × Event) :=
  [(11, .packet .egress ⟨4, true, [192, 168, 1, 2], [8, 8, 8, 8], 6, 443⟩),
   (12, .sweep),
   (13, .set_inactivity 60000000000),
   (14, .add_device [192, 168, 1, 3] "tester".toList),
   (15, .SetAuthorized [192, 168, 1, 3] "tester".toList)]

/-- A host table whose resolver answers `dup.example` with the address 3.3.3.3
twice. -/
def repeatedHosts : List (List Char × List (List Nat)) :=
  [("dup.example".toList, [[3, 3, 3, 3], [3, 3, 3, 3]])]

/-- Whether the destination, protocol and port of the packet match a policy in
the public table of the user of the device `D`. -/
def publicMatch (T : PolicyTypes) (st : Tables) (D : List Nat) (pkt : Packet) : Bool :=
  match getDevice st.devices D with
  | none => false
  | some r => tableAccepts T st.publicTable r.user_hash pkt.dst pkt.proto pkt.port

/-- Events after the deauthentication of 192.168.1.2 in scenario 1: a second
user `peer` whose mfa rule covers 192.168.1.0/24 gets the device 192.168.1.3,
which is authorized. -/
def peerEvents : List (Nat × Event) :=
  [(11, .set_user_policies "peer".toList [] [(⟨24, [192, 168, 1, 0]⟩, [⟨4, 0, 0, 0⟩])]),
   (12, .add_device [192, 168, 1, 3] "peer".toList),
   (13, .SetAuthorized [192, 168, 1, 3] "peer".toList)]

/-- The key strings and the policies of one rule line that parses on its own
with the restriction type `t` (nothing for a line that does not). -/
def lineKeysAndPolicies (env : NetEnv) (T : PolicyTypes) (t : Nat) (line : List Char) :
    List (List Char) × List Policy :=
  match parseRule env T [] t line with
  | .ret (r, h) none => (r.Keys.map Key.String, h.view r.Values)
  | _ => ([], [])

/-- The merged policy list of a key, after the words of the spec and not after
the loops of `ParseRules`: the policies of every line whose address gives the
key, the `mfa` lines first and then the `public` lines, each line once. -/
def mergedPolicies (env : NetEnv) (T : PolicyTypes) (mfa «public» : List (List Char))
    (key : List Char) : List Policy :=
  ((mfa.map (lineKeysAndPolicies env T 0) ++
    «public».map (lineKeysAndPolicies env T T.PUBLIC)).map
      (fun e => if key ∈ e.1 then e.2 else [])).flatten

/-- A line for `dup.example` with 65 services. -/
def dupLine : List Char :=
  "dup.example".toList ++ (List.replicate 65 " 1/tcp".toList).flatten

/-- What an error text `e` of `parseService` says of the field `f`, case by case.
A field without `"/"` is in the text whole and verbatim.  A field
`a "/" proto tail` is not: the text holds `a` alone when `a` has no `"-"` and is
not a number, and `a "/"` with `proto` in lower case when only `proto` is at
fault; for `a = lo "-" hi junk` it holds `lo` alone, `hi` alone, both (apart,
when `lo > hi`), or `proto` in lower case alone when only `proto` is at fault. -/
def serviceError (f e : List Char) : Prop :=
  ('/' ∉ f ∧ f ≠ "icmp".toList ∧ e = "malformed port/service declaration: ".toList ++ f) ∨
  ∃ a proto tail, f = a ++ '/' :: proto ++ tail ∧ '/' ∉ a ∧ '/' ∉ proto ∧
    (tail = [] ∨ ∃ t, tail = '/' :: t) ∧
    (('-' ∉ a ∧
        ((Atoi a = none ∧ e = "could not convert port defintion to number: ".toList ++ a) ∨
         (Atoi a ≠ none ∧ ¬ isProto proto ∧
            e = "unknown service: ".toList ++ a ++ "/".toList ++ ToLower proto))) ∨
     ∃ lo hi junk, a = lo ++ '-' :: hi ++ junk ∧ '-' ∉ lo ∧ '-' ∉ hi ∧
        (junk = [] ∨ ∃ j, junk = '-' :: j) ∧
        ((Atoi lo = none ∧
            e = "could not convert lower port defintion to number: ".toList ++ lo) ∨
         (Atoi lo ≠ none ∧ Atoi hi = none ∧
            e = "could not convert upper port defintion to number: ".toList ++ hi) ∨
         (∃ x y, Atoi lo = some x ∧ Atoi hi = some y ∧ y < x ∧
            e = "lower port cannot be higher than upper power: lower: ".toList ++ lo ++
              " upper: ".toList ++ hi) ∨
         (∃ x y, Atoi lo = some x ∧ Atoi hi = some y ∧ x ≤ y ∧ ¬ isProto proto ∧
            e = "unknown service: ".toList ++ ToLower proto)))

/-! ## Lemmas on the string functions -/

theorem splitAux_of_not_mem (sep : Char) (s cur : List Char) (h : sep ∉ s) :
    splitAux sep s cur = [cur ++ s] := by
  induction s generalizing cur with
  | nil => simp [splitAux]
  | cons c cs ih =>
    have hc : c ≠ sep := fun e => h (by simp [e])
    have hcs : sep ∉ cs := fun e => h (by simp [e])
    simp [splitAux, hc, ih _ hcs]

theorem splitAux_append_sep (sep : Char) (a rest cur : List Char) (h : sep ∉ a) :
    splitAux sep (a ++ sep :: rest) cur = (cur ++ a) :: splitAux sep rest [] := by
  induction a generalizing cur with
  | nil => simp [splitAux]
  | cons c cs ih =>
    have hc : c ≠ sep := fun e => h (by simp [e])
    have hcs : sep ∉ cs := fun e => h (by simp [e])
    simp [splitAux, hc, ih _ hcs]

theorem split_of_not_mem (sep : Char) (s : List Char) (h : sep ∉ s) : Split s sep = [s] := by
  simp [Split, splitAux_of_not_mem sep s [] h]

theorem split_append_sep (sep : Char) (a rest : List Char) (h : sep ∉ a) :
    Split (a ++ sep :: rest) sep = a :: Split rest sep := by
  simp [Split, splitAux_append_sep sep a rest [] h]

theorem not_mem_of_all_isDigit (ds : List Char) (c : Char) (hd : ds.all isDigit = true)
    (hc : isDigit c = false) : c ∉ ds := by
  intro hmem
  have := List.all_eq_true.mp hd c hmem
  rw [hc] at this
  exact Bool.noConfusion this

theorem atoi_of_numeral (ds : List Char) (h : isNumeral ds) :
    Atoi ds = if digitsValue ds < 2 ^ 63 then some (digitsValue ds : Int) else none := by
  obtain ⟨hne, hd⟩ := h
  cases ds with
  | nil => exact absurd rfl hne
  | cons c cs =>
    have hc : isDigit c = true := List.all_eq_true.mp hd c (by simp)
    have h1 : c ≠ '-' := by
      intro e; rw [e] at hc; exact absurd hc (by decide)
    have h2 : c ≠ '+' := by
      intro e; rw [e] at hc; exact absurd hc (by decide)
    simp only [Atoi, h1, h2, if_false, parseDigits]
    by_cases hv : digitsValue (c :: cs) < 2 ^ 63
    · rw [if_pos ⟨hne, hd, hv⟩, if_pos hv]; rfl
    · rw [if_neg (fun h => hv h.2.2), if_neg hv]

theorem uint16_of_le (n : Nat) (h : n ≤ 65535) : uint16 (n : Int) = n := by
  unfold uint16
  omega

theorem letterCaseOf_three (a b c : Char) (s : List Char)
    (h : letterCaseOf [a, b, c] s = true) :
    ∃ x y z, s = [x, y, z] ∧ (x = a ∨ x = asciiUpper a) ∧ (y = b ∨ y = asciiUpper b)
      ∧ (z = c ∨ z = asciiUpper c) := by
  match s, h with
  | [], h => simp [letterCaseOf] at h
  | [_], h => simp [letterCaseOf] at h
  | [_, _], h => simp [letterCaseOf] at h
  | [x, y, z], h =>
    simp only [letterCaseOf, Bool.and_eq_true, Bool.or_eq_true, decide_eq_true_eq,
      and_true] at h
    exact ⟨x, y, z, rfl, h.1, h.2.1, h.2.2⟩
  | _ :: _ :: _ :: _ :: _, h => simp [letterCaseOf] at h

theorem toLower_of_letterCase (w proto : List Char)
    (hw : w = "tcp".toList ∨ w = "udp".toList ∨ w = "any".toList)
    (h : letterCaseOf w proto = true) : ToLower proto = w ∧ '/' ∉ proto := by
  rcases hw with rfl | rfl | rfl
  all_goals
    obtain ⟨x, y, z, rfl, h1, h2, h3⟩ := letterCaseOf_three _ _ _ _ h
    rcases h1 with rfl | rfl <;> rcases h2 with rfl | rfl <;> rcases h3 with rfl | rfl <;>
      decide

theorem parseSinglePort_known (T : PolicyTypes) (port w : List Char) (code : Nat) (v : Int)
    (hw : (w = "tcp".toList ∧ code = 6) ∨ (w = "udp".toList ∧ code = 17) ∨
      (w = "any".toList ∧ code = ANY))
    (ha : Atoi port = some v) :
    parseSinglePort T port w = (⟨T.SINGLE, code, uint16 v, 0⟩, none) := by
  unfold parseSinglePort
  rw [ha]
  rcases hw with ⟨rfl, rfl⟩ | ⟨rfl, rfl⟩ | ⟨rfl, rfl⟩
  · simp only [if_neg (show ¬ ("tcp".toList = "any".toList) by decide),
      if_pos (show ("tcp".toList = "tcp".toList ∨ "tcp".toList = "udp".toList) by decide),
      if_neg (show ¬ ("tcp".toList = "udp".toList) by decide)]
    rfl
  · simp only [if_neg (show ¬ ("udp".toList = "any".toList) by decide),
      if_pos (show ("udp".toList = "tcp".toList ∨ "udp".toList = "udp".toList) by decide),
      if_pos (show "udp".toList = "udp".toList from rfl)]
    rfl
  · simp only [if_true]

theorem parsePortRange_known (T : PolicyTypes) (lo hi w : List Char) (code : Nat) (a b : Int)
    (hw : (w = "tcp".toList ∧ code = 6) ∨ (w = "udp".toList ∧ code = 17) ∨
      (w = "any".toList ∧ code = ANY))
    (ha : Atoi lo = some a) (hb : Atoi hi = some b) (hle : a ≤ b) :
    parsePortRange T lo hi w = (⟨T.RANGE, code, uint16 a, uint16 b⟩, none) := by
  unfold parsePortRange
  rw [ha, hb]
  simp only [if_neg (not_lt.mpr hle)]
  rcases hw with ⟨rfl, rfl⟩ | ⟨rfl, rfl⟩ | ⟨rfl, rfl⟩
  · simp only [if_neg (show ¬ ("tcp".toList = "any".toList) by decide),
      if_pos (show ("tcp".toList = "tcp".toList ∨ "tcp".toList = "udp".toList) by decide),
      if_neg (show ¬ ("tcp".toList = "udp".toList) by decide)]
    rfl
  · simp only [if_neg (show ¬ ("udp".toList = "any".toList) by decide),
      if_pos (show ("udp".toList = "tcp".toList ∨ "udp".toList = "udp".toList) by decide),
      if_pos (show "udp".toList = "udp".toList from rfl)]
    rfl
  · simp only [if_true]

theorem parseSinglePort_of_numeral (T : PolicyTypes) (port w : List Char) (code : Nat)
    (hw : (w = "tcp".toList ∧ code = 6) ∨ (w = "udp".toList ∧ code = 17) ∨
      (w = "any".toList ∧ code = ANY))
    (hport : isNumeral port) (hv : digitsValue port ≤ 65535) :
    parseSinglePort T port w = (⟨T.SINGLE, code, digitsValue port, 0⟩, none) := by
  have hlt : digitsValue port < 2 ^ 63 := by omega
  have ha : Atoi port = some (digitsValue port : Int) := by
    rw [atoi_of_numeral port hport, if_pos hlt]
  rw [parseSinglePort_known T port w code _ hw ha, uint16_of_le _ hv]

theorem parsePortRange_of_numerals (T : PolicyTypes) (lo hi w : List Char) (code : Nat)
    (hw : (w = "tcp".toList ∧ code = 6) ∨ (w = "udp".toList ∧ code = 17) ∨
      (w = "any".toList ∧ code = ANY))
    (hlo : isNumeral lo) (hhi : isNumeral hi)
    (hle : digitsValue lo ≤ digitsValue hi) (hv : digitsValue hi ≤ 65535) :
    parsePortRange T lo hi w = (⟨T.RANGE, code, digitsValue lo, digitsValue hi⟩, none) := by
  have h1 : digitsValue lo < 2 ^ 63 := by omega
  have h2 : digitsValue hi < 2 ^ 63 := by omega
  have ha : Atoi lo = some (digitsValue lo : Int) := by
    rw [atoi_of_numeral lo hlo, if_pos h1]
  have hb : Atoi hi = some (digitsValue hi : Int) := by
    rw [atoi_of_numeral hi hhi, if_pos h2]
  rw [parsePortRange_known T lo hi w code _ _ hw ha hb (by omega), uint16_of_le _ hv,
    uint16_of_le _ (le_trans hle hv)]

theorem protoCode_exists (w : List Char)
    (hw : w = "tcp".toList ∨ w = "udp".toList ∨ w = "any".toList) :
    ∃ code, (w = "tcp".toList ∧ code = 6) ∨ (w = "udp".toList ∧ code = 17) ∨
      (w = "any".toList ∧ code = ANY) := by
  rcases hw with h | h | h
  · exact ⟨6, Or.inl ⟨h, rfl⟩⟩
  · exact ⟨17, Or.inr (Or.inl ⟨h, rfl⟩)⟩
  · exact ⟨ANY, Or.inr (Or.inr ⟨h, rfl⟩)⟩

theorem parseService_slash (T : PolicyTypes) (a proto : List Char) (ha : '/' ∉ a)
    (hp : '/' ∉ proto) :
    parseService T (a ++ '/' :: proto) =
      match Split a '-' with
      | [] => parseSinglePort T a (ToLower proto)
      | [_] => parseSinglePort T a (ToLower proto)
      | lo :: hi :: _ => parsePortRange T lo hi (ToLower proto) := by
  unfold parseService
  rw [split_append_sep '/' a proto ha, split_of_not_mem '/' proto hp]

theorem parseService_port_proto (T : PolicyTypes) (port proto : List Char)
    (hport : isNumeral port) (hp : '/' ∉ proto) :
    parseService T (port ++ '/' :: proto) = parseSinglePort T port (ToLower proto) := by
  have h1 : '/' ∉ port := not_mem_of_all_isDigit port '/' hport.2 (by decide)
  have h2 : '-' ∉ port := not_mem_of_all_isDigit port '-' hport.2 (by decide)
  rw [parseService_slash T port proto h1 hp, split_of_not_mem '-' port h2]

theorem parseService_range_proto (T : PolicyTypes) (lo hi proto : List Char)
    (hlo : isNumeral lo) (hhi : isNumeral hi) (hp : '/' ∉ proto) :
    parseService T (lo ++ '-' :: hi ++ '/' :: proto) = parsePortRange T lo hi (ToLower proto) := by
  have h1 : '/' ∉ lo := not_mem_of_all_isDigit lo '/' hlo.2 (by decide)
  have h2 : '-' ∉ lo := not_mem_of_all_isDigit lo '-' hlo.2 (by decide)
  have h3 : '/' ∉ hi := not_mem_of_all_isDigit hi '/' hhi.2 (by decide)
  have h4 : '-' ∉ hi := not_mem_of_all_isDigit hi '-' hhi.2 (by decide)
  have e : lo ++ '-' :: hi ++ '/' :: proto = (lo ++ '-' :: hi) ++ '/' :: proto := by simp
  have h5 : '/' ∉ lo ++ '-' :: hi := by
    simp only [List.mem_append, List.mem_cons, not_or]
    exact ⟨h1, by decide, h3⟩
  rw [e, parseService_slash T _ proto h5 hp, split_append_sep '-' lo hi h2,
    split_of_not_mem '-' hi h4]

/-! ## Decimal numerals -/

theorem foldl_digits (ds : List Char) (a : Nat) :
    ds.foldl (fun acc c => 10 * acc + (c.toNat - 48)) a =
      a * 10 ^ ds.length + ds.foldl (fun acc c => 10 * acc + (c.toNat - 48)) 0 := by
  induction ds generalizing a with
  | nil => simp
  | cons c cs ih =>
    simp only [List.foldl_cons, List.length_cons]
    rw [ih (10 * a + (c.toNat - 48)), ih (10 * 0 + (c.toNat - 48))]
    ring

theorem digitsValue_cons (c : Char) (ds : List Char) :
    digitsValue (c :: ds) = (c.toNat - 48) * 10 ^ ds.length + digitsValue ds := by
  unfold digitsValue
  rw [List.foldl_cons, foldl_digits]
  simp

theorem digitChar_digit (k : Nat) (hk : k < 10) :
    isDigit (Nat.digitChar k) = true ∧ (Nat.digitChar k).toNat - 48 = k := by
  interval_cases k <;> decide

theorem toDigitsCore_spec (fuel n : Nat) (ds : List Char) (hf : n < fuel)
    (hd : ds.all isDigit = true) :
    (Nat.toDigitsCore 10 fuel n ds).all isDigit = true ∧ Nat.toDigitsCore 10 fuel n ds ≠ [] ∧
      digitsValue (Nat.toDigitsCore 10 fuel n ds) = n * 10 ^ ds.length + digitsValue ds := by
  induction fuel generalizing n ds with
  | zero => exact absurd hf (Nat.not_lt_zero n)
  | succ k ih =>
    obtain ⟨h1, h2⟩ := digitChar_digit (n % 10) (Nat.mod_lt n (by decide))
    have hcons : (Nat.digitChar (n % 10) :: ds).all isDigit = true := by
      simp only [List.all_cons, Bool.and_eq_true]
      exact ⟨h1, hd⟩
    unfold Nat.toDigitsCore
    simp only
    by_cases h0 : n / 10 = 0
    · rw [if_pos h0]
      refine ⟨hcons, by simp, ?_⟩
      rw [digitsValue_cons, h2]
      have : n % 10 = n := Nat.mod_eq_of_lt (by omega)
      rw [this]
    · rw [if_neg h0]
      obtain ⟨i1, i2, i3⟩ := ih (n / 10) (Nat.digitChar (n % 10) :: ds) (by omega) hcons
      refine ⟨i1, i2, ?_⟩
      rw [i3, digitsValue_cons, h2, List.length_cons, pow_succ]
      have e : n * 10 ^ ds.length = (10 * (n / 10) + n % 10) * 10 ^ ds.length := by
        rw [Nat.div_add_mod n 10]
      rw [e]
      ring

/-- The decimal form of a number is a numeral with that value. -/
theorem toDigits_numeral (n : Nat) :
    isNumeral (Nat.toDigits 10 n) ∧ digitsValue (Nat.toDigits 10 n) = n := by
  obtain ⟨h1, h2, h3⟩ := toDigitsCore_spec (n + 1) n [] (by omega) rfl
  refine ⟨⟨h2, h1⟩, ?_⟩
  unfold Nat.toDigits
  rw [h3]
  simp [digitsValue]

/-! ## The claims on `parseService` -/

/-- C5 (as amended): for decimal numerals `A`, `B` and a protocol `tcp`, `udp` or
`any` in any letter case, `parseService("A-B/proto")` succeeds if and only if
`A ≤ B` and `B` fits a Go `int` (`B < 2^63`); no bound of 65535 is enforced. -/
theorem parseService_range_ok_iff (T : PolicyTypes) (lo hi proto w : List Char)
    (hw : w = "tcp".toList ∨ w = "udp".toList ∨ w = "any".toList)
    (hproto : letterCaseOf w proto = true) (hlo : isNumeral lo) (hhi : isNumeral hi) :
    (parseService T (lo ++ '-' :: hi ++ '/' :: proto)).2 = none ↔
      (digitsValue lo ≤ digitsValue hi ∧ digitsValue hi < 2 ^ 63) := by
  obtain ⟨hl, hs⟩ := toLower_of_letterCase w proto hw hproto
  obtain ⟨code, hcode⟩ := protoCode_exists w hw
  rw [parseService_range_proto T lo hi proto hlo hhi hs, hl]
  by_cases h2 : digitsValue hi < 2 ^ 63
  · have hb : Atoi hi = some (digitsValue hi : Int) := by
      rw [atoi_of_numeral hi hhi, if_pos h2]
    by_cases h1 : digitsValue lo < 2 ^ 63
    · have ha : Atoi lo = some (digitsValue lo : Int) := by
        rw [atoi_of_numeral lo hlo, if_pos h1]
      by_cases h3 : digitsValue lo ≤ digitsValue hi
      · rw [parsePortRange_known T lo hi w code _ _ hcode ha hb (by omega)]
        exact ⟨fun _ => ⟨h3, h2⟩, fun _ => rfl⟩
      · have h4 : (digitsValue lo : Int) > (digitsValue hi : Int) := by omega
        unfold parsePortRange
        rw [ha, hb]
        simp only [if_pos h4]
        exact ⟨fun h => absurd h (by simp), fun h => absurd h.1 h3⟩
    · unfold parsePortRange
      rw [atoi_of_numeral lo hlo, if_neg h1]
      exact ⟨fun h => absurd h (by simp), fun h => absurd (lt_of_le_of_lt h.1 h.2) h1⟩
  · unfold parsePortRange
    rw [atoi_of_numeral hi hhi, if_neg h2]
    constructor
    · intro h
      cases hA : Atoi lo with
      | none => rw [hA] at h; exact absurd h (by simp)
      | some a => rw [hA] at h; exact absurd h (by simp)
    · intro h; exact absurd h.2 h2

/-- Witness of C5 (as amended) at `"80-443/TCP"`. -/
theorem parseService_range_ok_iff_witness :
    (parseService exampleTypes "80-443/TCP".toList).2 = none ↔
      (digitsValue "80".toList ≤ digitsValue "443".toList ∧ digitsValue "443".toList < 2 ^ 63) :=
  parseService_range_ok_iff exampleTypes "80".toList "443".toList "TCP".toList "tcp".toList
    (Or.inl rfl) (by decide) (by decide) (by decide)

/-- C5 (counterexample): `parseService("1-70000/tcp")` succeeds, with the upper
port narrowed to `70000 mod 65536 = 4464`, although `70000 > 65535`. -/
theorem parseService_range_above_65535 :
    parseService exampleTypes "1-70000/tcp".toList = (⟨exampleTypes.RANGE, 6, 1, 4464⟩, none)
      ∧ isNumeral "1".toList ∧ isNumeral "70000".toList
      ∧ ¬ (digitsValue "1".toList ≤ digitsValue "70000".toList
          ∧ digitsValue "70000".toList ≤ 65535) := by
  decide

/-- C6: for decimal numerals `A ≤ B ≤ 65535` and a protocol `tcp`, `udp` or
`any` in any letter case, `parseService("A-B/proto")` returns without error the
policy `{RANGE, code, A, B}`, the code being 6, 17 or `ANY` (0).  A numeral is
any string of decimal digits; by `toDigits_numeral` the decimal form of every
number is one. -/
theorem parseService_range_policy (T : PolicyTypes) (lo hi proto w : List Char) (code : Nat)
    (hw : (w = "tcp".toList ∧ code = 6) ∨ (w = "udp".toList ∧ code = 17) ∨
      (w = "any".toList ∧ code = ANY))
    (hproto : letterCaseOf w proto = true) (hlo : isNumeral lo) (hhi : isNumeral hi)
    (hle : digitsValue lo ≤ digitsValue hi) (hv : digitsValue hi ≤ 65535) :
    parseService T (lo ++ '-' :: hi ++ '/' :: proto) =
      (⟨T.RANGE, code, digitsValue lo, digitsValue hi⟩, none) := by
  have hw1 : w = "tcp".toList ∨ w = "udp".toList ∨ w = "any".toList := by
    rcases hw with h | h | h
    · exact Or.inl h.1
    · exact Or.inr (Or.inl h.1)
    · exact Or.inr (Or.inr h.1)
  obtain ⟨hl, hs⟩ := toLower_of_letterCase w proto hw1 hproto
  rw [parseService_range_proto T lo hi proto hlo hhi hs, hl]
  exact parsePortRange_of_numerals T lo hi w code hw hlo hhi hle hv

/-- Witness of C6 at `"100-150/Udp"`. -/
theorem parseService_range_policy_witness :
    parseService exampleTypes "100-150/Udp".toList = (⟨exampleTypes.RANGE, 17, 100, 150⟩, none) :=
  parseService_range_policy exampleTypes "100".toList "150".toList "Udp".toList "udp".toList 17
    (Or.inr (Or.inl ⟨rfl, rfl⟩)) (by decide) (by decide) (by decide) (by decide) (by decide)

/-- C7: for a decimal numeral `P ≤ 65535` and a protocol `tcp`, `udp` or `any` in
any letter case, `parseService("P/proto")` returns without error the policy
`{SINGLE, code, P, 0}`, the code being 6, 17 or `ANY` (0).  A numeral is any
string of decimal digits; by `toDigits_numeral` the decimal form of every number
is one. -/
theorem parseService_single_policy (T : PolicyTypes) (port proto w : List Char) (code : Nat)
    (hw : (w = "tcp".toList ∧ code = 6) ∨ (w = "udp".toList ∧ code = 17) ∨
      (w = "any".toList ∧ code = ANY))
    (hproto : letterCaseOf w proto = true) (hport : isNumeral port)
    (hv : digitsValue port ≤ 65535) :
    parseService T (port ++ '/' :: proto) = (⟨T.SINGLE, code, digitsValue port, 0⟩, none) := by
  have hw1 : w = "tcp".toList ∨ w = "udp".toList ∨ w = "any".toList := by
    rcases hw with h | h | h
    · exact Or.inl h.1
    · exact Or.inr (Or.inl h.1)
    · exact Or.inr (Or.inr h.1)
  obtain ⟨hl, hs⟩ := toLower_of_letterCase w proto hw1 hproto
  rw [parseService_port_proto T port proto hport hs, hl]
  exact parseSinglePort_of_numeral T port w code hw hport hv

/-- Witness of C7 at `"8080/TCP"`. -/
theorem parseService_single_policy_witness :
    parseService exampleTypes "8080/TCP".toList = (⟨exampleTypes.SINGLE, 6, 8080, 0⟩, none) :=
  parseService_single_policy exampleTypes "8080".toList "TCP".toList "tcp".toList 6
    (Or.inl ⟨rfl, rfl⟩) (by decide) (by decide) (by decide)

/-- C10: `parseService("icmp")` returns without error `{SINGLE, ICMP, 0, 0}`, and
every other service string without `"/"` is rejected with an error. -/
theorem parseService_icmp (T : PolicyTypes) :
    parseService T "icmp".toList = (⟨T.SINGLE, ICMP, 0, 0⟩, none) ∧
    ∀ s : List Char, '/' ∉ s → s ≠ "icmp".toList →
      parseService T s =
        (Policy.zero, some ("malformed port/service declaration: ".toList ++ s)) := by
  constructor
  · rfl
  · intro s hs hne
    unfold parseService
    rw [split_of_not_mem '/' s hs]
    simp only [if_neg hne]

/-- Witness of C10 at `"http"`. -/
theorem parseService_icmp_witness :
    parseService exampleTypes "http".toList =
      (Policy.zero, some "malformed port/service declaration: http".toList) :=
  (parseService_icmp exampleTypes).2 "http".toList (by decide) (by decide)

theorem splitAux_ne_nil (sep : Char) (s cur : List Char) : splitAux sep s cur ≠ [] := by
  induction s generalizing cur with
  | nil => simp [splitAux]
  | cons c cs ih =>
    unfold splitAux
    split
    · simp
    · exact ih _

/-- The parts of a split hold no separator and, joined by the separator, give the string back. -/
theorem splitAux_eq_cons (sep : Char) (s cur p : List Char) (ps : List (List Char))
    (h : splitAux sep s cur = p :: ps) (hcur : sep ∉ cur) :
    sep ∉ p ∧ cur ++ s = p ++ (ps.map (fun q => sep :: q)).flatten ∧ ∀ q ∈ ps, sep ∉ q := by
  induction s generalizing cur p ps with
  | nil =>
    simp only [splitAux, List.cons.injEq] at h
    obtain ⟨rfl, rfl⟩ := h
    simp [hcur]
  | cons c cs ih =>
    unfold splitAux at h
    by_cases hc : c = sep
    · rw [if_pos hc] at h
      simp only [List.cons.injEq] at h
      obtain ⟨rfl, rfl⟩ := h
      cases hq : splitAux sep cs [] with
      | nil => exact absurd hq (splitAux_ne_nil sep cs [])
      | cons q qs =>
        obtain ⟨h1, h2, h3⟩ := ih [] q qs hq (by simp)
        refine ⟨hcur, ?_, ?_⟩
        · simp only [List.nil_append] at h2
          simp [h2, hc]
        · intro x hx
          rcases List.mem_cons.mp hx with rfl | hx
          · exact h1
          · exact h3 x hx
    · rw [if_neg hc] at h
      have hcur1 : sep ∉ cur ++ [c] := by
        simp only [List.mem_append, List.mem_singleton, not_or]
        exact ⟨hcur, fun e => hc e.symm⟩
      obtain ⟨h1, h2, h3⟩ := ih (cur ++ [c]) p ps h hcur1
      refine ⟨h1, ?_, h3⟩
      rw [← h2]
      simp

theorem split_eq_cons (sep : Char) (s p : List Char) (ps : List (List Char))
    (h : Split s sep = p :: ps) :
    sep ∉ p ∧ s = p ++ (ps.map (fun q => sep :: q)).flatten ∧ ∀ q ∈ ps, sep ∉ q := by
  have := splitAux_eq_cons sep s [] p ps h (by simp)
  simpa using this

theorem parseDigits_eq_some (ds : List Char) (bound n : Nat) (h : parseDigits ds bound = some n) :
    isNumeral ds ∧ digitsValue ds < bound ∧ n = digitsValue ds := by
  unfold parseDigits at h
  split_ifs at h with hc
  simp only [Option.some.injEq] at h
  exact ⟨⟨hc.1, hc.2.1⟩, hc.2.2, h.symm⟩

theorem atoi_eq_some_of_no_minus (x : List Char) (v : Int) (h : Atoi x = some v)
    (hm : '-' ∉ x) : ∃ n : Nat, v = n ∧ isPortOf x n := by
  cases x with
  | nil => simp [Atoi] at h
  | cons c ds =>
    have hc : c ≠ '-' := fun e => hm (by simp [e])
    simp only [Atoi, if_neg hc] at h
    by_cases hp : c = '+'
    · rw [if_pos hp] at h
      cases hd : parseDigits ds (2 ^ 63) with
      | none => rw [hd] at h; simp at h
      | some n =>
        rw [hd] at h
        simp only [Option.some.injEq] at h
        obtain ⟨h1, h2, h3⟩ := parseDigits_eq_some ds _ n hd
        exact ⟨n, h.symm, ds, h1, Or.inr (by rw [hp]), h3.symm, by omega⟩
    · rw [if_neg hp] at h
      cases hd : parseDigits (c :: ds) (2 ^ 63) with
      | none => rw [hd] at h; simp at h
      | some n =>
        rw [hd] at h
        simp only [Option.some.injEq] at h
        obtain ⟨h1, h2, h3⟩ := parseDigits_eq_some (c :: ds) _ n hd
        exact ⟨n, h.symm, c :: ds, h1, Or.inl rfl, h3.symm, by omega⟩

set_option maxRecDepth 100000

/-- No entry of `lowerCaseRanges` gives an ASCII character, but for U+0130 and
U+212A, whose lower cases are `i` and `k`. -/
theorem lowerCaseRanges_high :
    ∀ e ∈ lowerCaseRanges, 128 ≤ e.2.2.2 ∨ (e.1 = e.2.1 ∧ (e.2.2.2 = 105 ∨ e.2.2.2 = 107)) := by
  decide

theorem ofNat_toNat_high (m : Nat) : (Char.ofNat m).toNat = m ∨ (Char.ofNat m).toNat = 0 := by
  by_cases hv : m.isValidChar
  · left
    simp only [Char.ofNat, hv, dite_true, Char.ofNatAux, Char.toNat]
    rfl
  · right
    simp only [Char.ofNat, hv, dite_false]
    rfl

theorem unicodeLower_not_letter (n : Nat) (hn : 128 ≤ n) (c : Char)
    (hc : c ∈ ['t', 'c', 'p', 'u', 'd', 'a', 'n', 'y']) : Char.ofNat (unicodeLower n) ≠ c := by
  intro h
  have hlow : (Char.ofNat (unicodeLower n)).toNat ∈ [116, 99, 112, 117, 100, 97, 110, 121] := by
    rw [h]
    revert hc
    simp only [List.mem_cons, List.mem_singleton, List.not_mem_nil, or_false]
    rintro (rfl | rfl | rfl | rfl | rfl | rfl | rfl | rfl) <;> decide
  have hval : unicodeLower n ∈ [116, 99, 112, 117, 100, 97, 110, 121] := by
    rcases ofNat_toNat_high (unicodeLower n) with e | e
    · rw [e] at hlow; exact hlow
    · rw [e] at hlow; exact absurd hlow (by decide)
  have hbound : 128 ≤ unicodeLower n ∨ unicodeLower n = 105 ∨ unicodeLower n = 107 := by
    unfold unicodeLower
    cases hf : lowerCaseRanges.find?
        (fun e => decide (e.1 ≤ n ∧ n ≤ e.2.1 ∧ (n - e.1) % e.2.2.1 = 0)) with
    | none => exact Or.inl hn
    | some e =>
      have hmem := List.mem_of_find?_eq_some hf
      have hp0 := List.find?_some hf
      have hp := of_decide_eq_true hp0
      simp only
      rcases lowerCaseRanges_high e hmem with h1 | ⟨h1, h2⟩
      · left; omega
      · right
        have : n - e.1 = 0 := by omega
        rw [this, Nat.add_zero]
        exact h2
  simp only [List.mem_cons, List.mem_singleton, List.not_mem_nil, or_false] at hval
  omega

theorem toLowerRune_eq_letter (x c : Char) (hc : c ∈ ['t', 'c', 'p', 'u', 'd', 'a', 'n', 'y'])
    (h : toLowerRune x = c) : x = c ∨ x = asciiUpper c := by
  unfold toLowerRune at h
  split_ifs at h with h1 h2
  · have hx : x = Char.ofNat x.toNat := (Char.ofNat_toNat x).symm
    generalize x.toNat = n at h h1 hx
    subst hx
    obtain ⟨h1a, h1b⟩ := h1
    subst h
    revert hc
    interval_cases n <;> decide
  · exact Or.inl h
  · exact absurd h (unicodeLower_not_letter x.toNat (by omega) c hc)

theorem letterCase_of_toLower (w p : List Char)
    (hw : w = "tcp".toList ∨ w = "udp".toList ∨ w = "any".toList)
    (h : ToLower p = w) : letterCaseOf w p = true := by
  have key : ∀ (a b c : Char), a ∈ ['t', 'c', 'p', 'u', 'd', 'a', 'n', 'y'] →
      b ∈ ['t', 'c', 'p', 'u', 'd', 'a', 'n', 'y'] → c ∈ ['t', 'c', 'p', 'u', 'd', 'a', 'n', 'y'] →
      ToLower p = [a, b, c] → letterCaseOf [a, b, c] p = true := by
    intro a b c ha hb hc hl
    match p, hl with
    | [x, y, z], hl =>
      simp only [ToLower, List.map_cons, List.map_nil, List.cons.injEq, and_true] at hl
      obtain ⟨hx, hy, hz⟩ := hl
      have e1 := toLowerRune_eq_letter x a ha hx
      have e2 := toLowerRune_eq_letter y b hb hy
      have e3 := toLowerRune_eq_letter z c hc hz
      simp only [letterCaseOf, Bool.and_eq_true, Bool.or_eq_true, decide_eq_true_eq, and_true]
      exact ⟨e1, e2, e3⟩
    | [], hl => simp [ToLower] at hl
    | [_], hl => simp [ToLower] at hl
    | [_, _], hl => simp [ToLower] at hl
    | _ :: _ :: _ :: _ :: _, hl => simp [ToLower] at hl
  rcases hw with rfl | rfl | rfl
  · exact key 't' 'c' 'p' (by decide) (by decide) (by decide) h
  · exact key 'u' 'd' 'p' (by decide) (by decide) (by decide) h
  · exact key 'a' 'n' 'y' (by decide) (by decide) (by decide) h

theorem parseSinglePort_ok (T : PolicyTypes) (port proto : List Char) (p : Policy)
    (h : parseSinglePort T port proto = (p, none)) :
    (∃ v, Atoi port = some v) ∧
      (proto = "tcp".toList ∨ proto = "udp".toList ∨ proto = "any".toList) := by
  unfold parseSinglePort at h
  cases ha : Atoi port with
  | none => rw [ha] at h; simp at h
  | some v =>
    rw [ha] at h
    refine ⟨⟨v, rfl⟩, ?_⟩
    by_cases h1 : proto = "any".toList
    · exact Or.inr (Or.inr h1)
    · by_cases h2 : proto = "tcp".toList ∨ proto = "udp".toList
      · rcases h2 with h2 | h2
        · exact Or.inl h2
        · exact Or.inr (Or.inl h2)
      · simp only [if_neg h1, if_neg h2] at h
        simp at h

theorem parsePortRange_ok (T : PolicyTypes) (lo hi proto : List Char) (p : Policy)
    (h : parsePortRange T lo hi proto = (p, none)) :
    (∃ a b, Atoi lo = some a ∧ Atoi hi = some b ∧ a ≤ b) ∧
      (proto = "tcp".toList ∨ proto = "udp".toList ∨ proto = "any".toList) := by
  unfold parsePortRange at h
  cases ha : Atoi lo with
  | none => rw [ha] at h; simp at h
  | some a =>
    cases hb : Atoi hi with
    | none => rw [ha, hb] at h; simp at h
    | some b =>
      rw [ha, hb] at h
      by_cases hgt : a > b
      · simp only [if_pos hgt] at h
        simp at h
      · simp only [if_neg hgt] at h
        refine ⟨⟨a, b, rfl, rfl, not_lt.mp hgt⟩, ?_⟩
        by_cases h1 : proto = "any".toList
        · exact Or.inr (Or.inr h1)
        · by_cases h2 : proto = "tcp".toList ∨ proto = "udp".toList
          · rcases h2 with h2 | h2
            · exact Or.inl h2
            · exact Or.inr (Or.inl h2)
          · simp only [if_neg h1, if_neg h2] at h
            simp at h

theorem isProto_of_toLower (p1 : List Char)
    (h : ToLower p1 = "tcp".toList ∨ ToLower p1 = "udp".toList ∨ ToLower p1 = "any".toList) :
    isProto p1 := by
  rcases h with h | h | h
  · exact Or.inl (letterCase_of_toLower _ p1 (Or.inl rfl) h)
  · exact Or.inr (Or.inl (letterCase_of_toLower _ p1 (Or.inr (Or.inl rfl)) h))
  · exact Or.inr (Or.inr (letterCase_of_toLower _ p1 (Or.inr (Or.inr rfl)) h))

theorem flatten_sep_shape (sep : Char) (rest : List (List Char)) :
    (rest.map (fun q => sep :: q)).flatten = [] ∨
      ∃ t, (rest.map (fun q => sep :: q)).flatten = sep :: t := by
  cases rest with
  | nil => exact Or.inl rfl
  | cons q qs => exact Or.inr ⟨q ++ (qs.map (fun q => sep :: q)).flatten, by simp⟩

/-- C8 (as amended): if `parseService(s)` succeeds then `s` is `"icmp"`, or `s` is
`a "/" proto tail` where `proto` is `tcp`, `udp` or `any` in some letter case,
`tail` is empty or starts with a further `"/"` (and is ignored), and `a` is a
port or `lo "-" hi junk` with ports `lo ≤ hi` and `junk` empty or starting with
a further `"-"` (and ignored); a port is a decimal numeral, with an optional
`+` before it, whose value is below `2^63` (no bound of 65535). -/
theorem parseService_ok_shape (T : PolicyTypes) (s : List Char) (p : Policy)
    (h : parseService T s = (p, none)) :
    s = "icmp".toList ∨
    ∃ a proto tail, s = a ++ '/' :: proto ++ tail ∧ '/' ∉ a ∧ '/' ∉ proto ∧
      (tail = [] ∨ ∃ t, tail = '/' :: t) ∧ isProto proto ∧
      ((∃ v, isPortOf a v) ∨
        ∃ lo hi junk vlo vhi, a = lo ++ '-' :: hi ++ junk ∧ (junk = [] ∨ ∃ j, junk = '-' :: j) ∧
          isPortOf lo vlo ∧ isPortOf hi vhi ∧ vlo ≤ vhi) := by
  unfold parseService at h
  cases hs : Split s '/' with
  | nil => exact absurd hs (splitAux_ne_nil '/' s [])
  | cons p0 ps =>
    obtain ⟨hp0, hseq, hall⟩ := split_eq_cons '/' s p0 ps hs
    rw [hs] at h
    cases ps with
    | nil =>
      left
      simp only [List.map_nil, List.flatten_nil, List.append_nil] at hseq
      by_cases hi : p0 = "icmp".toList
      · rw [hseq, hi]
      · simp only [if_neg hi] at h
        simp at h
    | cons p1 rest =>
      right
      simp only at h
      have hp1 : '/' ∉ p1 := hall p1 (by simp)
      have hshape : s = p0 ++ '/' :: p1 ++ (rest.map (fun q => '/' :: q)).flatten := by
        rw [hseq]; simp
      refine ⟨p0, p1, (rest.map (fun q => '/' :: q)).flatten, hshape, hp0, hp1,
        flatten_sep_shape '/' rest, ?_⟩
      cases hd : Split p0 '-' with
      | nil => exact absurd hd (splitAux_ne_nil '-' p0 [])
      | cons lo more =>
        obtain ⟨hlo, hdeq, hdall⟩ := split_eq_cons '-' p0 lo more hd
        rw [hd] at h
        cases more with
        | nil =>
          simp only at h
          simp only [List.map_nil, List.flatten_nil, List.append_nil] at hdeq
          obtain ⟨⟨v, hv⟩, hproto⟩ := parseSinglePort_ok T p0 (ToLower p1) p h
          obtain ⟨n, _, hn⟩ := atoi_eq_some_of_no_minus p0 v hv (by rw [hdeq]; exact hlo)
          exact ⟨isProto_of_toLower p1 hproto, Or.inl ⟨n, hn⟩⟩
        | cons hi more1 =>
          simp only at h
          obtain ⟨⟨a, b, ha, hb, hab⟩, hproto⟩ := parsePortRange_ok T lo hi (ToLower p1) p h
          obtain ⟨n, hna, hn⟩ := atoi_eq_some_of_no_minus lo a ha hlo
          obtain ⟨m, hmb, hm⟩ := atoi_eq_some_of_no_minus hi b hb (hdall hi (by simp))
          refine ⟨isProto_of_toLower p1 hproto, Or.inr ⟨lo, hi,
            (more1.map (fun q => '-' :: q)).flatten, n, m, ?_, flatten_sep_shape '-' more1,
            hn, hm, ?_⟩⟩
          · rw [hdeq]; simp
          · omega

/-- Witness of C8 (as amended) at `"3-5-9/TCP/x"`, which `parseService` accepts. -/
theorem parseService_ok_shape_witness :
    parseService exampleTypes "3-5-9/TCP/x".toList = (⟨2, 6, 3, 5⟩, none) ∧
    ("3-5-9/TCP/x".toList = "icmp".toList ∨
    ∃ a proto tail, "3-5-9/TCP/x".toList = a ++ '/' :: proto ++ tail ∧ '/' ∉ a ∧ '/' ∉ proto ∧
      (tail = [] ∨ ∃ t, tail = '/' :: t) ∧ isProto proto ∧
      ((∃ v, isPortOf a v) ∨
        ∃ lo hi junk vlo vhi, a = lo ++ '-' :: hi ++ junk ∧ (junk = [] ∨ ∃ j, junk = '-' :: j) ∧
          isPortOf lo vlo ∧ isPortOf hi vhi ∧ vlo ≤ vhi)) :=
  ⟨by decide,
    parseService_ok_shape exampleTypes "3-5-9/TCP/x".toList ⟨2, 6, 3, 5⟩ (by decide)⟩

/-- C8 (counterexample): `parseService` accepts `"80/tcp/x"`, `"3-5-9/tcp"`,
`"+80/tcp"` and `"70000/tcp"`. -/
theorem parseService_accepts_outside_grammar :
    parseService exampleTypes "80/tcp/x".toList = (⟨exampleTypes.SINGLE, 6, 80, 0⟩, none) ∧
    parseService exampleTypes "3-5-9/tcp".toList = (⟨exampleTypes.RANGE, 6, 3, 5⟩, none) ∧
    parseService exampleTypes "+80/tcp".toList = (⟨exampleTypes.SINGLE, 6, 80, 0⟩, none) ∧
    parseService exampleTypes "70000/tcp".toList = (⟨exampleTypes.SINGLE, 6, 4464, 0⟩, none) := by
  decide

/-! ## Lemmas on slices -/

theorem roundupsize_ge (size : Nat) : size ≤ roundupsize size := by
  unfold roundupsize
  cases h : sizeClasses.find? (fun c => decide (size ≤ c)) with
  | some c =>
    have := List.find?_some h
    simpa using this
  | none =>
    simp only
    omega

theorem nextslicecapLoop_ge (fuel c n : Nat) (h : n ≤ c + fuel) :
    n ≤ nextslicecapLoop fuel c n := by
  induction fuel generalizing c with
  | zero => simpa [nextslicecapLoop] using h
  | succ k ih =>
    unfold nextslicecapLoop
    simp only
    split
    · assumption
    · apply ih
      omega

theorem nextslicecap_ge (newLen oldCap : Nat) : newLen ≤ nextslicecap newLen oldCap := by
  unfold nextslicecap
  split
  · exact le_refl _
  · split
    · omega
    · exact nextslicecapLoop_ge _ _ _ (by omega)

theorem growslice_ge (oldCap newLen : Nat) : newLen ≤ growslice oldCap newLen := by
  unfold growslice
  have h1 := nextslicecap_ge newLen oldCap
  have h2 := roundupsize_ge (nextslicecap newLen oldCap * 8)
  omega

theorem getD_set_heap (h : Heap) (i j : Nat) (v : List Policy) :
    (h.set i v).getD j [] = if i = j ∧ i < h.length then v else h.getD j [] := by
  simp only [List.getD_eq_getElem?_getD, List.getElem?_set]
  by_cases hij : i = j
  · subst hij
    by_cases hl : i < h.length
    · simp [hl]
    · simp [hl]
      simp [List.getElem?_eq_none (not_lt.mp hl)]
  · simp [hij]

theorem getD_append_heap (h : Heap) (j : Nat) (v : List Policy) :
    (h ++ [v]).getD j [] = if j = h.length then v else h.getD j [] := by
  simp only [List.getD_eq_getElem?_getD]
  by_cases hj : j < h.length
  · rw [List.getElem?_append_left hj]
    simp [Nat.ne_of_lt hj]
  · rw [List.getElem?_append_right (not_lt.mp hj)]
    by_cases he : j = h.length
    · simp [he]
    · have : j - h.length ≠ 0 := by omega
      obtain ⟨k, hk⟩ := Nat.exists_eq_succ_of_ne_zero this
      simp [he, hk, List.getElem?_eq_none (not_lt.mp hj)]

theorem write_getElem? (arr xs : List Policy) (l j : Nat) (hl : l + xs.length ≤ arr.length) :
    (arr.take l ++ xs ++ arr.drop (l + xs.length))[j]? =
      if j < l then arr[j]? else if j < l + xs.length then xs[j - l]? else arr[j]? := by
  have hlen : (arr.take l).length = l := by simp; omega
  by_cases h1 : j < l
  · rw [if_pos h1, List.append_assoc, List.getElem?_append_left (by omega)]
    rw [List.getElem?_take_of_lt h1]
  · rw [if_neg h1]
    by_cases h2 : j < l + xs.length
    · rw [if_pos h2, List.getElem?_append_left (by simp; omega),
        List.getElem?_append_right (by omega), hlen]
    · rw [if_neg h2, List.getElem?_append_right (by simp; omega)]
      simp only [List.length_append, hlen, List.getElem?_drop]
      congr 1
      omega

theorem write_length (arr xs : List Policy) (l : Nat) (hl : l + xs.length ≤ arr.length) :
    (arr.take l ++ xs ++ arr.drop (l + xs.length)).length = arr.length := by
  simp
  omega

theorem mem_of_getElem?_eq_some {α : Type} (xs : List α) (j : Nat) (p : α)
    (h : xs[j]? = some p) : p ∈ xs := by
  rw [List.getElem?_eq_some] at h
  obtain ⟨hj, rfl⟩ := h
  exact List.getElem_mem hj

theorem view_length (h : Heap) (s : Slice) (hs : s.len ≤ (h.getD s.ptr []).length) :
    (h.view s).length = s.len := by
  unfold Heap.view
  rw [List.length_take]
  exact Nat.min_eq_left hs

/-- Appending through a slice keeps every slice of the heap good (also the
slices that share its array), when the appended elements are good. -/
theorem appendSlice_frame (Q : Policy → Prop) (h : Heap) (s : Slice) (xs : List Policy)
    (t : Slice) (hs : SliceOK (fun _ => True) h s) (ht : SliceOK Q h t) (hx : ∀ x ∈ xs, Q x) :
    SliceOK Q (appendSlice h s xs).1 t := by
  obtain ⟨hs1, hs2, -⟩ := hs
  obtain ⟨ht1, ht2, ht3⟩ := ht
  unfold appendSlice
  by_cases hc : s.len + xs.length ≤ s.cap
  · rw [if_pos hc]
    simp only
    refine ⟨ht1, ?_, ?_⟩
    · rw [getD_set_heap]
      split
      · rename_i hp
        rw [write_length _ _ _ (by omega), hp.1]
        exact ht2
      · exact ht2
    · intro j hj p hp
      rw [getD_set_heap] at hp
      split at hp
      · rename_i hpt
        rw [write_getElem? _ _ _ _ (by omega)] at hp
        split at hp
        · rw [hpt.1] at hp; exact ht3 j hj p hp
        · split at hp
          · exact hx p (mem_of_getElem?_eq_some _ _ _ hp)
          · rw [hpt.1] at hp; exact ht3 j hj p hp
      · exact ht3 j hj p hp
  · rw [if_neg hc]
    simp only
    by_cases hp : t.ptr = h.length
    · have h0 : h.getD t.ptr [] = [] := by
        rw [hp, List.getD_eq_getElem?_getD, List.getElem?_eq_none (le_refl _)]
        rfl
      rw [h0] at ht2
      simp only [List.length_nil, Nat.le_zero] at ht2
      refine ⟨ht1, by omega, ?_⟩
      intro j hj
      omega
    · refine ⟨ht1, ?_, ?_⟩
      · rw [getD_append_heap, if_neg hp]; exact ht2
      · intro j hj p hq
        rw [getD_append_heap, if_neg hp] at hq
        exact ht3 j hj p hq

/-- The slice that `append` returns is good when the slice and the elements were. -/
theorem appendSlice_ok (Q : Policy → Prop) (h : Heap) (s : Slice) (xs : List Policy)
    (hs : SliceOK Q h s) (hx : ∀ x ∈ xs, Q x) :
    SliceOK Q (appendSlice h s xs).1 (appendSlice h s xs).2 := by
  obtain ⟨hs1, hs2, hs3⟩ := hs
  unfold appendSlice
  by_cases hc : s.len + xs.length ≤ s.cap
  · rw [if_pos hc]
    simp only
    by_cases hp : s.ptr < h.length
    · have hg : (h.set s.ptr (List.take s.len (h.getD s.ptr []) ++ xs ++
          List.drop (s.len + xs.length) (h.getD s.ptr []))).getD s.ptr [] =
          List.take s.len (h.getD s.ptr []) ++ xs ++
          List.drop (s.len + xs.length) (h.getD s.ptr []) := by
        rw [getD_set_heap, if_pos ⟨rfl, hp⟩]
      refine ⟨hc, ?_, ?_⟩
      · rw [hg, write_length _ _ _ (by omega)]; exact hs2
      · intro j hj p hq
        have hj1 : j < s.len + xs.length := hj
        rw [hg, write_getElem? _ _ _ _ (by omega)] at hq
        by_cases hjl : j < s.len
        · rw [if_pos hjl] at hq; exact hs3 j hjl p hq
        · rw [if_neg hjl, if_pos hj1] at hq
          exact hx p (mem_of_getElem?_eq_some _ _ _ hq)
    · have h0 : h.getD s.ptr [] = [] := by
        rw [List.getD_eq_getElem?_getD, List.getElem?_eq_none (not_lt.mp hp)]
        rfl
      rw [h0] at hs2
      simp only [List.length_nil, Nat.le_zero] at hs2
      have hx0 : xs.length = 0 := by omega
      have hl0 : s.len = 0 := by omega
      refine ⟨hc, ?_, ?_⟩
      · show s.cap ≤ _
        rw [hs2]; exact Nat.zero_le _
      · intro j hj
        have hj1 : j < s.len + xs.length := hj
        omega
  · rw [if_neg hc]
    simp only
    have hg := growslice_ge s.cap (s.len + xs.length)
    have hv : (h.view s).length = s.len := view_length h s (by omega)
    refine ⟨hg, ?_, ?_⟩
    · rw [getD_append_heap, if_pos rfl]
      simp only [List.length_append, List.length_replicate, hv]
      omega
    · intro j hj p hq
      have hj1 : j < s.len + xs.length := hj
      rw [getD_append_heap, if_pos rfl] at hq
      rw [List.getElem?_append_left (by simp only [List.length_append, hv]; omega)] at hq
      by_cases hjl : j < s.len
      · rw [List.getElem?_append_left (by omega)] at hq
        simp only [Heap.view] at hq
        rw [List.getElem?_take_of_lt hjl] at hq
        exact hs3 j hjl p hq
      · rw [List.getElem?_append_right (by omega)] at hq
        exact hx p (mem_of_getElem?_eq_some _ _ _ hq)

/-- The elements of the slice that `append` returns. -/
theorem appendSlice_view (h : Heap) (s : Slice) (xs : List Policy)
    (hs : SliceOK (fun _ => True) h s) :
    (appendSlice h s xs).1.view (appendSlice h s xs).2 = h.view s ++ xs := by
  obtain ⟨hs1, hs2, -⟩ := hs
  have hv : (h.view s).length = s.len := view_length h s (by omega)
  unfold appendSlice
  by_cases hc : s.len + xs.length ≤ s.cap
  · rw [if_pos hc]
    simp only [Heap.view]
    by_cases hp : s.ptr < h.length
    · rw [getD_set_heap, if_pos ⟨rfl, hp⟩]
      have hl : (List.take s.len (h.getD s.ptr []) ++ xs).length = s.len + xs.length := by
        simp only [List.length_append, List.length_take]
        omega
      rw [List.take_append_of_le_length (by omega), List.take_of_length_le (by omega)]
    · have h0 : h.getD s.ptr [] = [] := by
        rw [List.getD_eq_getElem?_getD, List.getElem?_eq_none (not_lt.mp hp)]
        rfl
      rw [h0] at hs2
      simp only [List.length_nil, Nat.le_zero] at hs2
      have hx0 : xs = [] := List.eq_nil_of_length_eq_zero (by omega)
      rw [getD_set_heap, if_neg (fun e => hp e.2), h0, hx0]
      simp
  · rw [if_neg hc]
    simp only [Heap.view]
    rw [getD_append_heap, if_pos rfl]
    have hl : (List.take s.len (h.getD s.ptr []) ++ xs).length = s.len + xs.length := by
      simp only [List.length_append, List.length_take]
      omega
    rw [List.take_append_of_le_length (by omega), List.take_of_length_le (by omega)]

theorem appendSlice_len (h : Heap) (s : Slice) (xs : List Policy) :
    (appendSlice h s xs).2.len = s.len + xs.length := by
  unfold appendSlice
  split <;> rfl

theorem sliceOK_empty (Q : Policy → Prop) (h : Heap) : SliceOK Q h Slice.empty := by
  refine ⟨le_refl _, Nat.zero_le _, ?_⟩
  intro j hj
  exact absurd hj (Nat.not_lt_zero j)

theorem sliceOK_weaken (Q : Policy → Prop) (h : Heap) (s : Slice) (hs : SliceOK Q h s) :
    SliceOK (fun _ => True) h s :=
  ⟨hs.1, hs.2.1, fun _ _ _ _ => trivial⟩

theorem sliceOK_view (Q : Policy → Prop) (h : Heap) (s : Slice) (hs : SliceOK Q h s) :
    ∀ p ∈ h.view s, Q p := by
  intro p hp
  simp only [Heap.view] at hp
  obtain ⟨j, hj, rfl⟩ := List.mem_iff_getElem.mp hp
  have hjl : j < s.len := by
    simp only [List.length_take] at hj
    omega
  apply hs.2.2 j hjl
  rw [List.getElem_take]
  exact List.getElem?_eq_getElem _

/-! ## Lemmas on `parseRule` -/

theorem fieldsAux_spaces (ws cur : List Char) (h : ws.all isSpace = true) :
    fieldsAux ws cur = if cur = [] then [] else [cur] := by
  induction ws generalizing cur with
  | nil => simp [fieldsAux]
  | cons c cs ih =>
    simp only [List.all_cons, Bool.and_eq_true] at h
    rw [fieldsAux]
    simp only [h.1, if_true]
    rw [ih [] h.2]
    by_cases hc : cur = []
    · simp [hc]
    · simp [hc]

theorem fieldsAux_token (tok rest cur : List Char) (h : ∀ c ∈ tok, isSpace c = false) :
    fieldsAux (tok ++ rest) cur = fieldsAux rest (cur ++ tok) := by
  induction tok generalizing cur with
  | nil => simp
  | cons c cs ih =>
    have hc : isSpace c = false := h c (by simp)
    rw [List.cons_append, fieldsAux]
    simp only [hc, Bool.false_eq_true, if_false]
    rw [ih (cur ++ [c]) (fun x hx => h x (by simp [hx]))]
    simp

/-- A line made of one token between white space has that token as its only field. -/
theorem fields_single (ws1 tok ws2 : List Char) (h1 : ws1.all isSpace = true)
    (h2 : ws2.all isSpace = true) (hne : tok ≠ []) (htok : ∀ c ∈ tok, isSpace c = false) :
    Fields (ws1 ++ tok ++ ws2) = [tok] := by
  unfold Fields
  have step : ∀ ws : List Char, ws.all isSpace = true → ∀ rest : List Char,
      fieldsAux (ws ++ rest) [] = fieldsAux rest [] := by
    intro ws hws rest
    induction ws with
    | nil => simp
    | cons c cs ih =>
      simp only [List.all_cons, Bool.and_eq_true] at hws
      rw [List.cons_append, fieldsAux]
      simp only [hws.1, if_true]
      exact ih hws.2
  rw [List.append_assoc, step ws1 h1, fieldsAux_token tok ws2 [] htok, fieldsAux_spaces _ _ h2]
  simp [hne]

theorem parseRuleLoop_spec (T : PolicyTypes) (t : Nat) (fields : List (List Char)) (h : Heap)
    (rules : Rule) (hwf : SliceOK (fun _ => True) h rules.Values)
    (hall : ∀ f ∈ fields, (parseService T f).2 = none) :
    ∃ r1 h1, parseRuleLoop T t fields h rules = ((r1, h1), none) ∧ r1.Keys = rules.Keys ∧
      r1.NumPolicies = rules.NumPolicies ∧ SliceOK (fun _ => True) h1 r1.Values ∧
      h1.view r1.Values = h.view rules.Values ++ fields.map (fun s => orType t (parseService T s).1)
      := by
  induction fields generalizing h rules with
  | nil => exact ⟨rules, h, rfl, rfl, rfl, hwf, by simp⟩
  | cons f fs ih =>
    have hf : (parseService T f).2 = none := hall f (by simp)
    unfold parseRuleLoop
    cases hp : parseService T f with
    | mk q e =>
      rw [hp] at hf
      simp only at hf
      subst hf
      simp only
      have hok := appendSlice_ok (fun _ => True) h rules.Values
        [{ q with PolicyType := uint16 t ||| q.PolicyType }] hwf (fun _ _ => trivial)
      have hview := appendSlice_view h rules.Values
        [{ q with PolicyType := uint16 t ||| q.PolicyType }] hwf
      obtain ⟨r1, h1, e1, e2, e3, e4, e5⟩ := ih
        (appendSlice h rules.Values [{ q with PolicyType := uint16 t ||| q.PolicyType }]).1
        { rules with Values :=
          (appendSlice h rules.Values [{ q with PolicyType := uint16 t ||| q.PolicyType }]).2 }
        hok (fun g hg => hall g (by simp [hg]))
      refine ⟨r1, h1, e1, e2, e3, e4, ?_⟩
      rw [e5, hview]
      simp [orType, hp]

theorem parseRule_spec (env : NetEnv) (T : PolicyTypes) (h : Heap) (t : Nat)
    (line address : List Char) (services : List (List Char)) (keys : List Key)
    (hf : Fields line = address :: services) (hk : parseKeys env address = .ret keys none)
    (hall : ∀ s ∈ services, (parseService T s).2 = none) :
    ∃ r h1, parseRule env T h t line = .ret (r, h1) none ∧ r.Keys = keys ∧
      SliceOK (fun _ => True) h1 r.Values ∧ h1.view r.Values = linePolicies T t services := by
  unfold parseRule
  rw [hf]
  simp only [hk]
  by_cases hs : services = []
  · rw [if_pos hs]
    have hwf := sliceOK_empty (fun _ => True) h
    refine ⟨_, _, rfl, rfl, appendSlice_ok _ h Slice.empty _ hwf (fun _ _ => trivial), ?_⟩
    simp only
    rw [appendSlice_view h Slice.empty _ hwf]
    simp [linePolicies, hs, Heap.view, Slice.empty]
  · rw [if_neg hs]
    obtain ⟨r1, h1, e1, e2, -, e4, e5⟩ := parseRuleLoop_spec T t services h
      ⟨keys, 0, Slice.empty⟩ (sliceOK_empty _ h) hall
    rw [e1]
    refine ⟨r1, h1, rfl, e2, e4, ?_⟩
    rw [e5]
    simp [linePolicies, hs, Heap.view, Slice.empty]

/-- C9: for every base type `t`, `parseRule(t, line)` on a line that is one
valid address token between white space returns exactly one policy,
`{t | SINGLE, ANY, 0, 0}`; on a line with `k ≥ 1` service tokens that
`parseService` accepts it returns exactly `k` policies, the `i`-th being
`parseService` of the `i`-th service token with `t` ORed into its type. -/
theorem parseRule_policies (env : NetEnv) (T : PolicyTypes) (h : Heap) (t : Nat) :
    (∀ (ws1 address ws2 : List Char) (keys : List Key),
      ws1.all isSpace = true → ws2.all isSpace = true → address ≠ [] →
      (∀ c ∈ address, isSpace c = false) → parseKeys env address = .ret keys none →
      ∃ r h1, parseRule env T h t (ws1 ++ address ++ ws2) = .ret (r, h1) none ∧ r.Keys = keys ∧
        h1.view r.Values = [⟨uint16 t ||| T.SINGLE, ANY, 0, 0⟩]) ∧
    (∀ (line address : List Char) (services : List (List Char)) (keys : List Key),
      Fields line = address :: services → services ≠ [] →
      parseKeys env address = .ret keys none →
      (∀ s ∈ services, (parseService T s).2 = none) →
      ∃ r h1, parseRule env T h t line = .ret (r, h1) none ∧ r.Keys = keys ∧
        h1.view r.Values = services.map (fun s => orType t (parseService T s).1)) := by
  constructor
  · intro ws1 address ws2 keys h1 h2 hne htok hk
    obtain ⟨r, h1, e1, e2, -, e4⟩ := parseRule_spec env T h t (ws1 ++ address ++ ws2) address []
      keys (fields_single ws1 address ws2 h1 h2 hne htok) hk (by simp)
    exact ⟨r, h1, e1, e2, by rw [e4]; rfl⟩
  · intro line address services keys hf hne hk hall
    obtain ⟨r, h1, e1, e2, -, e4⟩ := parseRule_spec env T h t line address services keys hf hk hall
    exact ⟨r, h1, e1, e2, by rw [e4]; simp [linePolicies, hne]⟩

/-- Witness of C9: the lines `" 1.1.1.1\t"` and `"10.0.0.0/8 icmp 53/udp 8000-8080/tcp"`
parsed with the base type `PUBLIC`. -/
theorem parseRule_policies_witness :
    (∃ r h1, parseRule (exampleNet []) exampleTypes [] exampleTypes.PUBLIC " 1.1.1.1\t".toList
        = .ret (r, h1) none ∧ r.Keys = [⟨32, [1, 1, 1, 1]⟩] ∧
        h1.view r.Values = [⟨5, 0, 0, 0⟩]) ∧
    (∃ r h1, parseRule (exampleNet []) exampleTypes [] exampleTypes.PUBLIC
        "10.0.0.0/8 icmp 53/udp 8000-8080/tcp".toList = .ret (r, h1) none ∧
        r.Keys = [⟨8, [10, 0, 0, 0]⟩] ∧
        h1.view r.Values = [⟨5, 1, 0, 0⟩, ⟨5, 17, 53, 0⟩, ⟨3, 6, 8000, 8080⟩]) :=
  ⟨(parseRule_policies (exampleNet []) exampleTypes [] exampleTypes.PUBLIC).1
      " ".toList "1.1.1.1".toList "\t".toList [⟨32, [1, 1, 1, 1]⟩]
      (by decide) (by decide) (by decide) (by decide) (by decide),
    (parseRule_policies (exampleNet []) exampleTypes [] exampleTypes.PUBLIC).2
      "10.0.0.0/8 icmp 53/udp 8000-8080/tcp".toList "10.0.0.0/8".toList
      ["icmp".toList, "53/udp".toList, "8000-8080/tcp".toList] [⟨8, [10, 0, 0, 0]⟩]
      (by decide) (by decide) (by decide) (by decide)⟩

/-! ## Invariants of `ParseRules` -/

theorem parseRuleLoop_frame (Q : Policy → Prop) (T : PolicyTypes) (t : Nat)
    (fields : List (List Char)) (h : Heap) (rules : Rule)
    (hQ : ∀ f ∈ fields, ∀ q, parseService T f = (q, none) → Q (orType t q))
    (hok : SliceOK Q h rules.Values) :
    SliceOK Q (parseRuleLoop T t fields h rules).1.2 (parseRuleLoop T t fields h rules).1.1.Values ∧
    (∀ s, SliceOK Q h s → SliceOK Q (parseRuleLoop T t fields h rules).1.2 s) ∧
    ((parseRuleLoop T t fields h rules).2 = none →
      (parseRuleLoop T t fields h rules).1.1.Values.len = rules.Values.len + fields.length ∧
      (parseRuleLoop T t fields h rules).1.1.Keys = rules.Keys) := by
  induction fields generalizing h rules with
  | nil => exact ⟨hok, fun _ hs => hs, fun _ => ⟨rfl, rfl⟩⟩
  | cons f fs ih =>
    unfold parseRuleLoop
    cases hp : parseService T f with
    | mk q e =>
      cases e with
      | some err =>
        simp only
        exact ⟨hok, fun _ hs => hs, fun hn => absurd hn (by simp)⟩
      | none =>
        simp only
        have hq : Q (orType t q) := hQ f (by simp) q hp
        have hx : ∀ x ∈ [orType t q], Q x := by
          intro x hx
          rw [List.mem_singleton.mp hx]; exact hq
        have h1 := appendSlice_ok Q h rules.Values [orType t q] hok hx
        obtain ⟨i1, i2, i3⟩ := ih (appendSlice h rules.Values [orType t q]).1
          { rules with Values := (appendSlice h rules.Values [orType t q]).2 }
          (fun g hg => hQ g (by simp [hg])) h1
        refine ⟨i1, ?_, ?_⟩
        · intro s hs
          exact i2 s (appendSlice_frame Q h rules.Values [orType t q] s
            (sliceOK_weaken Q h _ hok) hs hx)
        · intro hn
          obtain ⟨j1, j2⟩ := i3 hn
          refine ⟨Eq.trans j1 ?_, j2⟩
          simp only [appendSlice_len, List.length_cons, List.length_nil]
          omega

theorem parseRule_frame (Q : Policy → Prop) (env : NetEnv) (T : PolicyTypes) (h : Heap) (t : Nat)
    (line : List Char) (r : Rule) (h1 : Heap)
    (hret : parseRule env T h t line = .ret (r, h1) none)
    (hQ : ∀ p, lineYields T t line p → Q p) :
    SliceOK Q h1 r.Values ∧ (∀ s, SliceOK Q h s → SliceOK Q h1 s) ∧ 1 ≤ r.Values.len := by
  unfold parseRule at hret
  cases hf : Fields line with
  | nil => rw [hf] at hret; simp at hret
  | cons address services =>
    rw [hf] at hret
    simp only at hret
    cases hk : parseKeys env address with
    | fault msg => rw [hk] at hret; simp at hret
    | ret keys e =>
      cases e with
      | some err => rw [hk] at hret; simp at hret
      | none =>
        rw [hk] at hret
        simp only at hret
        by_cases hs : services = []
        · rw [if_pos hs] at hret
          simp only [Outcome.ret.injEq, Prod.mk.injEq, and_true] at hret
          obtain ⟨hr, hh⟩ := hret
          have hx : ∀ x ∈ [(⟨uint16 t ||| T.SINGLE, ANY, ANY, 0⟩ : Policy)], Q x := by
            intro x hx
            rw [List.mem_singleton.mp hx]
            exact hQ _ ⟨⟨T.SINGLE, ANY, ANY, 0⟩, ⟨address, services, hf, Or.inl ⟨hs, rfl⟩⟩, rfl⟩
          have hemp := sliceOK_empty Q h
          subst hr hh
          refine ⟨appendSlice_ok Q h Slice.empty _ hemp hx, ?_, ?_⟩
          · intro s hs1
            exact appendSlice_frame Q h Slice.empty _ s (sliceOK_empty _ h) hs1 hx
          · simp only [appendSlice_len, List.length_cons, List.length_nil]
            omega
        · rw [if_neg hs] at hret
          have hQ1 : ∀ f ∈ services, ∀ q, parseService T f = (q, none) → Q (orType t q) := by
            intro f hfm q hq
            exact hQ _ ⟨q, ⟨address, services, hf, Or.inr ⟨f, hfm, hq⟩⟩, rfl⟩
          obtain ⟨i1, i2, i3⟩ := parseRuleLoop_frame Q T t services h ⟨keys, 0, Slice.empty⟩ hQ1
            (sliceOK_empty Q h)
          cases hl : parseRuleLoop T t services h ⟨keys, 0, Slice.empty⟩ with
          | mk val err =>
            rw [hl] at hret i1 i2 i3
            simp only [Outcome.ret.injEq] at hret
            obtain ⟨hv, he⟩ := hret
            subst hv he
            refine ⟨i1, i2, ?_⟩
            have := (i3 rfl).1
            simp only at this
            rw [this]
            have : services.length ≠ 0 := fun e => hs (List.eq_nil_of_length_eq_zero e)
            omega

theorem mergeKeys_ok (Q : Policy → Prop) (r : Rule) (keys : List Key) (st : ParseState)
    (hr : SliceOK Q st.heap r.Values) (hr1 : 1 ≤ r.Values.len) (hst : StateOK Q st) :
    StateOK Q (mergeKeys r keys st) := by
  induction keys generalizing st with
  | nil => exact hst
  | cons k ks ih =>
    unfold mergeKeys
    cases hc : cacheLookup st.cache k.String with
    | none =>
      simp only
      apply ih
      · exact hr
      · intro r1 hr1m
        simp only [List.mem_append, List.mem_singleton] at hr1m
        rcases hr1m with hm | rfl
        · exact hst r1 hm
        · exact ⟨hr, hr1⟩
    | some index =>
      simp only
      have hx : ∀ x ∈ st.heap.view r.Values, Q x := sliceOK_view Q st.heap r.Values hr
      have htarget : SliceOK Q st.heap (st.result.getD index Rule.zero).Values := by
        by_cases hi : index < st.result.length
        · have hm : st.result.getD index Rule.zero ∈ st.result := by
            rw [List.getD_eq_getElem _ _ hi]
            exact List.getElem_mem hi
          exact (hst _ hm).1
        · rw [List.getD_eq_default _ _ (not_lt.mp hi)]
          exact sliceOK_empty Q st.heap
      have hwf := sliceOK_weaken Q st.heap _ htarget
      apply ih
      · exact appendSlice_frame Q st.heap _ _ r.Values hwf hr hx
      · intro r1 hr1m
        simp only at hr1m
        rcases List.mem_or_eq_of_mem_set hr1m with hm | rfl
        · exact ⟨appendSlice_frame Q st.heap _ _ r1.Values hwf (hst r1 hm).1 hx, (hst r1 hm).2⟩
        · refine ⟨appendSlice_ok Q st.heap _ _ htarget hx, ?_⟩
          simp only [appendSlice_len]
          have := view_length st.heap r.Values (le_trans hr.1 hr.2.1)
          omega

theorem parseList_ok (Q : Policy → Prop) (env : NetEnv) (T : PolicyTypes) (t : Nat)
    (lines : List (List Char)) (st : ParseState)
    (hQ : ∀ line ∈ lines, ∀ p, lineYields T t line p → Q p) (hst : StateOK Q st)
    (st1 : ParseState) (e : Option Error) (hret : parseList env T t lines st = .ret st1 e) :
    StateOK Q st1 := by
  induction lines generalizing st with
  | nil =>
    simp only [parseList, Outcome.ret.injEq] at hret
    rw [← hret.1]; exact hst
  | cons line rest ih =>
    unfold parseList at hret
    cases hp : parseRule env T st.heap t line with
    | fault msg => rw [hp] at hret; simp at hret
    | ret val err =>
      obtain ⟨r, h1⟩ := val
      cases err with
      | some er =>
        rw [hp] at hret
        simp only [Outcome.ret.injEq] at hret
        rw [← hret.1]; exact hst
      | none =>
        rw [hp] at hret
        simp only at hret
        obtain ⟨i1, i2, i3⟩ := parseRule_frame Q env T st.heap t line r h1 hp
          (hQ line (by simp))
        apply ih (mergeKeys r r.Keys { st with heap := h1 })
          (fun l hl => hQ l (by simp [hl])) _ hret
        apply mergeKeys_ok Q r r.Keys _ i1 i3
        intro r1 hr1
        exact ⟨i2 _ (hst r1 hr1).1, (hst r1 hr1).2⟩

theorem mergeRules_ok (Q : Policy → Prop) (env : NetEnv) (T : PolicyTypes)
    (mfa «public» : List (List Char))
    (hm : ∀ line ∈ mfa, ∀ p, lineYields T 0 line p → Q p)
    (hp : ∀ line ∈ «public», ∀ p, lineYields T T.PUBLIC line p → Q p)
    (st : ParseState) (e : Option Error) (hret : mergeRules env T mfa «public» = .ret st e) :
    StateOK Q st := by
  unfold mergeRules at hret
  have h0 : StateOK Q ⟨[], [], []⟩ := by
    intro r hr
    simp at hr
  cases h1 : parseList env T 0 mfa ⟨[], [], []⟩ with
  | fault msg => rw [h1] at hret; simp at hret
  | ret st1 e1 =>
    have hs1 := parseList_ok Q env T 0 mfa _ hm h0 st1 e1 h1
    rw [h1] at hret
    cases e1 with
    | some er =>
      simp only [Outcome.ret.injEq] at hret
      rw [← hret.1]; exact hs1
    | none =>
      simp only at hret
      exact parseList_ok Q env T T.PUBLIC «public» st1 hp hs1 st e hret

/-! ## The last loop of `ParseRules` -/

theorem heapExt_refl (h : Heap) : HeapExt h h := ⟨le_refl _, fun _ _ => rfl⟩

theorem heapExt_trans (h h1 h2 : Heap) (a : HeapExt h h1) (b : HeapExt h1 h2) : HeapExt h h2 :=
  ⟨le_trans a.1 b.1, fun j hj => by rw [b.2 j (lt_of_lt_of_le hj a.1), a.2 j hj]⟩

theorem sliceOK_ptr_lt (Q : Policy → Prop) (h : Heap) (s : Slice) (hs : SliceOK Q h s)
    (h1 : 1 ≤ s.len) : s.ptr < h.length := by
  by_contra hc
  have h0 : h.getD s.ptr [] = [] := by
    rw [List.getD_eq_getElem?_getD, List.getElem?_eq_none (not_lt.mp hc)]
    rfl
  have := hs.2.1
  rw [h0] at this
  simp only [List.length_nil, Nat.le_zero] at this
  have := hs.1
  omega

theorem view_ext (h h1 : Heap) (s : Slice) (he : HeapExt h h1) (hp : s.ptr < h.length) :
    h1.view s = h.view s := by
  unfold Heap.view
  rw [he.2 _ hp]

theorem sliceOK_ext (Q : Policy → Prop) (h h1 : Heap) (s : Slice) (he : HeapExt h h1)
    (hs : SliceOK Q h s) (hl : 1 ≤ s.len) : SliceOK Q h1 s := by
  have hp := sliceOK_ptr_lt Q h s hs hl
  unfold SliceOK
  rw [he.2 _ hp]
  exact hs

theorem set_append_last (h : Heap) (z v : List Policy) : (h ++ [z]).set h.length v = h ++ [v] := by
  induction h with
  | nil => rfl
  | cons a as ih => simp [List.set, ih]

theorem pad_step (h : Heap) (V : List Policy) (hV : V.length ≤ MAX_POLICIES) :
    appendSlice (makeSlice h MAX_POLICIES).1 (makeSlice h MAX_POLICIES).2 V =
      (h ++ [V ++ List.replicate (MAX_POLICIES - V.length) Policy.zero],
        ⟨h.length, V.length, MAX_POLICIES⟩) := by
  unfold makeSlice appendSlice
  simp only
  rw [if_pos (by omega)]
  rw [getD_append_heap, if_pos rfl, set_append_last]
  simp

theorem padRules_none_iff (rs : List Rule) (h : Heap) :
    padRules rs h = none ↔ ∃ r ∈ rs, MAX_POLICIES < r.Values.len := by
  induction rs generalizing h with
  | nil => simp [padRules]
  | cons r rs ih =>
    unfold padRules
    by_cases hc : r.Values.len > MAX_POLICIES
    · rw [if_pos hc]
      exact ⟨fun _ => ⟨r, by simp, hc⟩, fun _ => rfl⟩
    · rw [if_neg hc]
      simp only
      generalize (appendSlice (makeSlice h MAX_POLICIES).1 (makeSlice h MAX_POLICIES).2
            ((makeSlice h MAX_POLICIES).1.view r.Values)).1 = A
      cases hp : padRules rs A with
      | none =>
        simp only [true_iff]
        obtain ⟨r1, hr1, hl⟩ := (ih A).mp hp
        exact ⟨r1, by simp [hr1], hl⟩
      | some v =>
        simp only [false_iff, reduceCtorEq]
        rintro ⟨r1, hr1, hl⟩
        rcases List.mem_cons.mp hr1 with rfl | hm
        · exact hc hl
        · have := (ih A).mpr ⟨r1, hm, hl⟩
          rw [hp] at this
          exact absurd this (by simp)

theorem forall₂_imp_mem {α β : Type} (R S : α → β → Prop) (xs : List α) (ys : List β)
    (h : List.Forall₂ R xs ys) (himp : ∀ x ∈ xs, ∀ y, R x y → S x y) : List.Forall₂ S xs ys := by
  induction h with
  | nil => exact List.Forall₂.nil
  | cons hxy _ ih =>
    exact List.Forall₂.cons (himp _ (by simp) _ hxy) (ih (fun x hx y => himp x (by simp [hx]) y))

theorem padRules_spec (rs : List Rule) (h : Heap) (out : List Rule) (h1 : Heap)
    (hp : padRules rs h = some (out, h1))
    (hok : ∀ r ∈ rs, SliceOK (fun _ => True) h r.Values ∧ 1 ≤ r.Values.len) :
    List.Forall₂ (Padded h h1) rs out ∧ HeapExt h h1 := by
  induction rs generalizing h out h1 with
  | nil =>
    simp only [padRules, Option.some.injEq, Prod.mk.injEq] at hp
    obtain ⟨rfl, rfl⟩ := hp
    exact ⟨List.Forall₂.nil, heapExt_refl h⟩
  | cons r rs ih =>
    obtain ⟨hr, hr1⟩ := hok r (by simp)
    have hptr := sliceOK_ptr_lt _ h r.Values hr hr1
    unfold padRules at hp
    by_cases hc : r.Values.len > MAX_POLICIES
    · rw [if_pos hc] at hp; simp at hp
    · rw [if_neg hc] at hp
      simp only at hp
      have hlen : (h.view r.Values).length = r.Values.len :=
        view_length h r.Values (le_trans hr.1 hr.2.1)
      have hm : (makeSlice h MAX_POLICIES).1.view r.Values = h.view r.Values := by
        unfold makeSlice Heap.view
        simp only
        rw [getD_append_heap, if_neg (Nat.ne_of_lt hptr)]
      rw [hm, pad_step h (h.view r.Values) (by omega)] at hp
      simp only at hp
      have hext : HeapExt h
          (h ++ [h.view r.Values ++
            List.replicate (MAX_POLICIES - (h.view r.Values).length) Policy.zero]) := by
        refine ⟨by simp, ?_⟩
        intro j hj
        rw [getD_append_heap, if_neg (Nat.ne_of_lt hj)]
      cases hrec : padRules rs (h ++ [h.view r.Values ++
            List.replicate (MAX_POLICIES - (h.view r.Values).length) Policy.zero]) with
      | none => rw [hrec] at hp; simp at hp
      | some v =>
        obtain ⟨rs1, h2⟩ := v
        rw [hrec] at hp
        simp only [Option.some.injEq, Prod.mk.injEq] at hp
        obtain ⟨rfl, rfl⟩ := hp
        obtain ⟨i1, i2⟩ := ih _ rs1 h2 hrec (fun r1 hr1m =>
          ⟨sliceOK_ext _ h _ r1.Values hext (hok r1 (by simp [hr1m])).1
            (hok r1 (by simp [hr1m])).2, (hok r1 (by simp [hr1m])).2⟩)
        refine ⟨List.Forall₂.cons ?_ ?_, heapExt_trans _ _ _ hext i2⟩
        · have harr : h2.getD h.length [] = h.view r.Values ++
              List.replicate (MAX_POLICIES - (h.view r.Values).length) Policy.zero := by
            rw [i2.2 h.length (by simp), getD_append_heap, if_pos rfl]
          have hv : h2.view ⟨h.length, MAX_POLICIES, MAX_POLICIES⟩ = h.view r.Values ++
              List.replicate (MAX_POLICIES - r.Values.len) Policy.zero := by
            rw [hlen] at harr
            show (h2.getD h.length []).take MAX_POLICIES = _
            rw [harr]
            apply List.take_of_length_le
            simp only [List.length_append, List.length_replicate, hlen]
            omega
          refine ⟨rfl, rfl, hr1, not_lt.mp hc, rfl, ?_, ?_, ?_⟩
          · rw [hv]
            simp only [List.length_append, List.length_replicate, hlen]
            omega
          · rw [hv]
            simp only
            rw [List.take_append_of_le_length (by omega), List.take_of_length_le (by omega)]
          · rw [hv]
            simp only
            rw [List.drop_append_of_le_length (by omega), List.drop_of_length_le (by omega)]
            simp
        · apply forall₂_imp_mem _ _ _ _ i1
          intro r1 hr1m o hpad
          have hp1 := sliceOK_ptr_lt _ h r1.Values (hok r1 (by simp [hr1m])).1
            (hok r1 (by simp [hr1m])).2
          unfold Padded at hpad ⊢
          rw [view_ext h _ r1.Values hext hp1] at hpad
          exact hpad

theorem isOk_ret {α β : Type} (o : Outcome (α × β)) (h : o.isOk = true) :
    ∃ a b, o = .ret (a, b) none := by
  match o, h with
  | .ret (a, b) none, _ => exact ⟨a, b, rfl⟩

theorem parseRuleLoop_ok_all (T : PolicyTypes) (t : Nat) (fields : List (List Char)) (h : Heap)
    (rules : Rule) (hn : (parseRuleLoop T t fields h rules).2 = none) :
    ∀ f ∈ fields, (parseService T f).2 = none := by
  induction fields generalizing h rules with
  | nil => simp
  | cons f fs ih =>
    unfold parseRuleLoop at hn
    cases hp : parseService T f with
    | mk q e =>
      rw [hp] at hn
      cases e with
      | some err => simp at hn
      | none =>
        simp only at hn
        intro g hg
        rcases List.mem_cons.mp hg with rfl | hm
        · rw [hp]
        · exact ih _ _ hn g hm

theorem parseRule_ok_heap (env : NetEnv) (T : PolicyTypes) (h h2 : Heap) (t : Nat)
    (line : List Char) (hok : ∃ r h1, parseRule env T h t line = .ret (r, h1) none) :
    ∃ r h1, parseRule env T h2 t line = .ret (r, h1) none := by
  obtain ⟨r, h1, hret⟩ := hok
  unfold parseRule at hret
  cases hf : Fields line with
  | nil => rw [hf] at hret; simp at hret
  | cons address services =>
    rw [hf] at hret
    simp only at hret
    cases hk : parseKeys env address with
    | fault msg => rw [hk] at hret; simp at hret
    | ret keys e =>
      cases e with
      | some err => rw [hk] at hret; simp at hret
      | none =>
        rw [hk] at hret
        simp only at hret
        have hall : ∀ s ∈ services, (parseService T s).2 = none := by
          by_cases hs : services = []
          · rw [hs]; simp
          · rw [if_neg hs] at hret
            cases hl : parseRuleLoop T t services h ⟨keys, 0, Slice.empty⟩ with
            | mk val err =>
              rw [hl] at hret
              simp only [Outcome.ret.injEq] at hret
              apply parseRuleLoop_ok_all T t services h ⟨keys, 0, Slice.empty⟩
              rw [hl]; exact hret.2
        obtain ⟨r2, h3, e1, -⟩ := parseRule_spec env T h2 t line address services keys hf hk hall
        exact ⟨r2, h3, e1⟩

theorem parseList_succeeds (env : NetEnv) (T : PolicyTypes) (t : Nat) (lines : List (List Char))
    (st : ParseState) (h : ∀ l ∈ lines, parsesAlone env T t l) :
    ∃ st1, parseList env T t lines st = .ret st1 none := by
  induction lines generalizing st with
  | nil => exact ⟨st, rfl⟩
  | cons line rest ih =>
    obtain ⟨r, h1, hr⟩ := parseRule_ok_heap env T [] st.heap t line
      (isOk_ret _ (h line (by simp)))
    unfold parseList
    rw [hr]
    exact ih _ (fun l hl => h l (by simp [hl]))

/-! ## The claims on `ParseRules` -/

/-- The `MAX_POLICIES` check on the state of the loops: when every line parses
on its own, the two parsing loops end without error in a state `st`; then `ParseRules` returns an error if and only if some
rule of `st` has more than `MAX_POLICIES = 128` merged policies, and otherwise
it succeeds; on success every output rule keeps its keys, has
`1 ≤ NumPolicies ≤ 128` equal to the number of merged policies, 128 `Values`,
the first `NumPolicies` being the merged policies and the rest zero. -/
theorem parseRules_max_policies (env : NetEnv) (T : PolicyTypes)
    (mfa «public» : List (List Char))
    (hm : ∀ l ∈ mfa, parsesAlone env T 0 l)
    (hp : ∀ l ∈ «public», parsesAlone env T T.PUBLIC l) :
    ∃ st, mergeRules env T mfa «public» = .ret st none ∧
      ((∃ v e, ParseRules env T mfa «public» = .ret v (some e)) ↔
        ∃ r ∈ st.result, MAX_POLICIES < r.Values.len) ∧
      ((∀ r ∈ st.result, r.Values.len ≤ MAX_POLICIES) →
        ∃ out h, ParseRules env T mfa «public» = .ret (out, h) none) ∧
      (∀ out h, ParseRules env T mfa «public» = .ret (out, h) none →
        List.Forall₂ (Padded st.heap h) st.result out) := by
  obtain ⟨st0, h0⟩ := parseList_succeeds env T 0 mfa ⟨[], [], []⟩ hm
  obtain ⟨st, h1⟩ := parseList_succeeds env T T.PUBLIC «public» st0 hp
  have hmerge : mergeRules env T mfa «public» = .ret st none := by
    unfold mergeRules
    rw [h0]
    exact h1
  have hok : StateOK (fun _ => True) st :=
    mergeRules_ok _ env T mfa «public» (fun _ _ _ _ => trivial) (fun _ _ _ _ => trivial)
      st none hmerge
  refine ⟨st, hmerge, ?_, ?_, ?_⟩
  · unfold ParseRules
    rw [hmerge]
    simp only
    cases hpad : padRules st.result st.heap with
    | none =>
      simp only
      exact ⟨fun _ => (padRules_none_iff _ _).mp hpad, fun _ => ⟨_, _, rfl⟩⟩
    | some v =>
      simp only
      constructor
      · rintro ⟨v1, e, he⟩
        simp at he
      · intro hex
        have := (padRules_none_iff st.result st.heap).mpr hex
        rw [hpad] at this
        exact absurd this (by simp)
  · intro hall
    unfold ParseRules
    rw [hmerge]
    simp only
    cases hpad : padRules st.result st.heap with
    | none =>
      obtain ⟨r, hr, hl⟩ := (padRules_none_iff _ _).mp hpad
      exact absurd (hall r hr) (not_le.mpr hl)
    | some v => exact ⟨v.1, v.2, rfl⟩
  · intro out h hret
    unfold ParseRules at hret
    rw [hmerge] at hret
    simp only at hret
    cases hpad : padRules st.result st.heap with
    | none => rw [hpad] at hret; simp at hret
    | some v =>
      obtain ⟨out1, h2⟩ := v
      rw [hpad] at hret
      simp only [Outcome.ret.injEq, Prod.mk.injEq, and_true] at hret
      obtain ⟨rfl, rfl⟩ := hret
      exact (padRules_spec st.result st.heap out1 h2 hpad hok).1

theorem forall₂_exists_left {α β : Type} (R : α → β → Prop) (xs : List α) (ys : List β)
    (h : List.Forall₂ R xs ys) : ∀ y ∈ ys, ∃ x ∈ xs, R x y := by
  induction h with
  | nil => intro y hy; simp at hy
  | cons hxy _ ih =>
    intro y hy
    rcases List.mem_cons.mp hy with rfl | hm
    · exact ⟨_, by simp, hxy⟩
    · obtain ⟨x, hx, hr⟩ := ih y hm
      exact ⟨x, by simp [hx], hr⟩

theorem or_and_self_bits (P x : Nat) : (P ||| x) &&& P = P := by
  apply Nat.eq_of_testBit_eq
  intro i
  simp only [Nat.testBit_and, Nat.testBit_or]
  cases P.testBit i <;> cases x.testBit i <;> rfl

theorem or_xor_of_disjoint (P x : Nat) (h : P &&& x = 0) : (P ||| x) ^^^ P = x := by
  apply Nat.eq_of_testBit_eq
  intro i
  have hi : (P &&& x).testBit i = false := by rw [h]; exact Nat.zero_testBit i
  simp only [Nat.testBit_and] at hi
  simp only [Nat.testBit_xor, Nat.testBit_or]
  revert hi
  cases P.testBit i <;> cases x.testBit i <;> simp

theorem and_comm_zero (P x : Nat) (h : P &&& x = 0) : x &&& P = 0 := by
  rw [Nat.land_comm]; exact h

theorem uint16_zero : uint16 ((0 : Nat) : Int) = 0 := by decide

theorem orType_zero (q : Policy) : orType 0 q = q := by
  unfold orType
  rw [uint16_zero, Nat.zero_or]

theorem parseService_type (T : PolicyTypes) (s : List Char) (q : Policy)
    (h : parseService T s = (q, none)) : q.PolicyType = T.SINGLE ∨ q.PolicyType = T.RANGE := by
  unfold parseService at h
  have single : ∀ port proto, parseSinglePort T port proto = (q, none) →
      q.PolicyType = T.SINGLE := by
    intro port proto hs
    obtain ⟨⟨v, hv⟩, hproto⟩ := parseSinglePort_ok T port proto q hs
    have hw : ∃ code, (proto = "tcp".toList ∧ code = 6) ∨ (proto = "udp".toList ∧ code = 17) ∨
        (proto = "any".toList ∧ code = ANY) := protoCode_exists proto hproto
    obtain ⟨code, hcode⟩ := hw
    rw [parseSinglePort_known T port proto code v hcode hv] at hs
    simp only [Prod.mk.injEq, and_true] at hs
    rw [← hs]
  have range : ∀ lo hi proto, parsePortRange T lo hi proto = (q, none) →
      q.PolicyType = T.RANGE := by
    intro lo hi proto hs
    obtain ⟨⟨a, b, ha, hb, hab⟩, hproto⟩ := parsePortRange_ok T lo hi proto q hs
    obtain ⟨code, hcode⟩ := protoCode_exists proto hproto
    rw [parsePortRange_known T lo hi proto code a b hcode ha hb hab] at hs
    simp only [Prod.mk.injEq, and_true] at hs
    rw [← hs]
  cases hs : Split s '/' with
  | nil => exact absurd hs (splitAux_ne_nil '/' s [])
  | cons p0 ps =>
    rw [hs] at h
    cases ps with
    | nil =>
      simp only at h
      by_cases hi : p0 = "icmp".toList
      · rw [if_pos hi] at h
        simp only [Prod.mk.injEq, and_true] at h
        left; rw [← h]
      · rw [if_neg hi] at h
        simp at h
    | cons p1 rest =>
      simp only at h
      cases hd : Split p0 '-' with
      | nil => exact absurd hd (splitAux_ne_nil '-' p0 [])
      | cons lo more =>
        rw [hd] at h
        cases more with
        | nil => exact Or.inl (single _ _ h)
        | cons hi more1 => exact Or.inr (range _ _ _ h)

/-- C4: let the `PUBLIC` bit be disjoint from `SINGLE` and `RANGE`.  After a
successful `ParseRules(mfa, public)` every policy of the output (among the first
`NumPolicies` of a rule) is a policy `q` of a line of `mfa`, unchanged and with
the `PUBLIC` bit clear, or a policy `q` of a line of `public` with the `PUBLIC`
bit set and the other bits as in `q`; the type of `q` is `SINGLE` or `RANGE`, as
`parseService` made it (or `SINGLE` for a line without service). -/
theorem parseRules_public_bit (env : NetEnv) (T : PolicyTypes) (mfa «public» : List (List Char))
    (out : List Rule) (h : Heap)
    (hS : T.PUBLIC &&& T.SINGLE = 0) (hR : T.PUBLIC &&& T.RANGE = 0) (hP : T.PUBLIC < 65536)
    (hok : ParseRules env T mfa «public» = .ret (out, h) none) :
    ∀ r ∈ out, ∀ p ∈ r.policies h,
      (∃ line ∈ mfa, ∃ q, lineBase T line q ∧ p = q ∧ p.PolicyType &&& T.PUBLIC = 0 ∧
        (q.PolicyType = T.SINGLE ∨ q.PolicyType = T.RANGE)) ∨
      (∃ line ∈ «public», ∃ q, lineBase T line q ∧
        p = { q with PolicyType := T.PUBLIC ||| q.PolicyType } ∧
        p.PolicyType &&& T.PUBLIC = T.PUBLIC ∧ p.PolicyType ^^^ T.PUBLIC = q.PolicyType ∧
        (q.PolicyType = T.SINGLE ∨ q.PolicyType = T.RANGE)) := by
  have hbase : ∀ line q, lineBase T line q → q.PolicyType = T.SINGLE ∨ q.PolicyType = T.RANGE := by
    intro line q hq
    obtain ⟨address, services, -, hcase⟩ := hq
    rcases hcase with ⟨-, rfl⟩ | ⟨s, -, hs⟩
    · exact Or.inl rfl
    · exact parseService_type T s q hs
  have hdis : ∀ x, x = T.SINGLE ∨ x = T.RANGE → T.PUBLIC &&& x = 0 := by
    intro x hx
    rcases hx with rfl | rfl
    · exact hS
    · exact hR
  let Q : Policy → Prop := fun p =>
      (∃ line ∈ mfa, ∃ q, lineBase T line q ∧ p = q ∧ p.PolicyType &&& T.PUBLIC = 0 ∧
        (q.PolicyType = T.SINGLE ∨ q.PolicyType = T.RANGE)) ∨
      (∃ line ∈ «public», ∃ q, lineBase T line q ∧
        p = { q with PolicyType := T.PUBLIC ||| q.PolicyType } ∧
        p.PolicyType &&& T.PUBLIC = T.PUBLIC ∧ p.PolicyType ^^^ T.PUBLIC = q.PolicyType ∧
        (q.PolicyType = T.SINGLE ∨ q.PolicyType = T.RANGE))
  have hQm : ∀ line ∈ mfa, ∀ p, lineYields T 0 line p → Q p := by
    intro line hl p hy
    obtain ⟨q, hq, rfl⟩ := hy
    left
    refine ⟨line, hl, q, hq, orType_zero q, ?_, hbase line q hq⟩
    rw [orType_zero]
    exact and_comm_zero _ _ (hdis _ (hbase line q hq))
  have hQp : ∀ line ∈ «public», ∀ p, lineYields T T.PUBLIC line p → Q p := by
    intro line hl p hy
    obtain ⟨q, hq, rfl⟩ := hy
    right
    have hu : uint16 (T.PUBLIC : Int) = T.PUBLIC := uint16_of_le _ (by omega)
    refine ⟨line, hl, q, hq, ?_, ?_, ?_, hbase line q hq⟩
    · unfold orType; rw [hu]
    · unfold orType; rw [hu]; exact or_and_self_bits _ _
    · unfold orType; rw [hu]; exact or_xor_of_disjoint _ _ (hdis _ (hbase line q hq))
  unfold ParseRules at hok
  cases hmerge : mergeRules env T mfa «public» with
  | fault msg => rw [hmerge] at hok; simp at hok
  | ret st e =>
    rw [hmerge] at hok
    cases e with
    | some err => simp at hok
    | none =>
      simp only at hok
      have hst : StateOK Q st := mergeRules_ok Q env T mfa «public» hQm hQp st none hmerge
      cases hpad : padRules st.result st.heap with
      | none => rw [hpad] at hok; simp at hok
      | some v =>
        obtain ⟨out1, h2⟩ := v
        rw [hpad] at hok
        simp only [Outcome.ret.injEq, Prod.mk.injEq, and_true] at hok
        obtain ⟨rfl, rfl⟩ := hok
        have hsp := (padRules_spec st.result st.heap out1 h2 hpad
          (fun r hr => ⟨sliceOK_weaken Q _ _ (hst r hr).1, (hst r hr).2⟩)).1
        intro o ho p hp
        obtain ⟨r, hr, hpadded⟩ := forall₂_exists_left _ _ _ hsp o ho
        have hview : p ∈ st.heap.view r.Values := by
          unfold Rule.policies at hp
          rw [hpadded.2.2.2.2.2.2.1] at hp
          exact hp
        exact sliceOK_view Q st.heap r.Values (hst r hr).1 p hview

/-- C1 (the code at the failing input): one line `example.com`, a name with the
two A records 1.1.1.1 and 2.2.2.2, parses to the two keys `1.1.1.1/32` and
`2.2.2.2/32`; `ParseRules` returns two rules that each hold both keys, so the
key strings of the output are `1.1.1.1/32, 2.2.2.2/32, 1.1.1.1/32, 2.2.2.2/32`:
every key string occurs twice. -/
theorem parseRules_repeats_keys :
    parseKeys (exampleNet exampleHosts) "example.com".toList =
      .ret [⟨32, [1, 1, 1, 1]⟩, ⟨32, [2, 2, 2, 2]⟩] none ∧
    ParseRules (exampleNet exampleHosts) exampleTypes ["example.com".toList] [] =
      .ret twoRecords none ∧
    keyStrings twoRecords.1 =
      ["1.1.1.1/32".toList, "2.2.2.2/32".toList, "1.1.1.1/32".toList, "2.2.2.2/32".toList] ∧
    ¬ (keyStrings twoRecords.1).Nodup := by
  decide

/-- C2 (the code at the failing input): after `example.com 1/tcp 2/tcp 3/tcp`
(two A records), `1.1.1.1 4/tcp` and `2.2.2.2 5/tcp`, both output rules hold both
keys and have the policies `1/tcp, 2/tcp, 3/tcp, 5/tcp`: the policy `4/tcp` of
the key `1.1.1.1/32` was overwritten through the shared backing array. -/
theorem parseRules_overwrites_policy :
    ParseRules (exampleNet exampleHosts) exampleTypes
      ["example.com 1/tcp 2/tcp 3/tcp".toList, "1.1.1.1 4/tcp".toList, "2.2.2.2 5/tcp".toList] []
      = .ret sharedValues none ∧
    sharedValues.1.map (fun r => (r.Keys.map Key.String, r.policies sharedValues.2)) =
      [(["1.1.1.1/32".toList, "2.2.2.2/32".toList],
          [⟨4, 6, 1, 0⟩, ⟨4, 6, 2, 0⟩, ⟨4, 6, 3, 0⟩, ⟨4, 6, 5, 0⟩]),
       (["1.1.1.1/32".toList, "2.2.2.2/32".toList],
          [⟨4, 6, 1, 0⟩, ⟨4, 6, 2, 0⟩, ⟨4, 6, 3, 0⟩, ⟨4, 6, 5, 0⟩])] := by
  decide

/-- Witness of C4 on two `mfa` lines and one `public` line. -/
theorem parseRules_public_bit_witness :
    ParseRules (exampleNet exampleHosts) exampleTypes
      ["1.1.1.1 80/tcp".toList, "10.0.0.0/8 icmp".toList] ["1.1.1.1 53/udp 1000-2000/any".toList]
      = .ret mixedLists none ∧
    ∀ r ∈ mixedLists.1, ∀ p ∈ r.policies mixedLists.2,
      (∃ line ∈ ["1.1.1.1 80/tcp".toList, "10.0.0.0/8 icmp".toList], ∃ q,
        lineBase exampleTypes line q ∧ p = q ∧ p.PolicyType &&& exampleTypes.PUBLIC = 0 ∧
        (q.PolicyType = exampleTypes.SINGLE ∨ q.PolicyType = exampleTypes.RANGE)) ∨
      (∃ line ∈ ["1.1.1.1 53/udp 1000-2000/any".toList], ∃ q, lineBase exampleTypes line q ∧
        p = { q with PolicyType := exampleTypes.PUBLIC ||| q.PolicyType } ∧
        p.PolicyType &&& exampleTypes.PUBLIC = exampleTypes.PUBLIC ∧
        p.PolicyType ^^^ exampleTypes.PUBLIC = q.PolicyType ∧
        (q.PolicyType = exampleTypes.SINGLE ∨ q.PolicyType = exampleTypes.RANGE)) :=
  ⟨by decide,
    parseRules_public_bit (exampleNet exampleHosts) exampleTypes
      ["1.1.1.1 80/tcp".toList, "10.0.0.0/8 icmp".toList] ["1.1.1.1 53/udp 1000-2000/any".toList]
      mixedLists.1 mixedLists.2 (by decide) (by decide) (by decide) (by decide)⟩

/-- The `MAX_POLICIES` check on the same lines. -/
theorem parseRules_max_policies_witness :
    ∃ st, mergeRules (exampleNet exampleHosts) exampleTypes
        ["1.1.1.1 80/tcp".toList, "10.0.0.0/8 icmp".toList]
        ["1.1.1.1 53/udp 1000-2000/any".toList] = .ret st none ∧
      ((∃ v e, ParseRules (exampleNet exampleHosts) exampleTypes
        ["1.1.1.1 80/tcp".toList, "10.0.0.0/8 icmp".toList]
        ["1.1.1.1 53/udp 1000-2000/any".toList] = .ret v (some e)) ↔
        ∃ r ∈ st.result, MAX_POLICIES < r.Values.len) ∧
      ((∀ r ∈ st.result, r.Values.len ≤ MAX_POLICIES) →
        ∃ out h, ParseRules (exampleNet exampleHosts) exampleTypes
        ["1.1.1.1 80/tcp".toList, "10.0.0.0/8 icmp".toList]
        ["1.1.1.1 53/udp 1000-2000/any".toList] = .ret (out, h) none) ∧
      (∀ out h, ParseRules (exampleNet exampleHosts) exampleTypes
        ["1.1.1.1 80/tcp".toList, "10.0.0.0/8 icmp".toList]
        ["1.1.1.1 53/udp 1000-2000/any".toList] = .ret (out, h) none →
        List.Forall₂ (Padded st.heap h) st.result out) :=
  parseRules_max_policies (exampleNet exampleHosts) exampleTypes
    ["1.1.1.1 80/tcp".toList, "10.0.0.0/8 icmp".toList] ["1.1.1.1 53/udp 1000-2000/any".toList]
    (by decide) (by decide)

/-! ## The claims on `parseKeys` -/

theorem maskSize_cidr : ∀ n, n < 33 → maskSize (CIDRMask32 n) = n := by decide

theorem to4_length (ip : List Nat) (h : To4 ip ≠ []) : (To4 ip).length = 4 := by
  unfold To4 at h ⊢
  by_cases h4 : ip.length = 4
  · rw [if_pos h4]; exact h4
  · rw [if_neg h4] at h ⊢
    split
    · rename_i h16
      rw [List.length_drop, h16.1]
    · rename_i h16
      rw [if_neg h16] at h
      exact absurd rfl h

theorem to4_idem (ip : List Nat) (h : (To4 ip).length = 4) : To4 (To4 ip) = To4 ip := by
  generalize To4 ip = x at h
  unfold To4
  rw [if_pos h]

theorem four_bytes (x : List Nat) (h : x.length = 4) :
    [x.getD 0 0, x.getD 1 0, x.getD 2 0, x.getD 3 0] = x := by
  match x, h with
  | [_, _, _, _], _ => rfl

theorem parseKeysLoop_hosts (addrs : List (List Nat)) (keys : List Key)
    (h : ∀ a ∈ addrs, (To4 a).length = 4) :
    parseKeysLoop (addrs.map (fun a => IPNet.mk (To4 a) (IPv4Mask 255 255 255 255))) keys =
      .ret (keys ++ addrs.map hostKey) none := by
  induction addrs generalizing keys with
  | nil => simp [parseKeysLoop]
  | cons a rest ih =>
    have ha : (To4 a).length = 4 := h a (by simp)
    have hm : maskSize (IPv4Mask 255 255 255 255) % 2 ^ 32 = 32 := by decide
    simp only [List.map_cons, parseKeysLoop, to4_idem a ha, ha, hm, four_bytes _ ha]
    rw [if_neg (by decide)]
    rw [ih _ (fun b hb => h b (by simp [hb]))]
    simp [hostKey]

theorem filterMap_hosts (addrs : List (List Nat)) :
    addrs.filterMap (fun addr =>
      if To4 addr ≠ [] then some (IPNet.mk (To4 addr) (IPv4Mask 255 255 255 255)) else none) =
    (addrs.filter (fun a => decide (To4 a ≠ []))).map
      (fun a => IPNet.mk (To4 a) (IPv4Mask 255 255 255 255)) := by
  induction addrs with
  | nil => rfl
  | cons a rest ih =>
    by_cases ha : To4 a ≠ []
    · simp only [List.filterMap_cons, if_pos ha, List.filter_cons, decide_eq_true ha, if_true,
        List.map_cons, ih]
    · simp only [List.filterMap_cons, if_neg ha, List.filter_cons, decide_eq_false ha, ih]
      simp

/-- C11 (as amended): when `net.ParseIP` reads the token as the IPv4 address
`a.b.c.d`, `parseKeys` returns exactly one key, with `Prefixlen = 32` and
`IP = [a,b,c,d]`; when the token is an IPv4 network `a.b.c.d/n` with `n ≤ 32`,
which `net.ParseCIDR` reads as the address masked to its first `n` bits with the
mask of `n` ones, `parseKeys` returns exactly one key, with `Prefixlen = n` and
`IP` the masked address (the host bits are cleared, not preserved). -/
theorem parseKeys_ipv4 (env : NetEnv) (address : List Char) (a b c d : Nat) :
    (∀ ip, env.ParseIP address = some ip → To4 ip = [a, b, c, d] →
      parseKeys env address = .ret [⟨32, [a, b, c, d]⟩] none) ∧
    (∀ n, n ≤ 32 → env.ParseIP address = none →
      env.ParseCIDR address =
        some ⟨List.zipWith (fun x y => x &&& y) [a, b, c, d] (CIDRMask32 n), CIDRMask32 n⟩ →
      parseKeys env address =
        .ret [⟨n, List.zipWith (fun x y => x &&& y) [a, b, c, d] (CIDRMask32 n)⟩] none) := by
  constructor
  · intro ip hip h4
    unfold parseKeys parseAddress
    rw [hip]
    simp only [parseKeysLoop, h4]
    rfl
  · intro n hn hip hc
    have hm := maskSize_cidr n (by omega)
    have hlen : (List.zipWith (fun x y => x &&& y) [a, b, c, d] (CIDRMask32 n)).length = 4 := by
      simp [CIDRMask32]
    have h4 : To4 (List.zipWith (fun x y => x &&& y) [a, b, c, d] (CIDRMask32 n)) =
        List.zipWith (fun x y => x &&& y) [a, b, c, d] (CIDRMask32 n) := by
      unfold To4; rw [if_pos hlen]
    unfold parseKeys parseAddress
    rw [hip, hc]
    simp only [parseKeysLoop, h4, hlen, hm, four_bytes _ hlen]
    rw [if_neg (by decide), Nat.mod_eq_of_lt (by omega)]
    rfl

/-- Witness of C11 (as amended) at `"10.1.2.3"` and `"192.0.2.1/24"`. -/
theorem parseKeys_ipv4_witness :
    parseKeys (exampleNet []) "10.1.2.3".toList = .ret [⟨32, [10, 1, 2, 3]⟩] none ∧
    parseKeys (exampleNet []) "192.0.2.1/24".toList = .ret [⟨24, [192, 0, 2, 0]⟩] none :=
  ⟨(parseKeys_ipv4 (exampleNet []) "10.1.2.3".toList 10 1 2 3).1
      (v4in16 [10, 1, 2, 3]) (by decide) (by decide),
    (parseKeys_ipv4 (exampleNet []) "192.0.2.1/24".toList 192 0 2 1).2 24 (by decide)
      (by decide) (by decide)⟩

/-- C11 (counterexample): the network `"192.0.2.1/24"` gives the key
`192.0.2.0/24`: `IP` is `[192,0,2,0]`, not `[192,0,2,1]`, and the canonical
rendering is not the input. -/
theorem parseKeys_cidr_masked :
    parseKeys (exampleNet []) "192.0.2.1/24".toList = .ret [⟨24, [192, 0, 2, 0]⟩] none ∧
    Key.String ⟨24, [192, 0, 2, 0]⟩ = "192.0.2.0/24".toList ∧
    Key.String ⟨24, [192, 0, 2, 0]⟩ ≠ "192.0.2.1/24".toList := by
  decide

/-- C12: for an address token that `net.ParseIP` and `net.ParseCIDR` both reject,
with any resolver: if the resolver fails, or answers with no address or with
IPv6 addresses only, `parseAddress` (and so `parseKeys`) returns an error;
otherwise `parseKeys` returns exactly one key per IPv4 address of the answer, in
the order of the answer, with `Prefixlen = 32` and `IP` the 4 bytes of the
address, and no key for an IPv6 address. -/
theorem parseKeys_domain (env : NetEnv) (address : List Char)
    (hip : env.ParseIP address = none) (hc : env.ParseCIDR address = none) :
    (env.LookupIP address = none →
      ∃ e, parseAddress env address = ([], some e) ∧ parseKeys env address = .ret [] (some e)) ∧
    (∀ addrs, env.LookupIP address = some addrs → (∀ a ∈ addrs, To4 a = []) →
      ∃ e, parseAddress env address = ([], some e) ∧ parseKeys env address = .ret [] (some e)) ∧
    (∀ addrs, env.LookupIP address = some addrs → (∃ a ∈ addrs, To4 a ≠ []) →
      parseKeys env address =
        .ret ((addrs.filter (fun a => decide (To4 a ≠ []))).map hostKey) none) := by
  refine ⟨?_, ?_, ?_⟩
  · intro hl
    refine ⟨"unable to resolve address from: ".toList ++ address, ?_, ?_⟩
    · unfold parseAddress; rw [hip, hc, hl]
    · unfold parseKeys parseAddress; rw [hip, hc, hl]
  · intro addrs hl hall
    have hf : (addrs.filter (fun a => decide (To4 a ≠ []))) = [] := by
      rw [List.filter_eq_nil_iff]
      intro a ha
      simp [hall a ha]
    by_cases h0 : addrs.length = 0
    · refine ⟨"no addresses for ".toList ++ address, ?_, ?_⟩
      · unfold parseAddress; rw [hip, hc, hl]; simp only [if_pos h0]
      · unfold parseKeys parseAddress; rw [hip, hc, hl]; simp only [if_pos h0]
    · refine ⟨"no addresses for domain ".toList ++ address ++
        " were added, potentially because they were all ipv6 which is unsupported".toList,
        ?_, ?_⟩
      · unfold parseAddress; rw [hip, hc, hl]
        simp only [if_neg h0, filterMap_hosts, hf, List.map_nil, if_true]
      · unfold parseKeys parseAddress; rw [hip, hc, hl]
        simp only [if_neg h0, filterMap_hosts, hf, List.map_nil, if_true]
  · intro addrs hl hex
    obtain ⟨a, ha, hv4⟩ := hex
    have h0 : ¬ addrs.length = 0 := by
      intro e
      rw [List.eq_nil_of_length_eq_zero e] at ha
      simp at ha
    have hmem : a ∈ addrs.filter (fun a => decide (To4 a ≠ [])) := by
      rw [List.mem_filter]
      exact ⟨ha, decide_eq_true hv4⟩
    have hne : (addrs.filter (fun a => decide (To4 a ≠ []))).map
        (fun a => IPNet.mk (To4 a) (IPv4Mask 255 255 255 255)) ≠ [] := by
      intro e
      rw [List.map_eq_nil_iff] at e
      rw [e] at hmem
      simp at hmem
    unfold parseKeys parseAddress
    rw [hip, hc, hl]
    simp only [if_neg h0, filterMap_hosts, if_neg hne]
    rw [parseKeysLoop_hosts]
    · rfl
    · intro b hb
      rw [List.mem_filter] at hb
      exact to4_length b (of_decide_eq_true hb.2)

/-- Witness of C12: a name with an IPv6 and two IPv4 addresses, and a name with
an IPv6 address only. -/
theorem parseKeys_domain_witness :
    parseKeys (exampleNet [("mixed.example".toList,
        [List.replicate 15 0 ++ [1], [9, 9, 9, 9], v4in16 [8, 8, 4, 4]])]) "mixed.example".toList
      = .ret [⟨32, [9, 9, 9, 9]⟩, ⟨32, [8, 8, 4, 4]⟩] none ∧
    (∃ e, parseAddress (exampleNet [("six.example".toList, [List.replicate 15 0 ++ [1]])])
        "six.example".toList = ([], some e) ∧
      parseKeys (exampleNet [("six.example".toList, [List.replicate 15 0 ++ [1]])])
        "six.example".toList = .ret [] (some e)) :=
  ⟨((parseKeys_domain (exampleNet [("mixed.example".toList,
        [List.replicate 15 0 ++ [1], [9, 9, 9, 9], v4in16 [8, 8, 4, 4]])]) "mixed.example".toList
      (by decide) (by decide)).2.2
      [List.replicate 15 0 ++ [1], [9, 9, 9, 9], v4in16 [8, 8, 4, 4]] (by decide)
      (by decide)).trans (by decide),
    (parseKeys_domain (exampleNet [("six.example".toList, [List.replicate 15 0 ++ [1]])])
      "six.example".toList (by decide) (by decide)).2.1 [List.replicate 15 0 ++ [1]]
      (by decide) (by decide)⟩

/-- C13 (the code at the failing input): on the IPv6 literal `"::1"` and on the
IPv6 network `"2001:db8::/32"`, `To4` is `nil` and `parseKeys` indexes it: it
panics instead of returning an error, and so do `parseRule`, `ParseRules` and
`AclsToRoutes`. -/
theorem parseKeys_ipv6_panics :
    parseKeys ipv6Net "::1".toList =
      .fault "runtime error: index out of range [0] with length 0".toList ∧
    parseKeys ipv6Net "2001:db8::/32".toList =
      .fault "runtime error: index out of range [0] with length 0".toList ∧
    parseRule ipv6Net exampleTypes [] 0 "::1 80/tcp".toList =
      .fault "runtime error: index out of range [0] with length 0".toList ∧
    ParseRules ipv6Net exampleTypes ["::1".toList] [] =
      .fault "runtime error: index out of range [0] with length 0".toList ∧
    AclsToRoutes ipv6Net ["::1".toList] =
      .fault "runtime error: index out of range [0] with length 0".toList := by
  decide

/-! ## The claims on `AclsToRoutes` and on the errors of `ParseRules` -/

/-- What a successful `parseRule` says of the line: its first field parses to the
keys of the rule and `parseService` accepts every other field. -/
theorem parseRule_ok_fields (env : NetEnv) (T : PolicyTypes) (h : Heap) (t : Nat)
    (line : List Char) (r : Rule) (h1 : Heap)
    (hret : parseRule env T h t line = .ret (r, h1) none) :
    ∃ address services, Fields line = address :: services ∧
      parseKeys env address = .ret r.Keys none ∧
      ∀ s ∈ services, (parseService T s).2 = none := by
  unfold parseRule at hret
  cases hf : Fields line with
  | nil => rw [hf] at hret; simp at hret
  | cons address services =>
    rw [hf] at hret
    simp only at hret
    cases hk : parseKeys env address with
    | fault msg => rw [hk] at hret; simp at hret
    | ret keys e =>
      cases e with
      | some err => rw [hk] at hret; simp at hret
      | none =>
        rw [hk] at hret
        simp only at hret
        refine ⟨address, services, rfl, ?_, ?_⟩
        · by_cases hs : services = []
          · rw [if_pos hs] at hret
            simp only [Outcome.ret.injEq, Prod.mk.injEq, and_true] at hret
            rw [← hret.1]
            exact hk
          · rw [if_neg hs] at hret
            have hfr := parseRuleLoop_frame (fun _ => True) T t services h ⟨keys, 0, Slice.empty⟩
              (fun _ _ _ _ => trivial) (sliceOK_empty _ h)
            cases hl : parseRuleLoop T t services h ⟨keys, 0, Slice.empty⟩ with
            | mk val err =>
              rw [hl] at hret hfr
              simp only [Outcome.ret.injEq] at hret
              obtain ⟨hv, he⟩ := hret
              subst he
              have := (hfr.2.2 rfl).2
              rw [hv] at this
              simp only at this
              rw [this]
              exact hk
        · by_cases hs : services = []
          · rw [hs]; simp
          · rw [if_neg hs] at hret
            cases hl : parseRuleLoop T t services h ⟨keys, 0, Slice.empty⟩ with
            | mk val err =>
              rw [hl] at hret
              simp only [Outcome.ret.injEq] at hret
              apply parseRuleLoop_ok_all T t services h ⟨keys, 0, Slice.empty⟩
              rw [hl]; exact hret.2

theorem not_isProto_of_bad (p1 : List Char)
    (h : (!(letterCaseOf "tcp".toList p1 || letterCaseOf "udp".toList p1 ||
        letterCaseOf "any".toList p1)) = true) : ¬ isProto p1 := by
  intro hp
  unfold isProto at hp
  generalize letterCaseOf "tcp".toList p1 = x at h hp
  generalize letterCaseOf "udp".toList p1 = y at h hp
  generalize letterCaseOf "any".toList p1 = z at h hp
  revert h hp
  cases x <;> cases y <;> cases z <;> decide

/-- `parseService` rejects a service field that is at fault. -/
theorem parseService_bad (T : PolicyTypes) (f : List Char) (hb : badService f = true) :
    (parseService T f).2 ≠ none := by
  intro hn
  have h : parseService T f = ((parseService T f).1, none) := by
    rw [← hn]
  generalize (parseService T f).1 = p at h
  unfold parseService at h
  unfold badService at hb
  cases hs : Split f '/' with
  | nil => rw [hs] at hb; simp at hb
  | cons p0 ps =>
    rw [hs] at h hb
    cases ps with
    | nil => simp at hb
    | cons p1 rest =>
      simp only [Bool.or_eq_true] at hb
      simp only at h
      cases hd : Split p0 '-' with
      | nil => exact absurd hd (splitAux_ne_nil '-' p0 [])
      | cons lo more =>
        rw [hd] at h hb
        cases more with
        | nil =>
          simp only at h hb
          obtain ⟨⟨v, hv⟩, hproto⟩ := parseSinglePort_ok T p0 (ToLower p1) p h
          rcases hb with hb | hb
          · exact not_isProto_of_bad p1 hb (isProto_of_toLower p1 hproto)
          · rw [hv] at hb; simp at hb
        | cons hi more1 =>
          simp only at h hb
          obtain ⟨⟨a, b, ha, hb1, hab⟩, hproto⟩ := parsePortRange_ok T lo hi (ToLower p1) p h
          rcases hb with hb | hb
          · exact not_isProto_of_bad p1 hb (isProto_of_toLower p1 hproto)
          · rw [ha, hb1] at hb
            simp only [decide_eq_true_eq] at hb
            omega

theorem parseList_ok_lines (env : NetEnv) (T : PolicyTypes) (t : Nat) (lines : List (List Char))
    (st st1 : ParseState) (h : parseList env T t lines st = .ret st1 none) :
    ∀ line ∈ lines, ∃ hh r h1, parseRule env T hh t line = .ret (r, h1) none := by
  induction lines generalizing st with
  | nil => intro line hl; simp at hl
  | cons l rest ih =>
    unfold parseList at h
    cases hp : parseRule env T st.heap t l with
    | fault msg => rw [hp] at h; simp at h
    | ret val err =>
      obtain ⟨r, h1⟩ := val
      cases err with
      | some er => rw [hp] at h; simp at h
      | none =>
        rw [hp] at h
        simp only at h
        intro line hl
        rcases List.mem_cons.mp hl with rfl | hm
        · exact ⟨st.heap, r, h1, hp⟩
        · exact ih _ h line hm

theorem not_badLine_of_ok (env : NetEnv) (T : PolicyTypes) (h : Heap) (t : Nat)
    (line : List Char) (r : Rule) (h1 : Heap)
    (hret : parseRule env T h t line = .ret (r, h1) none) : ¬ badLine line := by
  obtain ⟨address, services, hf, -, hall⟩ := parseRule_ok_fields env T h t line r h1 hret
  intro hb
  rcases hb with hb | ⟨f, hf1, hbad⟩
  · rw [hf] at hb; simp at hb
  · rw [hf] at hf1
    exact parseService_bad T f hbad (hall f hf1)

/-- `ParseRules` never succeeds on lists with a line at fault: it returns an
error unless it panics. -/
theorem parseRules_bad_line_no_success (env : NetEnv) (T : PolicyTypes)
    (mfa «public» : List (List Char)) (hbad : ∃ line ∈ mfa ++ «public», badLine line) :
    (∃ v e, ParseRules env T mfa «public» = .ret v (some e)) ∨
      ∃ msg, ParseRules env T mfa «public» = .fault msg := by
  obtain ⟨line, hl, hb⟩ := hbad
  cases hres : ParseRules env T mfa «public» with
  | fault msg => exact Or.inr ⟨msg, rfl⟩
  | ret v e =>
    cases e with
    | some err => exact Or.inl ⟨v, err, rfl⟩
    | none =>
      exfalso
      unfold ParseRules at hres
      cases hm : mergeRules env T mfa «public» with
      | fault msg => rw [hm] at hres; simp at hres
      | ret st e1 =>
        cases e1 with
        | some er => rw [hm] at hres; simp at hres
        | none =>
          unfold mergeRules at hm
          cases h0 : parseList env T 0 mfa ⟨[], [], []⟩ with
          | fault msg => rw [h0] at hm; simp at hm
          | ret st0 e0 =>
            rw [h0] at hm
            cases e0 with
            | some er => simp at hm
            | none =>
              simp only at hm
              rcases List.mem_append.mp hl with hmem | hmem
              · obtain ⟨hh, r, h1, hr⟩ := parseList_ok_lines env T 0 mfa _ st0 h0 line hmem
                exact not_badLine_of_ok env T hh 0 line r h1 hr hb
              · obtain ⟨hh, r, h1, hr⟩ :=
                  parseList_ok_lines env T T.PUBLIC «public» st0 st hm line hmem
                exact not_badLine_of_ok env T hh T.PUBLIC line r h1 hr hb

/-- C15 (the code at the failing input): with the IPv6 literal `"::1"` before the
empty line `""`, `ParseRules` and `ValidateRules` panic on the first line and
return no error for the second. -/
theorem parseRules_panics_before_bad_line :
    badLine "".toList ∧
    ParseRules ipv6Net exampleTypes ["::1".toList, "".toList] [] =
      .fault "runtime error: index out of range [0] with length 0".toList ∧
    ValidateRules ipv6Net exampleTypes ["::1".toList, "".toList] [] =
      .fault "runtime error: index out of range [0] with length 0".toList := by
  decide

/-- C16: when `ParseRules` returns an error, whatever its cause, the rule list
it returns is empty; on two empty lists it returns the empty rule list and no
error. -/
theorem parseRules_all_or_nothing (env : NetEnv) (T : PolicyTypes)
    (mfa «public» : List (List Char)) :
    (∀ v e, ParseRules env T mfa «public» = .ret v (some e) → v.1 = []) ∧
    ParseRules env T [] [] = .ret ([], []) none := by
  constructor
  · intro v e h
    unfold ParseRules at h
    cases hm : mergeRules env T mfa «public» with
    | fault msg => rw [hm] at h; simp at h
    | ret st e1 =>
      rw [hm] at h
      cases e1 with
      | some er =>
        simp only [Outcome.ret.injEq] at h
        rw [← h.1]
      | none =>
        simp only at h
        cases hp : padRules st.result st.heap with
        | none =>
          rw [hp] at h
          simp only [Outcome.ret.injEq] at h
          rw [← h.1]
        | some w =>
          rw [hp] at h
          simp at h
  · rfl

/-- Witness of C16: a good first line, then an empty line. -/
theorem parseRules_all_or_nothing_witness :
    ParseRules (exampleNet []) exampleTypes ["1.1.1.1 80/tcp".toList, "".toList] [] =
      .ret (Outcome.value ([], []) (ParseRules (exampleNet []) exampleTypes
        ["1.1.1.1 80/tcp".toList, "".toList] []))
        (some "could not split correct number of rules".toList) ∧
    (Outcome.value ([], []) (ParseRules (exampleNet []) exampleTypes
        ["1.1.1.1 80/tcp".toList, "".toList] [])).1 = [] :=
  ⟨by decide,
    (parseRules_all_or_nothing (exampleNet []) exampleTypes
      ["1.1.1.1 80/tcp".toList, "".toList] []).1 _
      "could not split correct number of rules".toList (by decide)⟩

theorem parseSinglePort_error (T : PolicyTypes) (port proto : List Char) (p : Policy)
    (e : Error) (h : parseSinglePort T port proto = (p, some e)) :
    e = "could not convert port defintion to number: ".toList ++ port ∨
      e = "unknown service: ".toList ++ port ++ "/".toList ++ proto := by
  unfold parseSinglePort at h
  cases ha : Atoi port with
  | none =>
    rw [ha] at h
    simp only [Prod.mk.injEq, Option.some.injEq] at h
    exact Or.inl h.2.symm
  | some v =>
    rw [ha] at h
    simp only at h
    by_cases h1 : proto = "any".toList
    · rw [if_pos h1] at h; simp at h
    · rw [if_neg h1] at h
      by_cases h2 : proto = "tcp".toList ∨ proto = "udp".toList
      · rw [if_pos h2] at h; simp at h
      · rw [if_neg h2] at h
        simp only [Prod.mk.injEq, Option.some.injEq] at h
        exact Or.inr h.2.symm

theorem parsePortRange_error (T : PolicyTypes) (lo hi proto : List Char) (p : Policy)
    (e : Error) (h : parsePortRange T lo hi proto = (p, some e)) :
    e = "could not convert lower port defintion to number: ".toList ++ lo ∨
      e = "could not convert upper port defintion to number: ".toList ++ hi ∨
      e = "lower port cannot be higher than upper power: lower: ".toList ++ lo ++
          " upper: ".toList ++ hi ∨
      e = "unknown service: ".toList ++ proto := by
  unfold parsePortRange at h
  cases ha : Atoi lo with
  | none =>
    rw [ha] at h
    simp only [Prod.mk.injEq, Option.some.injEq] at h
    exact Or.inl h.2.symm
  | some a =>
    rw [ha] at h
    simp only at h
    cases hb : Atoi hi with
    | none =>
      rw [hb] at h
      simp only [Prod.mk.injEq, Option.some.injEq] at h
      exact Or.inr (Or.inl h.2.symm)
    | some b =>
      rw [hb] at h
      simp only at h
      by_cases hgt : a > b
      · rw [if_pos hgt] at h
        simp only [Prod.mk.injEq, Option.some.injEq] at h
        exact Or.inr (Or.inr (Or.inl h.2.symm))
      · rw [if_neg hgt] at h
        by_cases h1 : proto = "any".toList
        · rw [if_pos h1] at h; simp at h
        · rw [if_neg h1] at h
          by_cases h2 : proto = "tcp".toList ∨ proto = "udp".toList
          · rw [if_pos h2] at h; simp at h
          · rw [if_neg h2] at h
            simp only [Prod.mk.injEq, Option.some.injEq] at h
            exact Or.inr (Or.inr (Or.inr h.2.symm))

theorem infix_of_split (sep : Char) (s p : List Char) (ps : List (List Char))
    (h : Split s sep = p :: ps) : p <:+: s ∧ ∀ q, ps.head? = some q → q <:+: s := by
  obtain ⟨-, hs, -⟩ := split_eq_cons sep s p ps h
  constructor
  · exact ⟨[], (ps.map (fun q => sep :: q)).flatten, by rw [hs]; simp⟩
  · intro q hq
    cases ps with
    | nil => simp at hq
    | cons q1 rest =>
      simp only [List.head?_cons, Option.some.injEq] at hq
      subst hq
      exact ⟨p ++ [sep], (rest.map (fun q => sep :: q)).flatten, by rw [hs]; simp⟩

theorem parseRuleLoop_first_error (T : PolicyTypes) (t : Nat) (pre : List (List Char))
    (f : List Char) (post : List (List Char)) (h : Heap) (rules : Rule) (p : Policy) (e : Error)
    (hpre : ∀ s ∈ pre, (parseService T s).2 = none) (hf : parseService T f = (p, some e)) :
    (parseRuleLoop T t (pre ++ f :: post) h rules).2 = some e := by
  induction pre generalizing h rules with
  | nil =>
    simp only [List.nil_append, parseRuleLoop, hf]
  | cons s rest ih =>
    have hs : (parseService T s).2 = none := hpre s (by simp)
    cases hp : parseService T s with
    | mk q e1 =>
      rw [hp] at hs
      simp only at hs
      subst hs
      simp only [List.cons_append, parseRuleLoop, hp]
      exact ih _ _ (fun x hx => hpre x (by simp [hx]))

/-! ## The claims on the admin users -/

theorem adminRow_map (db : AdminUsers) (u : List Char) (f : AdminRow → AdminRow)
    (hf : ∀ r, (f r).username = r.username) :
    adminRow (db.map f) u = (adminRow db u).map f := by
  unfold adminRow
  rw [List.find?_map]
  congr 1
  congr 1
  funext r
  simp [hf r]

theorem adminRow_username (db : AdminUsers) (u : List Char) (row : AdminRow)
    (h : adminRow db u = some row) : row.username = u ∧ row ∈ db := by
  unfold adminRow at h
  have h1 := List.find?_some h
  exact ⟨of_decide_eq_true h1, List.mem_of_find?_eq_some h⟩

/-- The row `QueryRow` reads in `CompareAdminKeys`: the first row of the user
with the counter incremented when it was at most 5. -/
theorem adminRow_incremented (db : AdminUsers) (u : List Char) (row : AdminRow)
    (h : adminRow db u = some row) :
    adminRow (db.map (fun r =>
      if r.attempts ≤ 5 ∧ r.username = u then { r with attempts := r.attempts + 1 } else r)) u =
      some { row with attempts := if row.attempts ≤ 5 then row.attempts + 1 else row.attempts }
      := by
  rw [adminRow_map _ _ _ (by intro r; split <;> rfl), h]
  have hu := (adminRow_username db u row h).1
  subst hu
  simp only [Option.map_some', and_true]
  split
  · rfl
  · cases row; rfl

theorem adminRow_reset (db : AdminUsers) (u : List Char) (row : AdminRow)
    (h : adminRow db u = some row) :
    adminRow (db.map (fun r => if r.username = u then { r with attempts := 0 } else r)) u =
      some { row with attempts := 0 } := by
  rw [adminRow_map _ _ _ (by intro r; split <;> rfl), h]
  have hu := (adminRow_username db u row h).1
  subst hu
  simp only [Option.map_some', if_true]

/-- C20: for the row of an admin `u` with the counter `a`, `CompareAdminKeys(u, p)`
works on the counter `a + 1` when `a ≤ 5` and on `a` otherwise: it succeeds if
and only if `p` verifies against the stored hash and that counter is below 6;
on success the counter is 0 afterwards, and on every failure (a wrong password
among them) it is the incremented counter. -/
theorem compareAdminKeys_counter (C : Crypto) (db : AdminUsers) (u p : List Char)
    (row : AdminRow) (hrow : adminRow db u = some row) :
    ((CompareAdminKeys C db u p).2 = .ret () none ↔
      (verifies C row p ∧ (if row.attempts ≤ 5 then row.attempts + 1 else row.attempts) < 6)) ∧
    ((CompareAdminKeys C db u p).2 = .ret () none →
      adminRow (CompareAdminKeys C db u p).1 u = some { row with attempts := 0 }) ∧
    ((CompareAdminKeys C db u p).2 ≠ .ret () none →
      adminRow (CompareAdminKeys C db u p).1 u =
        some { row with
          attempts := if row.attempts ≤ 5 then row.attempts + 1 else row.attempts }) := by
  have h1 := adminRow_incremented db u row hrow
  have h1' := h1
  unfold adminRow at h1'
  have h2 := adminRow_reset _ u _ h1
  unfold CompareAdminKeys verifies
  simp only [h1']
  cases hd : C.DecodeString row.passwd_hash with
  | mk raw err =>
    cases err with
    | some e =>
      simp only
      refine ⟨⟨fun h => absurd h (by simp), fun h => absurd h.1.1 (by simp)⟩,
        fun h => absurd h (by simp), fun _ => h1⟩
    | none =>
      simp only
      by_cases hlen : raw.length < 16
      · rw [if_pos hlen]
        refine ⟨⟨fun h => absurd h (by simp), fun h => absurd h.1.2.1 (by omega)⟩,
          fun h => absurd h (by simp), fun _ => h1⟩
      · rw [if_neg hlen]
        by_cases hh : C.IDKey p (raw.drop (raw.length - 16)) ≠ raw.take (raw.length - 16)
        · rw [if_pos hh]
          refine ⟨⟨fun h => absurd h (by simp), fun h => absurd h.1.2.2 hh⟩,
            fun h => absurd h (by simp), fun _ => h1⟩
        · rw [if_neg hh]
          by_cases ha : (if row.attempts ≤ 5 then row.attempts + 1 else row.attempts) > 5
          · rw [if_pos ha]
            refine ⟨⟨fun h => absurd h (by simp), fun h => absurd h.2 (by omega)⟩,
              fun h => absurd h (by simp), fun _ => h1⟩
          · rw [if_neg ha]
            refine ⟨⟨fun _ => ⟨⟨trivial, by omega, not_not.mp hh⟩, by omega⟩, fun _ => rfl⟩,
              fun _ => ?_, fun h => absurd rfl h⟩
            rw [h2]

theorem lockedFor_increment (C : Crypto) (u v : List Char) (db : AdminUsers)
    (h : LockedFor C u db) :
    LockedFor C u (db.map (fun r =>
      if r.attempts ≤ 5 ∧ r.username = v then { r with attempts := r.attempts + 1 } else r)) := by
  obtain ⟨⟨r0, hr0, hu0⟩, hall⟩ := h
  have hkeep : ∀ r ∈ db, r.username = u →
      (if r.attempts ≤ 5 ∧ r.username = v then { r with attempts := r.attempts + 1 } else r) = r := by
    intro r hr hu
    have := (hall r hr hu).1
    rw [if_neg (by omega)]
  refine ⟨⟨r0, List.mem_map.mpr ⟨r0, hr0, hkeep r0 hr0 hu0⟩, hu0⟩, ?_⟩
  intro r hr hu
  obtain ⟨r1, hr1, rfl⟩ := List.mem_map.mp hr
  have hu1 : r1.username = u := by
    revert hu
    split <;> exact id
  rw [hkeep r1 hr1 hu1]
  exact hall r1 hr1 hu1

theorem lockedFor_reset (C : Crypto) (u v : List Char) (db : AdminUsers) (hne : v ≠ u)
    (h : LockedFor C u db) :
    LockedFor C u (db.map (fun r => if r.username = v then { r with attempts := 0 } else r)) := by
  obtain ⟨⟨r0, hr0, hu0⟩, hall⟩ := h
  have hkeep : ∀ r ∈ db, r.username = u →
      (if r.username = v then { r with attempts := 0 } else r) = r := by
    intro r hr hu
    rw [if_neg (by rw [hu]; exact fun e => hne e.symm)]
  refine ⟨⟨r0, List.mem_map.mpr ⟨r0, hr0, hkeep r0 hr0 hu0⟩, hu0⟩, ?_⟩
  intro r hr hu
  obtain ⟨r1, hr1, rfl⟩ := List.mem_map.mp hr
  have hu1 : r1.username = u := by
    revert hu
    split <;> exact id
  rw [hkeep r1 hr1 hu1]
  exact hall r1 hr1 hu1

theorem adminRow_of_mem (db : AdminUsers) (u : List Char) (h : ∃ r ∈ db, r.username = u) :
    ∃ row, adminRow db u = some row := by
  obtain ⟨r, hr, hu⟩ := h
  unfold adminRow
  cases hf : db.find? (fun r => decide (r.username = u)) with
  | some row => exact ⟨row, rfl⟩
  | none =>
    have := List.find?_eq_none.mp hf r hr
    simp [hu] at this

/-- On a locked user `CompareAdminKeys` returns an error and only runs the
`UPDATE` of the counter. -/
theorem compareAdminKeys_locked (C : Crypto) (u p : List Char) (db : AdminUsers)
    (h : LockedFor C u db) :
    (∃ e, (CompareAdminKeys C db u p).2 = .ret () (some e)) ∧
      (CompareAdminKeys C db u p).1 = db.map (fun r =>
        if r.attempts ≤ 5 ∧ r.username = u then { r with attempts := r.attempts + 1 } else r) := by
  have h1 := lockedFor_increment C u u db h
  obtain ⟨row, hrow⟩ := adminRow_of_mem _ u h1.1
  have hmem := adminRow_username _ _ _ hrow
  have hlock := h1.2 row hmem.2 hmem.1
  unfold adminRow at hrow
  unfold CompareAdminKeys
  simp only [hrow]
  have hread := hlock.2
  unfold hashReadable at hread
  cases hd : C.DecodeString row.passwd_hash with
  | mk raw err =>
    rw [hd] at hread
    cases err with
    | some e => exact ⟨⟨e, rfl⟩, rfl⟩
    | none =>
      simp only
      have hlen : ¬ raw.length < 16 := by
        have := hread rfl
        simp only at this
        omega
      rw [if_neg hlen]
      by_cases hh : C.IDKey p (raw.drop (raw.length - 16)) ≠ raw.take (raw.length - 16)
      · rw [if_pos hh]
        exact ⟨⟨_, rfl⟩, rfl⟩
      · rw [if_neg hh, if_pos hlock.1]
        exact ⟨⟨_, rfl⟩, rfl⟩

/-- The table after `CompareAdminKeys` is the table after its first `UPDATE`,
or that table with the counter of the user reset. -/
theorem compareAdminKeys_table (C : Crypto) (v p : List Char) (db : AdminUsers) :
    (CompareAdminKeys C db v p).1 = db.map (fun r =>
        if r.attempts ≤ 5 ∧ r.username = v then { r with attempts := r.attempts + 1 } else r) ∨
    (CompareAdminKeys C db v p).1 = (db.map (fun r =>
        if r.attempts ≤ 5 ∧ r.username = v then { r with attempts := r.attempts + 1 } else r)).map
      (fun r => if r.username = v then { r with attempts := 0 } else r) := by
  unfold CompareAdminKeys
  simp only
  split
  · exact Or.inl rfl
  · split
    · exact Or.inl rfl
    · split
      · exact Or.inl rfl
      · split
        · exact Or.inl rfl
        · split
          · exact Or.inl rfl
          · exact Or.inr rfl

theorem compareAdminKeys_keeps_lock (C : Crypto) (u v p : List Char) (db : AdminUsers)
    (h : LockedFor C u db) : LockedFor C u (CompareAdminKeys C db v p).1 := by
  by_cases hv : v = u
  · subst hv
    rw [(compareAdminKeys_locked C v p db h).2]
    exact lockedFor_increment C v v db h
  · rcases compareAdminKeys_table C v p db with e | e
    · rw [e]
      exact lockedFor_increment C u v db h
    · rw [e]
      exact lockedFor_reset C u v _ hv (lockedFor_increment C u v db h)

theorem compareAll_keeps_lock (C : Crypto) (u : List Char)
    (calls : List (List Char × List Char)) :
    ∀ db : AdminUsers, LockedFor C u db → LockedFor C u (compareAll C db calls) := by
  induction calls with
  | nil => intro db h; exact h
  | cons c rest ih =>
    intro db h
    exact ih _ (compareAdminKeys_keeps_lock C u c.1 c.2 db h)

theorem setAdminUserLock_locks (C : Crypto) (u : List Char) (db : AdminUsers)
    (hex : ∃ r ∈ db, r.username = u) (hread : ∀ r ∈ db, r.username = u → hashReadable C r) :
    LockedFor C u (SetAdminUserLock db u).1 := by
  obtain ⟨r0, hr0, hu0⟩ := hex
  unfold SetAdminUserLock
  refine ⟨⟨{ r0 with attempts := 6 }, List.mem_map.mpr ⟨r0, hr0, by rw [if_pos hu0]⟩, hu0⟩, ?_⟩
  intro r hr hu
  obtain ⟨r1, hr1, rfl⟩ := List.mem_map.mp hr
  have hu1 : r1.username = u := by
    revert hu
    split <;> exact id
  rw [if_pos hu1]
  exact ⟨show (5 : Int) < 6 by decide, hread r1 hr1 hu1⟩

/-- A row written by `CreateAdminUser` holds a hash followed by the 16 bytes of
salt, so `CompareAdminKeys` can slice it, whenever `DecodeString` undoes
`EncodeToString`. -/
theorem createAdminUser_hashReadable (C : Crypto)
    (hround : ∀ b, C.DecodeString (C.EncodeToString b) = (b, none))
    (rnd : List Nat × Option Error) (now : List Char) (db : AdminUsers)
    (username password : List Char) (change : Bool)
    (hdb : ∀ r ∈ db, hashReadable C r) :
    ∀ r ∈ (CreateAdminUser C rnd now db username password change).1, hashReadable C r := by
  unfold CreateAdminUser
  split
  · exact hdb
  · unfold generateSalt
    cases hr : rnd.2 with
    | some e => exact hdb
    | none =>
      simp only
      intro r hr
      rcases List.mem_append.mp hr with h | h
      · exact hdb r h
      · rw [List.mem_singleton] at h
        subst h
        unfold hashReadable
        simp only [hround]
        intro _
        simp

/-- The same for the rows `SetAdminPassword` rewrites. -/
theorem setAdminPassword_hashReadable (C : Crypto)
    (hround : ∀ b, C.DecodeString (C.EncodeToString b) = (b, none))
    (rnd : List Nat × Option Error) (db : AdminUsers)
    (username password : List Char)
    (hdb : ∀ r ∈ db, hashReadable C r) :
    ∀ r ∈ (SetAdminPassword C rnd db username password).1, hashReadable C r := by
  unfold SetAdminPassword
  split
  · exact hdb
  · unfold generateSalt
    cases hr : rnd.2 with
    | some e => exact hdb
    | none =>
      simp only
      intro r hr
      obtain ⟨r1, hr1, rfl⟩ := List.mem_map.mp hr
      split
      · unfold hashReadable
        simp only [hround]
        intro _
        simp
      · exact hdb r1 hr1

/-- C19: for an admin `u` with a row in the table, `SetAdminUserLock(u)`
succeeds, and afterwards, across any sequence of `CompareAdminKeys` calls (for
any users and passwords), `CompareAdminKeys(u, p)` returns an error for every
password `p`. The stored hashes of `u` are those the program writes: decoded,
they are at least the 16 bytes of salt long. -/
theorem setAdminUserLock_blocks (C : Crypto) (db : AdminUsers) (u p : List Char)
    (calls : List (List Char × List Char))
    (hex : ∃ r ∈ db, r.username = u) (hread : ∀ r ∈ db, r.username = u → hashReadable C r) :
    (SetAdminUserLock db u).2 = none ∧
      ∃ e, (CompareAdminKeys C (compareAll C (SetAdminUserLock db u).1 calls) u p).2 =
        .ret () (some e) :=
  ⟨rfl, (compareAdminKeys_locked C u p _
    (compareAll_keeps_lock C u calls _ (setAdminUserLock_locks C u db hex hread))).1⟩

/-- Instance of C19: the admin of `exampleAdmins` is locked, tries a wrong and
then the right password, and is still refused with the right one. -/
theorem setAdminUserLock_blocks_witness :
    (∃ r ∈ exampleAdmins, r.username = "admin".toList) ∧
    (∀ r ∈ exampleAdmins, r.username = "admin".toList → hashReadable exampleCrypto r) ∧
    ((SetAdminUserLock exampleAdmins "admin".toList).2 = none ∧
      ∃ e, (CompareAdminKeys exampleCrypto
        (compareAll exampleCrypto (SetAdminUserLock exampleAdmins "admin".toList).1
          [("admin".toList, "wrong password 123".toList),
           ("admin".toList, "correct horse battery".toList)])
        "admin".toList "correct horse battery".toList).2 = .ret () (some e)) :=
  ⟨by decide, by decide,
    setAdminUserLock_blocks exampleCrypto exampleAdmins "admin".toList
      "correct horse battery".toList
      [("admin".toList, "wrong password 123".toList),
       ("admin".toList, "correct horse battery".toList)] (by decide) (by decide)⟩

/-- Instance of C20: the fresh admin of `exampleAdmins` (counter 0) logs in
with the right password. -/
theorem compareAdminKeys_counter_witness :
    adminRow exampleAdmins "admin".toList = some exampleAdminRow ∧
    (((CompareAdminKeys exampleCrypto exampleAdmins "admin".toList
        "correct horse battery".toList).2 = .ret () none ↔
      (verifies exampleCrypto exampleAdminRow "correct horse battery".toList ∧
        (if exampleAdminRow.attempts ≤ 5 then exampleAdminRow.attempts + 1
          else exampleAdminRow.attempts) < 6)) ∧
    ((CompareAdminKeys exampleCrypto exampleAdmins "admin".toList
        "correct horse battery".toList).2 = .ret () none →
      adminRow (CompareAdminKeys exampleCrypto exampleAdmins "admin".toList
        "correct horse battery".toList).1 "admin".toList =
        some { exampleAdminRow with attempts := 0 }) ∧
    ((CompareAdminKeys exampleCrypto exampleAdmins "admin".toList
        "correct horse battery".toList).2 ≠ .ret () none →
      adminRow (CompareAdminKeys exampleCrypto exampleAdmins "admin".toList
        "correct horse battery".toList).1 "admin".toList =
        some { exampleAdminRow with
          attempts := if exampleAdminRow.attempts ≤ 5 then exampleAdminRow.attempts + 1
            else exampleAdminRow.attempts })) :=
  ⟨by decide, compareAdminKeys_counter exampleCrypto exampleAdmins "admin".toList
    "correct horse battery".toList exampleAdminRow (by decide)⟩

/-- The runs behind C19 and C20 on `exampleAdmins`: the right password succeeds
and leaves the counter at 0; six wrong passwords bring the counter to 6, after
which the right password gets "account locked"; after `SetAdminUserLock` the
right password gets "account locked" as well, and after `SetAdminUserUnlock`
it succeeds again. -/
theorem compareAdminKeys_runs :
    (CompareAdminKeys exampleCrypto exampleAdmins "admin".toList
      "correct horse battery".toList).2 = .ret () none ∧
    (CompareAdminKeys exampleCrypto exampleAdmins "admin".toList
      "wrong password 123".toList).2 = .ret () (some "passwords did not match".toList) ∧
    ((compareAll exampleCrypto exampleAdmins
      (List.replicate 6 ("admin".toList, "wrong password 123".toList))).map
        (fun r => r.attempts)) = [6] ∧
    (CompareAdminKeys exampleCrypto (compareAll exampleCrypto exampleAdmins
      (List.replicate 6 ("admin".toList, "wrong password 123".toList)))
      "admin".toList "correct horse battery".toList).2 =
        .ret () (some "account locked".toList) ∧
    (CompareAdminKeys exampleCrypto (SetAdminUserLock exampleAdmins "admin".toList).1
      "admin".toList "correct horse battery".toList).2 =
        .ret () (some "account locked".toList) ∧
    (CompareAdminKeys exampleCrypto
      (SetAdminUserUnlock (SetAdminUserLock exampleAdmins "admin".toList).1 "admin".toList).1
      "admin".toList "correct horse battery".toList).2 = .ret () none := by
  decide

/-! ## The claim on deauthenticated devices -/

theorem getDevice_mem (devs : List (List Nat × DeviceRecord)) (ip : List Nat) (r : DeviceRecord)
    (h : getDevice devs ip = some r) : (ip, r) ∈ devs := by
  unfold getDevice at h
  cases hf : devs.find? (fun e => decide (e.1 = ip)) with
  | none => rw [hf] at h; exact absurd h (by simp)
  | some e =>
    rw [hf] at h
    have h1 := List.find?_some hf
    have h2 : e.1 = ip := of_decide_eq_true h1
    have h3 : e.2 = r := by simpa using h
    have hm := List.mem_of_find?_eq_some hf
    rw [← h2, ← h3]
    exact hm

theorem getDevice_deauthed (D : List Nat) (devs : List (List Nat × DeviceRecord))
    (r : DeviceRecord) (hd : Deauthed D devs) (h : getDevice devs D = some r) :
    r.last_packet_time = 0 ∧ r.session_expiry = 0 :=
  hd (D, r) (getDevice_mem devs D r h) rfl

theorem isAuthorized_zero (inactivity now : Nat) (r : DeviceRecord)
    (h : r.last_packet_time = 0) : isAuthorized inactivity now r = false := by
  unfold isAuthorized
  simp [h]

theorem deauthed_writeDevice_zero (D ip : List Nat) (devs : List (List Nat × DeviceRecord))
    (h : List Nat) (hd : ip ≠ D → Deauthed D devs) :
    Deauthed D (writeDevice devs ip ⟨h, 0, 0⟩) := by
  intro e he hD
  obtain ⟨e1, he1, rfl⟩ := List.mem_map.mp he
  by_cases hip : e1.1 = ip
  · rw [if_pos hip]
    exact ⟨rfl, rfl⟩
  · rw [if_neg hip] at hD ⊢
    exact hd (fun e => hip (hD.trans e.symm)) e1 he1 hD

theorem deauthed_writeDevice_other (D ip : List Nat) (devs : List (List Nat × DeviceRecord))
    (r : DeviceRecord) (hne : ip ≠ D) (hd : Deauthed D devs) :
    Deauthed D (writeDevice devs ip r) := by
  intro e he hD
  obtain ⟨e1, he1, rfl⟩ := List.mem_map.mp he
  by_cases hip : e1.1 = ip
  · rw [if_pos hip] at hD
    exact absurd (hip.symm.trans hD) hne
  · rw [if_neg hip] at hD ⊢
    exact hd e1 he1 hD

theorem deauthed_filter (D : List Nat) (devs : List (List Nat × DeviceRecord))
    (p : List Nat × DeviceRecord → Bool) (hd : Deauthed D devs) : Deauthed D (devs.filter p) :=
  fun e he hD => hd e (List.mem_filter.mp he).1 hD

/-- After `Deauthenticate(D)` every record of `D` has both timers at zero. -/
theorem deauthenticate_deauthed (st st1 : Tables) (D : List Nat)
    (h : Deauthenticate st D = some st1) : Deauthed D st1.devices := by
  unfold Deauthenticate at h
  cases hg : getDevice st.devices D with
  | none => rw [hg] at h; exact absurd h (by simp)
  | some r =>
    rw [hg] at h
    simp only [Option.some.injEq] at h
    rw [← h]
    exact deauthed_writeDevice_zero D D st.devices r.user_hash (fun hne => absurd rfl hne)

/-- The decision program never revives a deauthenticated device. -/
theorem firewall_keeps_deauthed (T : PolicyTypes) (dir : Direction) (now : Nat) (st : Tables)
    (pkt : Packet) (D : List Nat) (hd : Deauthed D st.devices) :
    Deauthed D (XdpWagFirewall T dir now st pkt).2.devices := by
  cases dir with
  | egress =>
    unfold XdpWagFirewall
    split
    · exact hd
    · simp only
      split
      · exact hd
      · rename_i r hg
        split
        · exact hd
        · split
          · exact hd
          · rename_i hauth
            split
            · by_cases hip : pkt.src = D
              · rw [hip] at hg
                have hz := getDevice_deauthed D st.devices r hd hg
                exact absurd (isAuthorized_zero st.inactivity now r hz.1) hauth
              · exact deauthed_writeDevice_other D _ st.devices _ hip hd
            · exact hd
  | ingress =>
    unfold XdpWagFirewall
    split
    · exact hd
    · simp only
      split
      · exact hd
      · rename_i r hg
        split
        · exact hd
        · split
          · exact hd
          · rename_i hauth
            split
            · by_cases hip : pkt.dst = D
              · rw [hip] at hg
                have hz := getDevice_deauthed D st.devices r hd hg
                exact absurd (isAuthorized_zero st.inactivity now r hz.1) hauth
              · exact deauthed_writeDevice_other D _ st.devices _ hip hd
            · exact hd

/-- Every event other than `SetAuthorized(D)` keeps a deauthenticated device
deauthenticated. -/
theorem applyEvent_keeps_deauthed (c : Controller) (now : Nat) (st : Tables) (ev : Event)
    (D : List Nat) (hno : ∀ u, ev ≠ .SetAuthorized D u) (hd : Deauthed D st.devices) :
    Deauthed D (applyEvent c now st ev).devices := by
  cases ev with
  | add_device ip user =>
    show Deauthed D ((add_device c.sha1 st ip user).getD st).devices
    unfold add_device
    split
    · exact hd
    · intro e he hD
      rcases List.mem_append.mp he with h | h
      · exact hd e h hD
      · rw [List.mem_singleton] at h
        subst h
        exact ⟨rfl, rfl⟩
  | remove_device ip =>
    show Deauthed D ((remove_device st ip).getD st).devices
    unfold remove_device
    split
    · exact hd
    · simp only
      split
      · exact deauthed_filter D st.devices _ hd
      · exact deauthed_filter D st.devices _ hd
  | SetAuthorized ip user =>
    show Deauthed D ((SetAuthorized c.sha1 c.lifetime now st ip user).getD st).devices
    have hne : ip ≠ D := fun e => hno user (by rw [e])
    unfold SetAuthorized
    split
    · exact hd
    · split
      · exact hd
      · exact deauthed_writeDevice_other D ip st.devices _ hne hd
  | Deauthenticate ip =>
    show Deauthed D ((Deauthenticate st ip).getD st).devices
    unfold Deauthenticate
    split
    · exact hd
    · exact deauthed_writeDevice_zero D ip st.devices _ (fun _ => hd)
  | sweep =>
    show Deauthed D (sweep now st).devices
    unfold sweep
    intro e he hD
    obtain ⟨e1, he1, rfl⟩ := List.mem_map.mp he
    revert hD
    split
    · intro _
      exact ⟨rfl, rfl⟩
    · intro hD
      exact hd e1 he1 hD
  | set_inactivity ns => exact hd
  | set_user_policies user pr mr => exact hd
  | remove_user user => exact hd
  | packet dir pkt => exact firewall_keeps_deauthed c.T dir now st pkt D hd

theorem runEvents_keeps_deauthed (c : Controller) (D : List Nat) (evs : List (Nat × Event)) :
    ∀ st : Tables, (∀ t u, (t, Event.SetAuthorized D u) ∉ evs) → Deauthed D st.devices →
      Deauthed D (runEvents c st evs).devices := by
  induction evs with
  | nil => intro st _ hd; exact hd
  | cons e rest ih =>
    intro st hno hd
    refine ih _ (fun t u hm => hno t u (List.mem_cons_of_mem _ hm)) ?_
    refine applyEvent_keeps_deauthed c e.1 st e.2 D (fun u he => hno e.1 u ?_) hd
    rw [← he]
    exact List.mem_cons_self _ _

/-- On a deauthenticated device `IsAuthed` is false, and the decision program
passes a packet of the device exactly on a match in the public table of the
user of the device. -/
theorem deauthed_verdict (T : PolicyTypes) (now : Nat) (st : Tables) (pkt : Packet)
    (hd : Deauthed pkt.src st.devices) :
    IsAuthed now st pkt.src = false ∧
    ((XdpWagFirewall T .egress now st pkt).1 = .PASS ↔
      (pkt.version = 4 ∧ pkt.headerOk = true ∧
        ∃ r, getDevice st.devices pkt.src = some r ∧
          tableAccepts T st.publicTable r.user_hash pkt.dst pkt.proto pkt.port = true)) := by
  constructor
  · unfold IsAuthed
    cases hg : getDevice st.devices pkt.src with
    | none => rfl
    | some r => exact isAuthorized_zero _ _ _ (getDevice_deauthed _ _ r hd hg).1
  · unfold XdpWagFirewall
    by_cases hv : pkt.version ≠ 4 ∨ pkt.headerOk = false
    · rw [if_pos hv]
      refine ⟨fun h => absurd h (by simp), fun h => ?_⟩
      rcases hv with hv | hv
      · exact absurd h.1 hv
      · rw [h.2.1] at hv
        exact absurd hv (by simp)
    · rw [if_neg hv]
      have hv4 : pkt.version = 4 := by
        by_contra h4
        exact hv (Or.inl h4)
      have hok : pkt.headerOk = true := by
        cases hh : pkt.headerOk with
        | true => rfl
        | false => exact absurd (Or.inr hh) hv
      simp only
      cases hg : getDevice st.devices pkt.src with
      | none =>
        simp only
        exact ⟨fun h => absurd h (by simp), fun h => by
          obtain ⟨r, hr, _⟩ := h.2.2
          exact absurd hr (by simp)⟩
      | some r =>
        simp only
        by_cases hp : tableAccepts T st.publicTable r.user_hash pkt.dst pkt.proto pkt.port = true
        · rw [if_pos hp]
          exact ⟨fun _ => ⟨hv4, hok, r, rfl, hp⟩, fun _ => rfl⟩
        · rw [if_neg hp, if_pos (isAuthorized_zero _ _ _ (getDevice_deauthed _ _ r hd hg).1)]
          refine ⟨fun h => absurd h (by simp), fun h => ?_⟩
          obtain ⟨r1, hr1, hacc⟩ := h.2.2
          simp only [Option.some.injEq] at hr1
          rw [← hr1] at hacc
          exact absurd hacc hp

/-! ## The claim on the password length -/

/-- A password of fewer than 14 bytes is refused by `CreateAdminUser` and by
`SetAdminPassword` with the "password is too short" error, and the table is
left as it was. -/
theorem short_password_refused (C : Crypto) (rnd : List Nat × Option Error) (now : List Char)
    (db : AdminUsers) (username password : List Char) (change : Bool)
    (hlen : byteLen password < 14) :
    CreateAdminUser C rnd now db username password change = (db, some passwordTooShort) ∧
    SetAdminPassword C rnd db username password = (db, some passwordTooShort) := by
  have h : byteLen password < minPasswordLength := hlen
  constructor
  · unfold CreateAdminUser
    rw [if_pos h]
  · unfold SetAdminPassword
    rw [if_pos h]

/-- A password of 14 bytes or more is accepted by `CreateAdminUser` and by
`SetAdminPassword` when the salt can be read. -/
theorem password_of_14_bytes_accepted (C : Crypto) (salt : List Nat) (now : List Char)
    (db : AdminUsers) (username password : List Char) (change : Bool)
    (hlen : 14 ≤ byteLen password) :
    (CreateAdminUser C (salt, none) now db username password change).2 = none ∧
    (CreateAdminUser C (salt, none) now db username password change).1.length = db.length + 1 ∧
    (SetAdminPassword C (salt, none) db username password).2 = none := by
  have h : ¬ byteLen password < minPasswordLength := not_lt.mpr hlen
  refine ⟨?_, ?_, ?_⟩
  · unfold CreateAdminUser
    rw [if_neg h]
    rfl
  · unfold CreateAdminUser
    rw [if_neg h]
    simp [generateSalt]
  · unfold SetAdminPassword
    rw [if_neg h]
    rfl

/-- C21 (the code at the failing input): the password `"abcdefghijklmn"` has 14
characters (and 14 bytes), and the text of the error asks for more than 14;
yet `CreateAdminUser` accepts it and adds the row, and `SetAdminPassword`
accepts it and rewrites the stored hash, whatever Argon2id, base64 and the
table are.  The password `"ééééééé"` of 7 characters is accepted as well: it
has 14 bytes. -/
theorem createAdminUser_accepts_14 (C : Crypto) (now : List Char) (db : AdminUsers)
    (username : List Char) (change : Bool) :
    "abcdefghijklmn".toList.length = 14 ∧ byteLen "abcdefghijklmn".toList = 14 ∧
    passwordTooShort = ("password is too short for administrative console " ++
      "(must be greater than 14 characters)").toList ∧
    CreateAdminUser C (List.range 16, none) now db username "abcdefghijklmn".toList change =
      (db ++ [⟨username,
        C.EncodeToString (C.IDKey "abcdefghijklmn".toList (List.range 16) ++ List.range 16),
        0, now, none, none, change⟩], none) ∧
    SetAdminPassword C (List.range 16, none) db username "abcdefghijklmn".toList =
      (db.map (fun r =>
        if r.username = username then
          { r with
            passwd_hash :=
              C.EncodeToString (C.IDKey "abcdefghijklmn".toList (List.range 16) ++ List.range 16)
            change := false }
        else r), none) ∧
    (SetAdminPassword exampleCrypto (List.range 16, none) exampleAdmins "admin".toList
      "abcdefghijklmn".toList).1 ≠ exampleAdmins ∧
    "ééééééé".toList.length = 7 ∧
    (CreateAdminUser C (List.range 16, none) now db username "ééééééé".toList change).2 = none :=
  ⟨by decide, by decide, by decide, rfl, rfl, by decide, by decide, rfl⟩

/-! ## The claim on the well-formedness of the policies of `parseService` -/

/-- Every policy of a successful `parseService` is `SINGLE` with `UpperPort = 0`,
or `RANGE` with the two ports the low 16 bits of two numbers `a ≤ b` read from
the field; when `b ≤ 65535` nothing is cut off and `LowerPort ≤ UpperPort`. -/
theorem parseService_well_formed_below (T : PolicyTypes) (hT : T.SINGLE ≠ T.RANGE)
    (s : List Char) (p : Policy) (h : parseService T s = (p, none)) :
    (p.PolicyType = T.SINGLE ∨ p.PolicyType = T.RANGE) ∧
    (p.PolicyType = T.SINGLE → p.UpperPort = 0) ∧
    (p.PolicyType = T.RANGE → ∃ a b : Nat, a ≤ b ∧ p.LowerPort = a % 65536 ∧
      p.UpperPort = b % 65536 ∧ (b ≤ 65535 → p.LowerPort ≤ p.UpperPort)) := by
  unfold parseService at h
  have single : ∀ port proto, parseSinglePort T port proto = (p, none) →
      p.PolicyType = T.SINGLE ∧ p.UpperPort = 0 := by
    intro port proto hs
    obtain ⟨⟨v, hv⟩, hproto⟩ := parseSinglePort_ok T port proto p hs
    obtain ⟨code, hcode⟩ := protoCode_exists proto hproto
    rw [parseSinglePort_known T port proto code v hcode hv] at hs
    simp only [Prod.mk.injEq, and_true] at hs
    rw [← hs]
    exact ⟨rfl, rfl⟩
  have range : ∀ lo hi proto, '-' ∉ lo → '-' ∉ hi → parsePortRange T lo hi proto = (p, none) →
      p.PolicyType = T.RANGE ∧ ∃ a b : Nat, a ≤ b ∧ p.LowerPort = a % 65536 ∧
        p.UpperPort = b % 65536 := by
    intro lo hi proto hlo hhi hs
    obtain ⟨⟨a, b, ha, hb, hab⟩, hproto⟩ := parsePortRange_ok T lo hi proto p hs
    obtain ⟨code, hcode⟩ := protoCode_exists proto hproto
    rw [parsePortRange_known T lo hi proto code a b hcode ha hb hab] at hs
    simp only [Prod.mk.injEq, and_true] at hs
    obtain ⟨na, rfl, -⟩ := atoi_eq_some_of_no_minus lo a ha hlo
    obtain ⟨nb, rfl, -⟩ := atoi_eq_some_of_no_minus hi b hb hhi
    rw [← hs]
    refine ⟨rfl, na, nb, by exact_mod_cast hab, ?_, ?_⟩
    · show uint16 (na : Int) = na % 65536
      unfold uint16
      omega
    · show uint16 (nb : Int) = nb % 65536
      unfold uint16
      omega
  have fromSingle : p.PolicyType = T.SINGLE ∧ p.UpperPort = 0 →
      (p.PolicyType = T.SINGLE ∨ p.PolicyType = T.RANGE) ∧
      (p.PolicyType = T.SINGLE → p.UpperPort = 0) ∧
      (p.PolicyType = T.RANGE → ∃ a b : Nat, a ≤ b ∧ p.LowerPort = a % 65536 ∧
        p.UpperPort = b % 65536 ∧ (b ≤ 65535 → p.LowerPort ≤ p.UpperPort)) := by
    intro hsg
    exact ⟨Or.inl hsg.1, fun _ => hsg.2, fun hr => absurd (hsg.1.symm.trans hr) hT⟩
  cases hs : Split s '/' with
  | nil => exact absurd hs (splitAux_ne_nil '/' s [])
  | cons p0 ps =>
    rw [hs] at h
    cases ps with
    | nil =>
      simp only at h
      by_cases hi : p0 = "icmp".toList
      · rw [if_pos hi] at h
        simp only [Prod.mk.injEq, and_true] at h
        apply fromSingle
        rw [← h]
        exact ⟨rfl, rfl⟩
      · rw [if_neg hi] at h
        simp at h
    | cons p1 rest =>
      simp only at h
      cases hd : Split p0 '-' with
      | nil => exact absurd hd (splitAux_ne_nil '-' p0 [])
      | cons lo more =>
        obtain ⟨hlo, -, hmore⟩ := split_eq_cons '-' p0 lo more hd
        rw [hd] at h
        cases more with
        | nil => exact fromSingle (single _ _ h)
        | cons hi more1 =>
          obtain ⟨hty, a, b, hab, hl, hu⟩ :=
            range _ _ _ hlo (hmore hi (List.mem_cons_self _ _)) h
          refine ⟨Or.inr hty, fun hsg => absurd (hsg.symm.trans hty) hT,
            fun _ => ⟨a, b, hab, hl, hu, fun hb => ?_⟩⟩
          rw [hl, hu]
          omega

/-- C22 (the code at the failing input): `parseService("1-65536/tcp")` succeeds
with the policy `{RANGE, 6, 1, 0}`: the check `lowerPortNum > upperPortNum` is
made on 1 and 65536 before `uint16` cuts 65536 to 0, so the returned `RANGE`
policy has `LowerPort = 1` above `UpperPort = 0`.  The same happens with
`"443-65537/any"`, which gives `{RANGE, 0, 443, 1}`. -/
theorem parseService_inverted_range :
    parseService exampleTypes "1-65536/tcp".toList = (⟨exampleTypes.RANGE, 6, 1, 0⟩, none) ∧
    ¬ ((parseService exampleTypes "1-65536/tcp".toList).1.LowerPort ≤
      (parseService exampleTypes "1-65536/tcp".toList).1.UpperPort) ∧
    parseService exampleTypes "443-65537/any".toList = (⟨exampleTypes.RANGE, ANY, 443, 1⟩, none) ∧
    ¬ ((parseService exampleTypes "443-65537/any".toList).1.LowerPort ≤
      (parseService exampleTypes "443-65537/any".toList).1.UpperPort) := by
  decide

/-! ## The claim on the routes of one rule line -/

/-- Two strings that agree and are cut at the first separator agree part by part. -/
theorem sep_split (sep : Char) (xs ys r1 r2 : List Char) (hx : sep ∉ xs) (hy : sep ∉ ys)
    (h : xs ++ sep :: r1 = ys ++ sep :: r2) : xs = ys ∧ r1 = r2 := by
  induction xs generalizing ys with
  | nil =>
    cases ys with
    | nil => simpa using h
    | cons y ys1 =>
      simp only [List.nil_append, List.cons_append, List.cons.injEq] at h
      exact absurd (h.1 ▸ List.mem_cons_self _ _) hy
  | cons x xs1 ih =>
    cases ys with
    | nil =>
      simp only [List.nil_append, List.cons_append, List.cons.injEq] at h
      exact absurd (h.1 ▸ List.mem_cons_self _ _) hx
    | cons y ys1 =>
      simp only [List.cons_append, List.cons.injEq] at h
      obtain ⟨h1, h2⟩ := ih ys1 (fun hm => hx (List.mem_cons_of_mem _ hm))
        (fun hm => hy (List.mem_cons_of_mem _ hm)) h.2
      exact ⟨by rw [h.1, h1], h2⟩

theorem toDigits_inj (n m : Nat) (h : Nat.toDigits 10 n = Nat.toDigits 10 m) : n = m := by
  rw [← (toDigits_numeral n).2, ← (toDigits_numeral m).2, h]

theorem toDigits_no_sep (n : Nat) (c : Char) (hc : isDigit c = false) :
    c ∉ Nat.toDigits 10 n :=
  not_mem_of_all_isDigit _ c (toDigits_numeral n).1.2 hc

/-- The canonical string tells keys with four address bytes apart. -/
theorem keyString_inj (k1 k2 : Key) (h1 : k1.IP.length = 4) (h2 : k2.IP.length = 4)
    (h : k1.String = k2.String) : k1 = k2 := by
  obtain ⟨n1, ip1⟩ := k1
  obtain ⟨n2, ip2⟩ := k2
  match ip1, h1 with
  | [a1, b1, c1, d1], _ =>
    match ip2, h2 with
    | [a2, b2, c2, d2], _ =>
      simp only [Key.String, List.getD_cons_zero, List.getD_cons_succ] at h
      have dot : isDigit '.' = false := by decide
      have slash : isDigit '/' = false := by decide
      simp only [List.append_assoc, List.cons_append] at h
      obtain ⟨ha, h⟩ := sep_split '.' _ _ _ _ (toDigits_no_sep a1 '.' dot)
        (toDigits_no_sep a2 '.' dot) h
      obtain ⟨hb, h⟩ := sep_split '.' _ _ _ _ (toDigits_no_sep b1 '.' dot)
        (toDigits_no_sep b2 '.' dot) h
      obtain ⟨hc, h⟩ := sep_split '.' _ _ _ _ (toDigits_no_sep c1 '.' dot)
        (toDigits_no_sep c2 '.' dot) h
      obtain ⟨hd, h⟩ := sep_split '/' _ _ _ _ (toDigits_no_sep d1 '/' slash)
        (toDigits_no_sep d2 '/' slash) h
      rw [toDigits_inj _ _ ha, toDigits_inj _ _ hb, toDigits_inj _ _ hc, toDigits_inj _ _ hd,
        toDigits_inj _ _ h]

/-- Every key `parseKeys` returns has four address bytes. -/
theorem parseKeysLoop_four (ips : List IPNet) :
    ∀ (keys ks : List Key) (e : Option Error), (∀ k ∈ keys, k.IP.length = 4) →
      parseKeysLoop ips keys = .ret ks e → ∀ k ∈ ks, k.IP.length = 4 := by
  induction ips with
  | nil =>
    intro keys ks e hk h
    simp only [parseKeysLoop, Outcome.ret.injEq] at h
    rw [← h.1]
    exact hk
  | cons ip rest ih =>
    intro keys ks e hk h
    rw [parseKeysLoop] at h
    split at h
    · exact absurd h (by simp)
    · refine ih _ ks e ?_ h
      intro k hm
      rcases List.mem_append.mp hm with hm | hm
      · exact hk k hm
      · rw [List.mem_singleton] at hm
        rw [hm]
        rfl

theorem parseKeys_four (env : NetEnv) (address : List Char) (ks : List Key)
    (h : parseKeys env address = .ret ks none) : ∀ k ∈ ks, k.IP.length = 4 := by
  unfold parseKeys at h
  split at h
  · exact absurd h (by simp)
  · exact parseKeysLoop_four _ [] ks none (by simp) h

/-- The strings of a list of keys with four address bytes hold the string of a
key as often as the list holds the key. -/
theorem count_keyString (k : Key) (hk : k.IP.length = 4) (ks : List Key)
    (h4 : ∀ x ∈ ks, x.IP.length = 4) :
    (ks.map Key.String).count k.String = ks.count k := by
  induction ks with
  | nil => rfl
  | cons x rest ih =>
    have ihr := ih (fun y hy => h4 y (List.mem_cons_of_mem _ hy))
    rw [List.map_cons, List.count_cons, List.count_cons, ihr]
    by_cases hx : x = k
    · simp [hx]
    · have hs : x.String ≠ k.String := fun e =>
        hx (keyString_inj x k (h4 x (List.mem_cons_self _ _)) hk e)
      simp [hx, hs]

/-- C14 (as amended): for every rule line that `parseRule` parses successfully,
`AclsToRoutes` of that one line succeeds and returns the canonical strings of
the keys of the parsed rule, one entry per key, in the order of the keys, and
nothing else (the service fields do not matter).  The string of a key is in the
result exactly as often as the key is among the keys of the rule: exactly once
when the keys of the rule are distinct. -/
theorem aclsToRoutes_single (env : NetEnv) (T : PolicyTypes) (h : Heap) (t : Nat)
    (line : List Char) (r : Rule) (h1 : Heap)
    (hok : parseRule env T h t line = .ret (r, h1) none) :
    AclsToRoutes env [line] = .ret (r.Keys.map Key.String) none ∧
    (∀ k ∈ r.Keys, (r.Keys.map Key.String).count k.String = r.Keys.count k) ∧
    (r.Keys.Nodup → ∀ k ∈ r.Keys, (r.Keys.map Key.String).count k.String = 1) := by
  obtain ⟨address, services, hf, hk, -⟩ := parseRule_ok_fields env T h t line r h1 hok
  have h4 := parseKeys_four env address r.Keys hk
  refine ⟨?_, ?_, ?_⟩
  · unfold AclsToRoutes
    simp only [aclsToRoutesLoop, hf, hk, List.nil_append]
  · intro k hm
    exact count_keyString k (h4 k hm) r.Keys h4
  · intro hnd k hm
    rw [count_keyString k (h4 k hm) r.Keys h4]
    exact List.count_eq_one_of_mem hnd hm

/-- Witness of C14 (as amended) on `"example.com 80/tcp 443/tcp"`, a name with
two A records. -/
theorem aclsToRoutes_single_witness :
    AclsToRoutes (exampleNet exampleHosts) ["example.com 80/tcp 443/tcp".toList] =
      .ret ["1.1.1.1/32".toList, "2.2.2.2/32".toList] none :=
  (aclsToRoutes_single (exampleNet exampleHosts) exampleTypes [] 0
    "example.com 80/tcp 443/tcp".toList
    (Outcome.value (Rule.zero, []) (parseRule (exampleNet exampleHosts) exampleTypes [] 0
      "example.com 80/tcp 443/tcp".toList)).1
    (Outcome.value (Rule.zero, []) (parseRule (exampleNet exampleHosts) exampleTypes [] 0
      "example.com 80/tcp 443/tcp".toList)).2 (by decide)).1.trans (by decide)

/-- C14 (counterexample): the resolver answers `dup.example` with 3.3.3.3 twice;
`parseRule` parses the line `"dup.example 80/tcp"` to a rule with the key
3.3.3.3/32 twice, and `AclsToRoutes` returns the string `"3.3.3.3/32"` twice,
not exactly once. -/
theorem aclsToRoutes_repeats_string :
    (parseRule (exampleNet repeatedHosts) exampleTypes [] 0 "dup.example 80/tcp".toList).isOk
      = true ∧
    ((Outcome.value (Rule.zero, []) (parseRule (exampleNet repeatedHosts) exampleTypes [] 0
      "dup.example 80/tcp".toList)).1.Keys = [⟨32, [3, 3, 3, 3]⟩, ⟨32, [3, 3, 3, 3]⟩]) ∧
    AclsToRoutes (exampleNet repeatedHosts) ["dup.example 80/tcp".toList] =
      .ret ["3.3.3.3/32".toList, "3.3.3.3/32".toList] none ∧
    (["3.3.3.3/32".toList, "3.3.3.3/32".toList].count (Key.String ⟨32, [3, 3, 3, 3]⟩)) = 2 := by
  decide

/-! ## The verdict on the packets of a deauthenticated device -/

/-- C18 (as amended): after `Deauthenticate(D)` succeeds, and after any events
on the tables among which there is no `SetAuthorized(D)` (other operations of
the controller and packets of any device), `IsAuthed(D)` is false and the
firewall program, in the egress direction (where the device of a packet is its
source), gives every packet whose source is `D` the verdict DROP, unless the
destination, protocol and port of the packet match a policy in the public
table of the user of `D`. -/
theorem deauthenticate_public_only (c : Controller) (st st1 : Tables) (D : List Nat)
    (evs : List (Nat × Event)) (now : Nat) (pkt : Packet)
    (hde : Deauthenticate st D = some st1)
    (hno : ∀ t u, (t, Event.SetAuthorized D u) ∉ evs)
    (hsrc : pkt.src = D) :
    IsAuthed now (runEvents c st1 evs) D = false ∧
    (publicMatch c.T (runEvents c st1 evs) D pkt = false →
      (XdpWagFirewall c.T .egress now (runEvents c st1 evs) pkt).1 = .DROP) := by
  subst hsrc
  have hv := deauthed_verdict c.T now _ pkt
    (runEvents_keeps_deauthed c pkt.src evs st1 hno (deauthenticate_deauthed st st1 pkt.src hde))
  refine ⟨hv.1, fun hpm => ?_⟩
  cases hx : (XdpWagFirewall c.T .egress now (runEvents c st1 evs) pkt).1 with
  | DROP => rfl
  | PASS =>
    obtain ⟨-, -, r, hr, hacc⟩ := hv.2.mp hx
    unfold publicMatch at hpm
    rw [hr] at hpm
    simp only at hpm
    rw [hacc] at hpm
    exact absurd hpm (by simp)

/-- Instance of C18 (as amended), on scenario 1 of the spec: after the
deauthentication and the events of `scenarioEvents`, the packet of the device to
the mfa route 8.8.8.8 has no public match and is dropped. -/
theorem deauthenticate_public_only_witness :
    Deauthenticate scenarioTables [192, 168, 1, 2] = some scenarioDeauthed ∧
    IsAuthed 20 (runEvents exampleController scenarioDeauthed scenarioEvents)
      [192, 168, 1, 2] = false ∧
    (XdpWagFirewall exampleController.T .egress 20
      (runEvents exampleController scenarioDeauthed scenarioEvents)
      ⟨4, true, [192, 168, 1, 2], [8, 8, 8, 8], 6, 443⟩).1 = .DROP :=
  ⟨by decide,
    (deauthenticate_public_only exampleController scenarioTables scenarioDeauthed
      [192, 168, 1, 2] scenarioEvents 20 ⟨4, true, [192, 168, 1, 2], [8, 8, 8, 8], 6, 443⟩
      (by decide) (by intro t u h; simp [scenarioEvents] at h) rfl).1,
    (deauthenticate_public_only exampleController scenarioTables scenarioDeauthed
      [192, 168, 1, 2] scenarioEvents 20 ⟨4, true, [192, 168, 1, 2], [8, 8, 8, 8], 6, 443⟩
      (by decide) (by intro t u h; simp [scenarioEvents] at h) rfl).2 (by decide)⟩

/-- C18 (counterexample), on scenario 1 of the spec: `Deauthenticate` of the
device 192.168.1.2 succeeds and `IsAuthed` is false; in the egress direction
the packet to the mfa route 8.8.8.8 is dropped but the packets to the public
routes 1.1.1.1 and 11.11.11.11 get the verdict PASS; and in the ingress
direction, where the device of a packet is its destination, the packet from
192.168.1.2 to the authorized device 192.168.1.3 gets PASS on the mfa rule of
that device, with no `SetAuthorized` of 192.168.1.2 among the events. -/
theorem deauthenticate_public_passes :
    Deauthenticate scenarioTables [192, 168, 1, 2] = some scenarioDeauthed ∧
    IsAuthed 20 scenarioTables [192, 168, 1, 2] = true ∧
    IsAuthed 20 scenarioDeauthed [192, 168, 1, 2] = false ∧
    (XdpWagFirewall exampleTypes .egress 20 scenarioTables
      ⟨4, true, [192, 168, 1, 2], [8, 8, 8, 8], 6, 443⟩).1 = .PASS ∧
    (XdpWagFirewall exampleTypes .egress 20 scenarioDeauthed
      ⟨4, true, [192, 168, 1, 2], [8, 8, 8, 8], 6, 443⟩).1 = .DROP ∧
    (XdpWagFirewall exampleTypes .egress 20 scenarioDeauthed
      ⟨4, true, [192, 168, 1, 2], [1, 1, 1, 1], 6, 443⟩).1 = .PASS ∧
    (XdpWagFirewall exampleTypes .egress 20 scenarioDeauthed
      ⟨4, true, [192, 168, 1, 2], [11, 11, 11, 11], 17, 53⟩).1 = .PASS ∧
    ¬ (XdpWagFirewall exampleTypes .egress 20 scenarioDeauthed
      ⟨4, true, [192, 168, 1, 2], [1, 1, 1, 1], 6, 443⟩).1 = .DROP ∧
    IsAuthed 20 (runEvents exampleController scenarioDeauthed peerEvents)
      [192, 168, 1, 2] = false ∧
    publicMatch exampleTypes (runEvents exampleController scenarioDeauthed peerEvents)
      [192, 168, 1, 2] ⟨4, true, [192, 168, 1, 2], [192, 168, 1, 3], 6, 22⟩ = false ∧
    (XdpWagFirewall exampleTypes .egress 20
      (runEvents exampleController scenarioDeauthed peerEvents)
      ⟨4, true, [192, 168, 1, 2], [192, 168, 1, 3], 6, 22⟩).1 = .DROP ∧
    (XdpWagFirewall exampleTypes .ingress 20
      (runEvents exampleController scenarioDeauthed peerEvents)
      ⟨4, true, [192, 168, 1, 2], [192, 168, 1, 3], 6, 22⟩).1 = .PASS := by
  decide

/-! ## The claim on the merged policies of a key -/

/-- C3 (the code at the failing inputs): every line parses on its own in both
inputs.  On `["1.1.1.1 1/tcp 2/tcp 3/tcp", "example.com 9/tcp"]`, where
`example.com` has the A records 1.1.1.1 and 2.2.2.2, the merged policy list of
the key 1.1.1.1/32 has 4 entries, and `ParseRules` succeeds with two rules: the
second holds the key 1.1.1.1/32 as well and has `NumPolicies = 1`, its only
policy being `9/tcp`.  On the line of `dup.example` with 65 services, where the
resolver answers 3.3.3.3 twice, the merged policy list of the only key has 65
entries, not more than 128, and `ParseRules` returns the error of the
`MAX_POLICIES` check. -/
theorem parseRules_merge_miscounts :
    (∀ l ∈ ["1.1.1.1 1/tcp 2/tcp 3/tcp".toList, "example.com 9/tcp".toList],
      parsesAlone (exampleNet exampleHosts) exampleTypes 0 l) ∧
    mergedPolicies (exampleNet exampleHosts) exampleTypes
      ["1.1.1.1 1/tcp 2/tcp 3/tcp".toList, "example.com 9/tcp".toList] [] "1.1.1.1/32".toList =
      [⟨4, 6, 1, 0⟩, ⟨4, 6, 2, 0⟩, ⟨4, 6, 3, 0⟩, ⟨4, 6, 9, 0⟩] ∧
    (ParseRules (exampleNet exampleHosts) exampleTypes
      ["1.1.1.1 1/tcp 2/tcp 3/tcp".toList, "example.com 9/tcp".toList] []).isOk = true ∧
    (Outcome.value ([], []) (ParseRules (exampleNet exampleHosts) exampleTypes
      ["1.1.1.1 1/tcp 2/tcp 3/tcp".toList, "example.com 9/tcp".toList] [])).1.map
        (fun r => (r.Keys.map Key.String, r.NumPolicies)) =
      [(["1.1.1.1/32".toList], 4), (["1.1.1.1/32".toList, "2.2.2.2/32".toList], 1)] ∧
    (Outcome.value ([], []) (ParseRules (exampleNet exampleHosts) exampleTypes
      ["1.1.1.1 1/tcp 2/tcp 3/tcp".toList, "example.com 9/tcp".toList] [])).1.map
        (fun r => Rule.policies (Outcome.value ([], []) (ParseRules (exampleNet exampleHosts)
          exampleTypes ["1.1.1.1 1/tcp 2/tcp 3/tcp".toList, "example.com 9/tcp".toList] [])).2 r) =
      [[⟨4, 6, 1, 0⟩, ⟨4, 6, 2, 0⟩, ⟨4, 6, 3, 0⟩, ⟨4, 6, 9, 0⟩], [⟨4, 6, 9, 0⟩]] ∧
    parsesAlone (exampleNet repeatedHosts) exampleTypes 0 dupLine ∧
    (lineKeysAndPolicies (exampleNet repeatedHosts) exampleTypes 0 dupLine).1 =
      ["3.3.3.3/32".toList, "3.3.3.3/32".toList] ∧
    (mergedPolicies (exampleNet repeatedHosts) exampleTypes [dupLine] []
      "3.3.3.3/32".toList).length = 65 ∧
    (ParseRules (exampleNet repeatedHosts) exampleTypes [dupLine] []).error =
      some "number of policies defined was greather than max".toList := by
  decide

/-! ## The claim on the error of a rejected rule line -/

theorem parseSinglePort_error_cause (T : PolicyTypes) (port proto : List Char) (p : Policy)
    (e : Error) (h : parseSinglePort T port proto = (p, some e)) :
    (Atoi port = none ∧ e = "could not convert port defintion to number: ".toList ++ port) ∨
    (Atoi port ≠ none ∧ proto ≠ "any".toList ∧ proto ≠ "tcp".toList ∧ proto ≠ "udp".toList ∧
      e = "unknown service: ".toList ++ port ++ "/".toList ++ proto) := by
  unfold parseSinglePort at h
  cases ha : Atoi port with
  | none =>
    rw [ha] at h
    simp only [Prod.mk.injEq, Option.some.injEq] at h
    exact Or.inl ⟨rfl, h.2.symm⟩
  | some v =>
    rw [ha] at h
    simp only at h
    by_cases h1 : proto = "any".toList
    · rw [if_pos h1] at h; simp at h
    · rw [if_neg h1] at h
      by_cases h2 : proto = "tcp".toList ∨ proto = "udp".toList
      · rw [if_pos h2] at h; simp at h
      · rw [if_neg h2] at h
        simp only [Prod.mk.injEq, Option.some.injEq] at h
        exact Or.inr ⟨by simp, h1, fun e1 => h2 (Or.inl e1), fun e1 => h2 (Or.inr e1),
          h.2.symm⟩

theorem parsePortRange_error_cause (T : PolicyTypes) (lo hi proto : List Char) (p : Policy)
    (e : Error) (h : parsePortRange T lo hi proto = (p, some e)) :
    (Atoi lo = none ∧ e = "could not convert lower port defintion to number: ".toList ++ lo) ∨
    (Atoi lo ≠ none ∧ Atoi hi = none ∧
      e = "could not convert upper port defintion to number: ".toList ++ hi) ∨
    (∃ x y, Atoi lo = some x ∧ Atoi hi = some y ∧ y < x ∧
      e = "lower port cannot be higher than upper power: lower: ".toList ++ lo ++
        " upper: ".toList ++ hi) ∨
    (∃ x y, Atoi lo = some x ∧ Atoi hi = some y ∧ x ≤ y ∧
      (proto ≠ "any".toList ∧ proto ≠ "tcp".toList ∧ proto ≠ "udp".toList) ∧
      e = "unknown service: ".toList ++ proto) := by
  unfold parsePortRange at h
  cases ha : Atoi lo with
  | none =>
    rw [ha] at h
    simp only [Prod.mk.injEq, Option.some.injEq] at h
    exact Or.inl ⟨rfl, h.2.symm⟩
  | some a =>
    rw [ha] at h
    simp only at h
    cases hb : Atoi hi with
    | none =>
      rw [hb] at h
      simp only [Prod.mk.injEq, Option.some.injEq] at h
      exact Or.inr (Or.inl ⟨by simp, rfl, h.2.symm⟩)
    | some b =>
      rw [hb] at h
      simp only at h
      by_cases hgt : a > b
      · rw [if_pos hgt] at h
        simp only [Prod.mk.injEq, Option.some.injEq] at h
        exact Or.inr (Or.inr (Or.inl ⟨a, b, rfl, rfl, hgt, h.2.symm⟩))
      · rw [if_neg hgt] at h
        by_cases h1 : proto = "any".toList
        · rw [if_pos h1] at h; simp at h
        · rw [if_neg h1] at h
          by_cases h2 : proto = "tcp".toList ∨ proto = "udp".toList
          · rw [if_pos h2] at h; simp at h
          · rw [if_neg h2] at h
            simp only [Prod.mk.injEq, Option.some.injEq] at h
            exact Or.inr (Or.inr (Or.inr ⟨a, b, rfl, rfl, not_lt.mp hgt,
              ⟨h1, fun e1 => h2 (Or.inl e1), fun e1 => h2 (Or.inr e1)⟩, h.2.symm⟩))

/-- A protocol that is none of `tcp`, `udp`, `any` after `strings.ToLower` is not
one of them in any letter case. -/
theorem not_isProto_of_toLower (p1 : List Char)
    (h : ToLower p1 ≠ "any".toList ∧ ToLower p1 ≠ "tcp".toList ∧ ToLower p1 ≠ "udp".toList) :
    ¬ isProto p1 := by
  intro hp
  rcases hp with hp | hp | hp
  · exact h.2.1 (toLower_of_letterCase _ p1 (Or.inl rfl) hp).1
  · exact h.2.2 (toLower_of_letterCase _ p1 (Or.inr (Or.inl rfl)) hp).1
  · exact h.1 (toLower_of_letterCase _ p1 (Or.inr (Or.inr rfl)) hp).1

/-- The error text of `parseService` on a field, case by case. -/
theorem parseService_error (T : PolicyTypes) (f : List Char) (p : Policy) (e : Error)
    (h : parseService T f = (p, some e)) : serviceError f e := by
  unfold parseService at h
  cases hs : Split f '/' with
  | nil => exact absurd hs (splitAux_ne_nil '/' f [])
  | cons p0 ps =>
    obtain ⟨hp0, hseq, hall⟩ := split_eq_cons '/' f p0 ps hs
    rw [hs] at h
    cases ps with
    | nil =>
      simp only [List.map_nil, List.flatten_nil, List.append_nil] at hseq
      simp only at h
      by_cases hi : p0 = "icmp".toList
      · rw [if_pos hi] at h; simp at h
      · rw [if_neg hi] at h
        simp only [Prod.mk.injEq, Option.some.injEq] at h
        exact Or.inl ⟨by rw [hseq]; exact hp0, by rw [hseq]; exact hi, h.2.symm⟩
    | cons p1 rest =>
      right
      simp only at h
      have hp1 : '/' ∉ p1 := hall p1 (by simp)
      have hshape : f = p0 ++ '/' :: p1 ++ (rest.map (fun q => '/' :: q)).flatten := by
        rw [hseq]; simp
      refine ⟨p0, p1, (rest.map (fun q => '/' :: q)).flatten, hshape, hp0, hp1,
        flatten_sep_shape '/' rest, ?_⟩
      cases hd : Split p0 '-' with
      | nil => exact absurd hd (splitAux_ne_nil '-' p0 [])
      | cons lo more =>
        obtain ⟨hlo, hdeq, hdall⟩ := split_eq_cons '-' p0 lo more hd
        rw [hd] at h
        cases more with
        | nil =>
          simp only at h
          simp only [List.map_nil, List.flatten_nil, List.append_nil] at hdeq
          left
          refine ⟨by rw [hdeq]; exact hlo, ?_⟩
          rcases parseSinglePort_error_cause T p0 (ToLower p1) p e h with
            ⟨h1, he⟩ | ⟨h1, ha, ht, hu, he⟩
          · exact Or.inl ⟨h1, he⟩
          · exact Or.inr ⟨h1, not_isProto_of_toLower p1 ⟨ha, ht, hu⟩, he⟩
        | cons hi more1 =>
          simp only at h
          right
          refine ⟨lo, hi, (more1.map (fun q => '-' :: q)).flatten, by rw [hdeq]; simp, hlo,
            hdall hi (by simp), flatten_sep_shape '-' more1, ?_⟩
          rcases parsePortRange_error_cause T lo hi (ToLower p1) p e h with
            ⟨h1, he⟩ | ⟨h1, h2, he⟩ | ⟨x, y, hx, hy, hxy, he⟩ | ⟨x, y, hx, hy, hxy, hpr, he⟩
          · exact Or.inl ⟨h1, he⟩
          · exact Or.inr (Or.inl ⟨h1, h2, he⟩)
          · exact Or.inr (Or.inr (Or.inl ⟨x, y, hx, hy, hxy, he⟩))
          · exact Or.inr (Or.inr (Or.inr ⟨x, y, hx, hy, hxy, not_isProto_of_toLower p1 hpr, he⟩))

/-- An error of the loop of `parseRule` is the error of the first field that
`parseService` rejects. -/
theorem parseRuleLoop_error_split (T : PolicyTypes) (t : Nat) (services : List (List Char)) :
    ∀ (h : Heap) (rules : Rule) (e : Error),
      (parseRuleLoop T t services h rules).2 = some e →
      ∃ pre f post p, services = pre ++ f :: post ∧
        (∀ s ∈ pre, (parseService T s).2 = none) ∧ parseService T f = (p, some e) := by
  induction services with
  | nil =>
    intro h rules e he
    simp [parseRuleLoop] at he
  | cons s rest ih =>
    intro h rules e he
    rw [parseRuleLoop] at he
    cases hp : parseService T s with
    | mk q e1 =>
      rw [hp] at he
      cases e1 with
      | some err =>
        simp only [Option.some.injEq] at he
        subst he
        exact ⟨[], s, rest, q, rfl, by simp, hp⟩
      | none =>
        simp only at he
        obtain ⟨pre, f, post, p, h1, h2, h3⟩ := ih _ _ e he
        refine ⟨s :: pre, f, post, p, by rw [h1]; rfl, ?_, h3⟩
        intro x hx
        rcases List.mem_cons.mp hx with rfl | hx
        · rw [hp]
        · exact h2 x hx

/-- C17 (as amended): a rule line without a field is rejected with a text that
names no field.  For a line with the fields `address :: services`, an error of
the address is the error of `parseRule`, whatever the services are, and its
text holds the address verbatim; when the address parses, the error of the
first service field that `parseService` rejects is the error of `parseRule`,
whatever the later fields are, and `serviceError` says what its text holds of
the field: the whole field verbatim only when the field has no `"/"`.  Every
error of `parseRule` is one of these. -/
theorem parseRule_first_error (env : NetEnv) (T : PolicyTypes) (h : Heap) (t : Nat)
    (line : List Char) :
    (Fields line = [] → (parseRule env T h t line).error =
      some "could not split correct number of rules".toList) ∧
    (∀ address services, Fields line = address :: services →
      (∀ ks e, parseKeys env address = .ret ks (some e) →
        (parseRule env T h t line).error =
          some ("could not parse keys from address ".toList ++ address ++
            " err: ".toList ++ e)) ∧
      (∀ keys pre f post p e, parseKeys env address = .ret keys none →
        services = pre ++ f :: post → (∀ s ∈ pre, (parseService T s).2 = none) →
        parseService T f = (p, some e) →
        (parseRule env T h t line).error = some e ∧ serviceError f e)) ∧
    (∀ e, (parseRule env T h t line).error = some e →
      Fields line = [] ∨
      ∃ address services, Fields line = address :: services ∧
        ((∃ ks e1, parseKeys env address = .ret ks (some e1)) ∨
         (∃ keys pre f post p, parseKeys env address = .ret keys none ∧
            services = pre ++ f :: post ∧ (∀ s ∈ pre, (parseService T s).2 = none) ∧
            parseService T f = (p, some e)))) := by
  refine ⟨?_, ?_, ?_⟩
  · intro hf
    unfold parseRule
    rw [hf]
    rfl
  · intro address services hf
    constructor
    · intro ks e hk
      unfold parseRule
      rw [hf]
      simp only [hk, Outcome.error]
    · intro keys pre f post p e hk hs hpre hfe
      refine ⟨?_, parseService_error T f p e hfe⟩
      have hne : services ≠ [] := by rw [hs]; simp
      unfold parseRule
      rw [hf]
      simp only [hk, if_neg hne]
      have := parseRuleLoop_first_error T t pre f post h ⟨keys, 0, Slice.empty⟩ p e hpre hfe
      rw [← hs] at this
      cases hl : parseRuleLoop T t services h ⟨keys, 0, Slice.empty⟩ with
      | mk val err =>
        rw [hl] at this
        simp only at this
        simp only [Outcome.error, this]
  · intro e he
    cases hf : Fields line with
    | nil => exact Or.inl rfl
    | cons address services =>
      right
      refine ⟨address, services, rfl, ?_⟩
      unfold parseRule at he
      rw [hf] at he
      simp only at he
      cases hk : parseKeys env address with
      | fault msg =>
        rw [hk] at he
        simp [Outcome.error] at he
      | ret ks e1 =>
        cases e1 with
        | some err => exact Or.inl ⟨ks, err, rfl⟩
        | none =>
          right
          rw [hk] at he
          simp only at he
          by_cases hne : services = []
          · rw [if_pos hne] at he
            simp [Outcome.error] at he
          · rw [if_neg hne] at he
            cases hl : parseRuleLoop T t services h ⟨ks, 0, Slice.empty⟩ with
            | mk val err =>
              rw [hl] at he
              simp only [Outcome.error] at he
              have hl2 : (parseRuleLoop T t services h ⟨ks, 0, Slice.empty⟩).2 = some e := by
                rw [hl]; exact he
              obtain ⟨pre, f, post, p, h1, h2, h3⟩ :=
                parseRuleLoop_error_split T t services h ⟨ks, 0, Slice.empty⟩ e hl2
              exact ⟨ks, pre, f, post, p, rfl, h1, h2, h3⟩

/-- Witness of C17 (as amended): a line without a field, a name that does not
resolve, and a line whose second service field is at fault. -/
theorem parseRule_first_error_witness :
    (parseRule (exampleNet []) exampleTypes [] 0 "  ".toList).error =
      some "could not split correct number of rules".toList ∧
    (parseRule (exampleNet []) exampleTypes [] 0 "Nowhere.example 80/FOO".toList).error =
      some ("could not parse keys from address Nowhere.example err: " ++
        "unable to resolve address from: Nowhere.example").toList ∧
    ((parseRule (exampleNet []) exampleTypes [] 0 "1.1.1.1 80/tcp Abc/TCP zzz".toList).error =
      some "could not convert port defintion to number: Abc".toList ∧
      serviceError "Abc/TCP".toList "could not convert port defintion to number: Abc".toList) :=
  ⟨(parseRule_first_error (exampleNet []) exampleTypes [] 0 "  ".toList).1 (by decide),
    ((parseRule_first_error (exampleNet []) exampleTypes [] 0
      "Nowhere.example 80/FOO".toList).2.1
      "Nowhere.example".toList ["80/FOO".toList] (by decide)).1 []
      "unable to resolve address from: Nowhere.example".toList (by decide),
    ((parseRule_first_error (exampleNet []) exampleTypes [] 0
      "1.1.1.1 80/tcp Abc/TCP zzz".toList).2.1
      "1.1.1.1".toList ["80/tcp".toList, "Abc/TCP".toList, "zzz".toList] (by decide)).2
      [⟨32, [1, 1, 1, 1]⟩] ["80/tcp".toList] "Abc/TCP".toList ["zzz".toList] Policy.zero
      "could not convert port defintion to number: Abc".toList
      (by decide) (by decide) (by decide) (by decide)⟩

/-- C17 (counterexample): the error text does not hold the field at fault as it
is written.  For `80/FOO` it is `unknown service: 80/foo`; for `abc/tcp` it
holds the port `abc` alone; for `1-2/FOO` it is `unknown service: foo`, without
the ports; for `5-1/tcp` it holds `5` and `1` apart; for `80/É` it is
`unknown service: 80/é`. -/
theorem parseRule_error_not_verbatim :
    (parseRule (exampleNet []) exampleTypes [] 0 "1.1.1.1 80/FOO".toList).error =
      some "unknown service: 80/foo".toList ∧
    ¬ ("80/FOO".toList <:+: "unknown service: 80/foo".toList) ∧
    (parseRule (exampleNet []) exampleTypes [] 0 "1.1.1.1 abc/tcp".toList).error =
      some "could not convert port defintion to number: abc".toList ∧
    ¬ ("abc/tcp".toList <:+: "could not convert port defintion to number: abc".toList) ∧
    (parseRule (exampleNet []) exampleTypes [] 0 "1.1.1.1 1-2/FOO".toList).error =
      some "unknown service: foo".toList ∧
    ¬ ("1-2/FOO".toList <:+: "unknown service: foo".toList) ∧
    ¬ ("1-2".toList <:+: "unknown service: foo".toList) ∧
    (parseRule (exampleNet []) exampleTypes [] 0 "1.1.1.1 5-1/tcp".toList).error =
      some "lower port cannot be higher than upper power: lower: 5 upper: 1".toList ∧
    ¬ ("5-1".toList <:+:
      "lower port cannot be higher than upper power: lower: 5 upper: 1".toList) ∧
    (parseRule (exampleNet []) exampleTypes [] 0 "1.1.1.1 80/É".toList).error =
      some "unknown service: 80/é".toList ∧
    ¬ ("80/É".toList <:+: "unknown service: 80/é".toList) := by
  decide

end Wag
